import Mathlib

/-!
# Verification of the `drafter` typing-plan core

A shallow embedding of the planner, keyboard map, word-navigation
primitives, phrase-alternative validator and plan simulator of the
`drafter` repository, together with proofs settling the frozen claims
about it.

Conventions of the embedding:
* Rust `&str` / `String` values are modelled as `List Char`; byte indices
  are recovered through `Char.utf8Size` where the source works with bytes.
* Rust `f64` values are modelled as `ℚ`.  A Gaussian sample
  (`rand_distr::Normal`, produced by Box–Muller in the source) is modelled
  by `normalSample`, which turns the next raw stream value into a
  signed "z-score" scaled by the standard deviation, so that samples on
  both sides of the mean and far into the tails are representable.
* The random generator (`rand::Rng`) is modelled as an infinite stream of
  natural numbers together with a read position; each primitive draw
  consumes exactly one stream element, mirroring the order of `rng.*`
  calls in the source.  `gen_bool p` compares the raw draw against
  `p·2^64` (always false at `p = 0`, always true at `p = 1`, matching
  `rand`'s fixed-point Bernoulli), `gen_range lo..=hi` reduces the draw
  modulo the size of the range.
-/

namespace Drafter

/- `Rat`'s arithmetic is `@[irreducible]`, which blocks `decide`/`rfl`
evaluation of concrete plans; the kernel is unaffected by reducibility
attributes, so making it semireducible only lets the elaborator evaluate. -/
set_option allowUnsafeReducibility true

attribute [local semireducible] Rat.add Rat.sub Rat.mul Rat.div Rat.neg Rat.inv

instance {ε α : Type} [DecidableEq ε] [DecidableEq α] : DecidableEq (Except ε α)
  | .ok a, .ok b => decidable_of_iff (a = b) (by simp)
  | .error e, .error f => decidable_of_iff (e = f) (by simp)
  | .ok _, .error _ => isFalse (by simp)
  | .error _, .ok _ => isFalse (by simp)

/-- Model of `rand::Rng`: an infinite stream of raw naturals plus a cursor. -/
structure Rng where
  stream : Nat → Nat
  idx : Nat

def Rng.next (r : Rng) : Nat × Rng :=
  (r.stream r.idx, ⟨r.stream, r.idx + 1⟩)

/-- `rng.gen_range(lo..=hi)` on integers (`lo ≤ hi`): some value in `[lo, hi]`. -/
def genRangeNat (lo hi : Nat) (r : Rng) : Nat × Rng :=
  let p := r.next
  (lo + p.1 % (hi + 1 - lo), p.2)

/-- `rng.gen_range(lo..hi)` on integers, half-open (`lo < hi`). -/
def genRangeLt (lo hi : Nat) (r : Rng) : Nat × Rng :=
  let p := r.next
  (lo + p.1 % (hi - lo), p.2)

/-- `rng.gen_bool(p)`: the draw is below the fixed-point threshold `p·2^64`. -/
def genBool (p : ℚ) (r : Rng) : Bool × Rng :=
  let q := r.next
  (decide (((q.1 % 18446744073709551616 : Nat) : ℚ) < p * 18446744073709551616), q.2)

/-- `rng.gen_range(lo..=hi)` on `f64`, modelled over `ℚ`: a value in `[lo, hi]`. -/
def genRangeQ (lo hi : ℚ) (r : Rng) : ℚ × Rng :=
  let p := r.next
  (lo + (hi - lo) * (((p.1 % 9007199254740993 : Nat) : ℚ) / 9007199254740992), p.2)

/-- Model of drawing from `Normal(mean, stddev)`: the raw draw is decoded to a
z-score in `[-1000, 1000]` (granularity `1/1000`) and scaled.  -/
def normalSample (mean stddev : ℚ) (r : Rng) : ℚ × Rng :=
  let p := r.next
  (mean + stddev * ((((p.1 % 2000001 : Nat) : ℚ) - 1000000) / 1000), p.2)

/-! ## `model.rs`: the plan data model -/

inductive KeyState where
  | pressed
  | released
deriving DecidableEq, Repr

inductive Action where
  | wait (ms : Nat)
  | modifiers (mods_depressed mods_latched mods_locked group : Nat)
  | key (keycode : Nat) (state : KeyState)
deriving DecidableEq, Repr

structure PlanConfig where
  layout : String
  keymap_format : Nat
  keymap : String
  wpm_target : ℚ
deriving DecidableEq, Repr

structure Plan where
  version : Nat
  config : PlanConfig
  actions : List Action
deriving DecidableEq, Repr

/-! ## `keyboard.rs`: keycodes and the US-QWERTY keystroke map -/

def KEY_1 : Nat := 2
def KEY_2 : Nat := 3
def KEY_3 : Nat := 4
def KEY_4 : Nat := 5
def KEY_5 : Nat := 6
def KEY_6 : Nat := 7
def KEY_7 : Nat := 8
def KEY_8 : Nat := 9
def KEY_9 : Nat := 10
def KEY_0 : Nat := 11
def KEY_MINUS : Nat := 12
def KEY_EQUAL : Nat := 13
def KEY_BACKSPACE : Nat := 14
def KEY_Q : Nat := 16
def KEY_W : Nat := 17
def KEY_E : Nat := 18
def KEY_R : Nat := 19
def KEY_T : Nat := 20
def KEY_Y : Nat := 21
def KEY_U : Nat := 22
def KEY_I : Nat := 23
def KEY_O : Nat := 24
def KEY_P : Nat := 25
def KEY_LEFTBRACE : Nat := 26
def KEY_RIGHTBRACE : Nat := 27
def KEY_ENTER : Nat := 28
def KEY_LEFTCTRL : Nat := 29
def KEY_A : Nat := 30
def KEY_S : Nat := 31
def KEY_D : Nat := 32
def KEY_F : Nat := 33
def KEY_G : Nat := 34
def KEY_H : Nat := 35
def KEY_J : Nat := 36
def KEY_K : Nat := 37
def KEY_L : Nat := 38
def KEY_SEMICOLON : Nat := 39
def KEY_APOSTROPHE : Nat := 40
def KEY_GRAVE : Nat := 41
def KEY_LEFTSHIFT : Nat := 42
def KEY_BACKSLASH : Nat := 43
def KEY_Z : Nat := 44
def KEY_X : Nat := 45
def KEY_C : Nat := 46
def KEY_V : Nat := 47
def KEY_B : Nat := 48
def KEY_N : Nat := 49
def KEY_M : Nat := 50
def KEY_COMMA : Nat := 51
def KEY_DOT : Nat := 52
def KEY_SLASH : Nat := 53
def KEY_RIGHTSHIFT : Nat := 54
def KEY_SPACE : Nat := 57
def KEY_DELETE : Nat := 111
def KEY_LEFT : Nat := 105
def KEY_RIGHT : Nat := 106

structure KeyStroke where
  keycode : Nat
  shift : Bool
deriving DecidableEq, Repr

/-- Rust `char::is_ascii_graphic`. -/
def isAsciiGraphic (c : Char) : Bool :=
  33 ≤ c.toNat && c.toNat ≤ 126

/-- `typed_char_for_output_char`: the ASCII keystroke actually typed to obtain
an output character; smart quotes rely on editor auto-substitution. -/
def typed_char_for_output_char (c : Char) : Option Char :=
  if c = '\n' then some '\n'
  else if c = '\t' ∨ c = '\r' then none
  else if c = '’' ∨ c = '‘' then some '\''
  else if c = '”' ∨ c = '“' then some '"'
  else if isAsciiGraphic c ∨ c = ' ' then some c
  else none

def char_to_keystroke (c : Char) : Option KeyStroke :=
  match c with
  | 'a' => some ⟨KEY_A, false⟩
  | 'b' => some ⟨KEY_B, false⟩
  | 'c' => some ⟨KEY_C, false⟩
  | 'd' => some ⟨KEY_D, false⟩
  | 'e' => some ⟨KEY_E, false⟩
  | 'f' => some ⟨KEY_F, false⟩
  | 'g' => some ⟨KEY_G, false⟩
  | 'h' => some ⟨KEY_H, false⟩
  | 'i' => some ⟨KEY_I, false⟩
  | 'j' => some ⟨KEY_J, false⟩
  | 'k' => some ⟨KEY_K, false⟩
  | 'l' => some ⟨KEY_L, false⟩
  | 'm' => some ⟨KEY_M, false⟩
  | 'n' => some ⟨KEY_N, false⟩
  | 'o' => some ⟨KEY_O, false⟩
  | 'p' => some ⟨KEY_P, false⟩
  | 'q' => some ⟨KEY_Q, false⟩
  | 'r' => some ⟨KEY_R, false⟩
  | 's' => some ⟨KEY_S, false⟩
  | 't' => some ⟨KEY_T, false⟩
  | 'u' => some ⟨KEY_U, false⟩
  | 'v' => some ⟨KEY_V, false⟩
  | 'w' => some ⟨KEY_W, false⟩
  | 'x' => some ⟨KEY_X, false⟩
  | 'y' => some ⟨KEY_Y, false⟩
  | 'z' => some ⟨KEY_Z, false⟩
  | 'A' => some ⟨KEY_A, true⟩
  | 'B' => some ⟨KEY_B, true⟩
  | 'C' => some ⟨KEY_C, true⟩
  | 'D' => some ⟨KEY_D, true⟩
  | 'E' => some ⟨KEY_E, true⟩
  | 'F' => some ⟨KEY_F, true⟩
  | 'G' => some ⟨KEY_G, true⟩
  | 'H' => some ⟨KEY_H, true⟩
  | 'I' => some ⟨KEY_I, true⟩
  | 'J' => some ⟨KEY_J, true⟩
  | 'K' => some ⟨KEY_K, true⟩
  | 'L' => some ⟨KEY_L, true⟩
  | 'M' => some ⟨KEY_M, true⟩
  | 'N' => some ⟨KEY_N, true⟩
  | 'O' => some ⟨KEY_O, true⟩
  | 'P' => some ⟨KEY_P, true⟩
  | 'Q' => some ⟨KEY_Q, true⟩
  | 'R' => some ⟨KEY_R, true⟩
  | 'S' => some ⟨KEY_S, true⟩
  | 'T' => some ⟨KEY_T, true⟩
  | 'U' => some ⟨KEY_U, true⟩
  | 'V' => some ⟨KEY_V, true⟩
  | 'W' => some ⟨KEY_W, true⟩
  | 'X' => some ⟨KEY_X, true⟩
  | 'Y' => some ⟨KEY_Y, true⟩
  | 'Z' => some ⟨KEY_Z, true⟩
  | '1' => some ⟨KEY_1, false⟩
  | '2' => some ⟨KEY_2, false⟩
  | '3' => some ⟨KEY_3, false⟩
  | '4' => some ⟨KEY_4, false⟩
  | '5' => some ⟨KEY_5, false⟩
  | '6' => some ⟨KEY_6, false⟩
  | '7' => some ⟨KEY_7, false⟩
  | '8' => some ⟨KEY_8, false⟩
  | '9' => some ⟨KEY_9, false⟩
  | '0' => some ⟨KEY_0, false⟩
  | '!' => some ⟨KEY_1, true⟩
  | '@' => some ⟨KEY_2, true⟩
  | '#' => some ⟨KEY_3, true⟩
  | '$' => some ⟨KEY_4, true⟩
  | '%' => some ⟨KEY_5, true⟩
  | '^' => some ⟨KEY_6, true⟩
  | '&' => some ⟨KEY_7, true⟩
  | '*' => some ⟨KEY_8, true⟩
  | '(' => some ⟨KEY_9, true⟩
  | ')' => some ⟨KEY_0, true⟩
  | '-' => some ⟨KEY_MINUS, false⟩
  | '_' => some ⟨KEY_MINUS, true⟩
  | '=' => some ⟨KEY_EQUAL, false⟩
  | '+' => some ⟨KEY_EQUAL, true⟩
  | '[' => some ⟨KEY_LEFTBRACE, false⟩
  | '\x7b' => some ⟨KEY_LEFTBRACE, true⟩
  | ']' => some ⟨KEY_RIGHTBRACE, false⟩
  | '\x7d' => some ⟨KEY_RIGHTBRACE, true⟩
  | '\\' => some ⟨KEY_BACKSLASH, false⟩
  | '|' => some ⟨KEY_BACKSLASH, true⟩
  | ';' => some ⟨KEY_SEMICOLON, false⟩
  | ':' => some ⟨KEY_SEMICOLON, true⟩
  | '\'' => some ⟨KEY_APOSTROPHE, false⟩
  | '"' => some ⟨KEY_APOSTROPHE, true⟩
  | '`' => some ⟨KEY_GRAVE, false⟩
  | '~' => some ⟨KEY_GRAVE, true⟩
  | ',' => some ⟨KEY_COMMA, false⟩
  | '<' => some ⟨KEY_COMMA, true⟩
  | '.' => some ⟨KEY_DOT, false⟩
  | '>' => some ⟨KEY_DOT, true⟩
  | '/' => some ⟨KEY_SLASH, false⟩
  | '?' => some ⟨KEY_SLASH, true⟩
  | ' ' => some ⟨KEY_SPACE, false⟩
  | '\n' => some ⟨KEY_ENTER, false⟩
  | _ => none

def keystroke_for_output_char (c : Char) : Option KeyStroke :=
  (typed_char_for_output_char c).bind char_to_keystroke

def is_supported_final_text (text : List Char) : Bool :=
  text.all (fun c => (keystroke_for_output_char c).isSome)

/-- `find_first_unsupported_char`: the byte index (per `char_indices`) and the
first character with no keystroke. -/
def findFirstUnsupportedAux (bytePos : Nat) : List Char → Option (Nat × Char)
  | [] => none
  | c :: cs =>
    if (keystroke_for_output_char c).isSome then
      findFirstUnsupportedAux (bytePos + c.utf8Size) cs
    else
      some (bytePos, c)

def find_first_unsupported_char (text : List Char) : Option (Nat × Char) :=
  findFirstUnsupportedAux 0 text

/-- Rust `char::is_ascii_uppercase`. -/
def isAsciiUppercase (c : Char) : Bool :=
  'A' ≤ c && c ≤ 'Z'

def asciiUpper (c : Char) : Char :=
  if 'a' ≤ c ∧ c ≤ 'z' then Char.ofNat (c.toNat - 32) else c

def asciiLower (c : Char) : Char :=
  if 'A' ≤ c ∧ c ≤ 'Z' then Char.ofNat (c.toNat + 32) else c

/-- QWERTY neighbours of a (lower-cased) base key; `[]` for keys with no
neighbour entry (the `_ => return None` arm). -/
def neighborList (base : Char) : List Char :=
  match base with
  | 'a' => ['q', 'w', 's', 'z', 'x']
  | 'b' => ['v', 'g', 'h', 'n']
  | 'c' => ['x', 'd', 'f', 'v']
  | 'd' => ['s', 'e', 'r', 'f', 'c', 'x']
  | 'e' => ['w', 's', 'd', 'r']
  | 'f' => ['d', 'r', 't', 'g', 'v', 'c']
  | 'g' => ['f', 't', 'y', 'h', 'b', 'v']
  | 'h' => ['g', 'y', 'u', 'j', 'n', 'b']
  | 'i' => ['u', 'j', 'k', 'o']
  | 'j' => ['h', 'u', 'i', 'k', 'm', 'n']
  | 'k' => ['j', 'i', 'o', 'l', ',', 'm']
  | 'l' => ['k', 'o', 'p', ';', '.']
  | 'm' => ['n', 'j', 'k', ',']
  | 'n' => ['b', 'h', 'j', 'm']
  | 'o' => ['i', 'k', 'l', 'p']
  | 'p' => ['o', 'l', '[']
  | 'q' => ['w', 'a']
  | 'r' => ['e', 'd', 'f', 't']
  | 's' => ['a', 'w', 'e', 'd', 'x', 'z']
  | 't' => ['r', 'f', 'g', 'y']
  | 'u' => ['y', 'h', 'j', 'i']
  | 'v' => ['c', 'f', 'g', 'b']
  | 'w' => ['q', 'a', 's', 'e']
  | 'x' => ['z', 's', 'd', 'c']
  | 'y' => ['t', 'g', 'h', 'u']
  | 'z' => ['a', 's', 'x']
  | '1' => ['2', 'q']
  | '2' => ['1', '3', 'q', 'w']
  | '3' => ['2', '4', 'w', 'e']
  | '4' => ['3', '5', 'e', 'r']
  | '5' => ['4', '6', 'r', 't']
  | '6' => ['5', '7', 't', 'y']
  | '7' => ['6', '8', 'y', 'u']
  | '8' => ['7', '9', 'u', 'i']
  | '9' => ['8', '0', 'i', 'o']
  | '0' => ['9', 'o', 'p']
  | _ => []

def qwerty_adjacent_char (c : Char) (r : Rng) : Option Char × Rng :=
  let base := if isAsciiUppercase c then asciiLower c else c
  let makeUpper := isAsciiUppercase c
  let nb := neighborList base
  if nb.isEmpty then (none, r)
  else
    let p := genRangeLt 0 nb.length r
    let chosen := nb.getD p.1 ' '
    (some (if makeUpper then asciiUpper chosen else chosen), p.2)

/-! ## `word_nav.rs`: Ctrl+Left / Ctrl+Right cursor destinations -/

inductive CharClass where
  | word
  | whitespace
  | punctuation
deriving DecidableEq, Repr

/-- Rust `char::is_ascii_whitespace`. -/
def isAsciiWhitespace (c : Char) : Bool :=
  c = ' ' || c = '\t' || c = '\n' || c = '\x0c' || c = '\r'

def classify_char (iw : Char → Bool) (c : Char) : CharClass :=
  if isAsciiWhitespace c then .whitespace
  else if iw c then .word
  else .punctuation

/-- `while idx > 0 && p(buf[idx-1]) { idx -= 1 }`. -/
def skipLeftWhile (buf : List Char) (p : Char → Bool) : Nat → Nat
  | 0 => 0
  | idx + 1 => if p (buf.getD idx ' ') then skipLeftWhile buf p idx else idx + 1

/-- `while idx < buf.len() && p(buf[idx]) { idx += 1 }`. -/
def skipRightWhile (buf : List Char) (p : Char → Bool) (idx : Nat) : Nat :=
  idx + ((buf.drop idx).takeWhile p).length

def ctrl_left (buf : List Char) (cursor : Nat) (iw : Char → Bool) : Nat :=
  let idx := min cursor buf.length
  if idx = 0 then 0
  else
    let idx1 := skipLeftWhile buf (fun c => classify_char iw c == .whitespace) idx
    if idx1 = 0 then 0
    else
      let cls := classify_char iw (buf.getD (idx1 - 1) ' ')
      skipLeftWhile buf (fun c => classify_char iw c == cls) idx1

def ctrl_right (buf : List Char) (cursor : Nat) (iw : Char → Bool) : Nat :=
  let idx := min cursor buf.length
  if buf.length ≤ idx then buf.length
  else
    let startedInWhitespace := classify_char iw (buf.getD idx ' ') == .whitespace
    let idx1 := skipRightWhile buf (fun c => classify_char iw c == .whitespace) idx
    if buf.length ≤ idx1 then buf.length
    else if startedInWhitespace then idx1
    else
      let cls := classify_char iw (buf.getD idx1 ' ')
      skipRightWhile buf (fun c => classify_char iw c == cls) idx1

/-! ## `word_nav_profile.rs`: the jump-safety predicate -/

inductive WordNavProfile where
  | chrome
  | compatible
deriving DecidableEq, Repr

/-- Rust `char::is_ascii_alphanumeric`. -/
def isAsciiAlphanumeric (c : Char) : Bool :=
  ('a' ≤ c && c ≤ 'z') || ('A' ≤ c && c ≤ 'Z') || ('0' ≤ c && c ≤ '9')

def compatible_ctrl_span_is_safe (span : List Char) : Bool :=
  span.all (fun c => isAsciiAlphanumeric c || c = ' ')

/-- `buf[s..e]` for `s ≤ e ≤ buf.len()`. -/
def listSlice (l : List Char) (s e : Nat) : List Char :=
  (l.take e).drop s

def compatible_ctrl_jump_is_safe (buf : List Char) (frm dst : Nat) : Bool :=
  let len := buf.length
  let frm := min frm len
  let dst := min dst len
  if frm = dst then true
  else
    let start := min frm dst
    let stop := max frm dst
    if ¬ compatible_ctrl_span_is_safe (listSlice buf start stop) then false
    else if start > 0 && ¬ compatible_ctrl_span_is_safe (listSlice buf (start - 1) start) then false
    else if stop < len && ¬ compatible_ctrl_span_is_safe (listSlice buf stop (stop + 1)) then false
    else true

/-! ## `sim.rs`: the plan simulator -/

/-- `sim.rs`'s private `is_word_char` (no smart apostrophe). -/
def simIsWordChar (c : Char) : Bool :=
  isAsciiAlphanumeric c || c = '\''

structure SimEditorState where
  buf : List Char
  cursor : Nat
deriving DecidableEq, Repr

def SimEditorState.insert_char (e : SimEditorState) (c : Char) : SimEditorState :=
  ⟨e.buf.insertIdx e.cursor c, e.cursor + 1⟩

def SimEditorState.backspace (e : SimEditorState) : SimEditorState :=
  if e.cursor = 0 then e else ⟨e.buf.eraseIdx (e.cursor - 1), e.cursor - 1⟩

def SimEditorState.delete (e : SimEditorState) : SimEditorState :=
  if e.buf.length ≤ e.cursor then e else ⟨e.buf.eraseIdx e.cursor, e.cursor⟩

def SimEditorState.move_left (e : SimEditorState) : SimEditorState :=
  if 0 < e.cursor then ⟨e.buf, e.cursor - 1⟩ else e

def SimEditorState.move_right (e : SimEditorState) : SimEditorState :=
  if e.cursor < e.buf.length then ⟨e.buf, e.cursor + 1⟩ else e

def SimEditorState.move_word_left (e : SimEditorState) : SimEditorState :=
  ⟨e.buf, ctrl_left e.buf e.cursor simIsWordChar⟩

def SimEditorState.move_word_right (e : SimEditorState) : SimEditorState :=
  ⟨e.buf, ctrl_right e.buf e.cursor simIsWordChar⟩

/-- The candidate characters inserted into `us_qwerty_keystroke_map`:
`'\n'`, `' '`, then ASCII 33–126. -/
def simCandidates : List Char :=
  '\n' :: ' ' :: (List.range 94).map (fun i => Char.ofNat (33 + i))

/-- `us_qwerty_keystroke_map()` as an association list; keys are unique
because `char_to_keystroke` is injective on the candidates, so first-match
lookup coincides with the source's `HashMap` lookup. -/
def us_qwerty_keystroke_map : List ((Nat × Bool) × Char) :=
  simCandidates.filterMap fun c =>
    (keystroke_for_output_char c).map (fun s => ((s.keycode, s.shift), c))

def mapLookup (kc : Nat) (sh : Bool) : Option Char :=
  (us_qwerty_keystroke_map.find? (fun e => e.1.1 = kc && e.1.2 = sh)).map (·.2)

structure SimSt where
  editor : SimEditorState
  shift_down : Bool
  ctrl_down : Bool
deriving DecidableEq, Repr

def simStep (st : SimSt) (a : Action) : Except String SimSt :=
  match a with
  | .wait _ => .ok st
  | .modifiers _ _ _ _ => .ok st
  | .key keycode state =>
    if (keycode = KEY_LEFTSHIFT ∨ keycode = KEY_RIGHTSHIFT) ∧ state = .pressed then
      .ok ⟨st.editor, true, st.ctrl_down⟩
    else if (keycode = KEY_LEFTSHIFT ∨ keycode = KEY_RIGHTSHIFT) ∧ state = .released then
      .ok ⟨st.editor, false, st.ctrl_down⟩
    else if keycode = KEY_LEFTCTRL ∧ state = .pressed then
      .ok ⟨st.editor, st.shift_down, true⟩
    else if keycode = KEY_LEFTCTRL ∧ state = .released then
      .ok ⟨st.editor, st.shift_down, false⟩
    else if state = .released then
      .ok st
    else if keycode = KEY_LEFT then
      .ok ⟨if st.ctrl_down then st.editor.move_word_left else st.editor.move_left,
           st.shift_down, st.ctrl_down⟩
    else if keycode = KEY_RIGHT then
      .ok ⟨if st.ctrl_down then st.editor.move_word_right else st.editor.move_right,
           st.shift_down, st.ctrl_down⟩
    else if keycode = KEY_BACKSPACE then
      .ok ⟨st.editor.backspace, st.shift_down, st.ctrl_down⟩
    else if keycode = KEY_DELETE then
      .ok ⟨st.editor.delete, st.shift_down, st.ctrl_down⟩
    else if st.ctrl_down then
      .error "simulate_typed_text does not support Ctrl+keycode"
    else
      match mapLookup keycode st.shift_down with
      | some c => .ok ⟨st.editor.insert_char c, st.shift_down, st.ctrl_down⟩
      | none => .error "simulate_typed_text does not support keycode"

def simRun (acts : List Action) (st : SimSt) : Except String SimSt :=
  acts.foldlM simStep st

def simulate_typed_text (plan : Plan) : Except String (List Char) :=
  (simRun plan.actions ⟨⟨[], 0⟩, false, false⟩).map (fun st => st.editor.buf)

/-! ## `llm.rs`: phrase alternatives and their validator -/

structure PhraseAlternative where
  original : List Char
  alternative : List Char
deriving DecidableEq, Repr

/-- Rust `char::is_whitespace` (the Unicode `White_Space` property). -/
def isRustWhitespace (c : Char) : Bool :=
  c.toNat ∈ [0x9, 0xA, 0xB, 0xC, 0xD, 0x20, 0x85, 0xA0, 0x1680,
    0x2000, 0x2001, 0x2002, 0x2003, 0x2004, 0x2005, 0x2006, 0x2007,
    0x2008, 0x2009, 0x200A, 0x2028, 0x2029, 0x202F, 0x205F, 0x3000]

/-- Rust `str::trim`. -/
def rustTrim (l : List Char) : List Char :=
  ((l.dropWhile isRustWhitespace).reverse.dropWhile isRustWhitespace).reverse

/-- Does `l` start with `pat`? -/
def leadsWith : List Char → List Char → Bool
  | [], _ => true
  | _ :: _, [] => false
  | p :: ps, x :: xs => p = x && leadsWith ps xs

/-- Fuel-driven scan for `countOcc`; the list shrinks by at least one element
per step, so `hay.length + 1` fuel always suffices. -/
def countOccF (pat : List Char) : Nat → List Char → Nat
  | 0, _ => 0
  | _ + 1, [] => if pat.isEmpty then 1 else 0
  | fuel + 1, x :: xs =>
    if leadsWith pat (x :: xs) then 1 + countOccF pat fuel (xs.drop (pat.length - 1))
    else countOccF pat fuel xs

/-- `hay.match_indices(pat).count()`: non-overlapping left-to-right matches. -/
def countOcc (pat : List Char) (hay : List Char) : Nat :=
  countOccF pat (hay.length + 1) hay

theorem countOccF_congr (pat : List Char) : ∀ (f1 : Nat) (hay : List Char) (f2 : Nat),
    hay.length < f1 → hay.length < f2 → countOccF pat f1 hay = countOccF pat f2 hay := by
  intro f1
  induction f1 with
  | zero => intro hay f2 h1; omega
  | succ f ih =>
    intro hay f2 h1 h2
    cases f2 with
    | zero => omega
    | succ g =>
      cases hay with
      | nil => rfl
      | cons x xs =>
        rw [countOccF, countOccF]
        split
        · have hd := List.length_drop (pat.length - 1) xs
          rw [ih (xs.drop (pat.length - 1)) g (by simp at h1 ⊢; omega) (by simp at h2 ⊢; omega)]
        · rw [ih xs g (by simp at h1 ⊢; omega) (by simp at h2 ⊢; omega)]

theorem countOcc_nil (pat : List Char) : countOcc pat [] = if pat.isEmpty then 1 else 0 := rfl

theorem countOcc_cons (pat : List Char) (x : Char) (xs : List Char) :
    countOcc pat (x :: xs) =
      if leadsWith pat (x :: xs) then 1 + countOcc pat (xs.drop (pat.length - 1))
      else countOcc pat xs := by
  unfold countOcc
  rw [show (x :: xs).length + 1 = xs.length + 2 from by simp]
  rw [countOccF]
  split
  · rw [countOccF_congr pat (xs.length + 1) (xs.drop (pat.length - 1))
      ((xs.drop (pat.length - 1)).length + 1) (by simp; omega) (by omega)]
  · rw [countOccF_congr pat (xs.length + 1) xs (xs.length + 1) (by omega) (by omega)]

/-- `hay.find(pat)`: index of the first occurrence. -/
def firstOccAt (pat : List Char) : List Char → Option Nat
  | [] => if pat.isEmpty then some 0 else none
  | x :: xs =>
    if leadsWith pat (x :: xs) then some 0
    else (firstOccAt pat xs).map (· + 1)

/-- `llm.rs`'s private `is_supported_text` (built on `typed_char_for_output_char`). -/
def is_supported_text (l : List Char) : Bool :=
  l.all (fun c => (typed_char_for_output_char c).isSome)

/-- The per-item checks of `validate_phrase_alternatives`, accumulating the
occurrence ranges.  Ranges are kept in character coordinates; the source uses
byte coordinates, and the two orderings/overlaps coincide because byte
positions of character boundaries are strictly monotone in the character
index. -/
def validateItems (paragraph : List Char) : List PhraseAlternative → Except String (List (Nat × Nat))
  | [] => .ok []
  | item :: rest =>
    if item.original.isEmpty then .error "original must not be empty"
    else if ¬ (rustTrim item.original = item.original) then
      .error "original must not start or end with whitespace"
    else if item.alternative.isEmpty then .error "alternative must not be empty"
    else if ¬ (rustTrim item.alternative = item.alternative) then
      .error "alternative must not start or end with whitespace"
    else if item.original = item.alternative then
      .error "original and alternative must differ"
    else if ¬ (is_supported_text item.original) then
      .error "original contains unsupported characters"
    else if ¬ (is_supported_text item.alternative) then
      .error "alternative contains unsupported characters"
    else if ¬ (countOcc item.original paragraph = 1) then
      .error "original must occur exactly once in the paragraph"
    else
      match firstOccAt item.original paragraph with
      | none => .error "original not found in paragraph"
      | some start =>
        (validateItems paragraph rest).map
          (fun rs => (start, start + item.original.length) :: rs)

/-- The sort key relation of `ranges.sort_by_key(start)`; `sort_by_key` is a
stable sort, as is insertion sort on a `≤`-style key relation. -/
def leFst (a b : Nat × Nat) : Prop := a.1 ≤ b.1

instance : DecidableRel leFst := fun a b => by unfold leFst; infer_instance

instance : IsTotal (Nat × Nat) leFst := ⟨fun a b => Nat.le_total a.1 b.1⟩

instance : IsTrans (Nat × Nat) leFst := ⟨fun _ _ _ h1 h2 => Nat.le_trans h1 h2⟩

def rangesNonOverlapping : List (Nat × Nat) → Bool
  | a :: b :: rest => a.2 ≤ b.1 && rangesNonOverlapping (b :: rest)
  | _ => true

def validate_phrase_alternatives (paragraph : List Char)
    (items : List PhraseAlternative) : Except String Unit :=
  if ¬ (is_supported_text paragraph) then
    .error "paragraph contains unsupported characters"
  else
    (validateItems paragraph items).bind fun ranges =>
      let sorted := ranges.insertionSort leFst
      if rangesNonOverlapping sorted then .ok ()
      else .error "original spans must be non-overlapping"

/-! ## `planner.rs`: configuration, error type, editor, action builder -/

structure PlannerConfig where
  wpm_min : ℚ
  wpm_max : ℚ
  error_rate_per_word : ℚ
  word_variant_share : ℚ
  immediate_fix_rate : ℚ
  word_nav_profile : WordNavProfile
  max_outstanding_errors : Nat
  stop_corrections_after_progress : ℚ
  review_pause_ms_min : Nat
  review_pause_ms_max : Nat
  no_revision : Bool
deriving DecidableEq, Repr

/-- `PlannerConfig::default()`. -/
def defaultPlannerConfig : PlannerConfig :=
  ⟨40, 60, 5/100, 35/100, 35/100, .chrome, 4, 88/100, 1200, 2600, false⟩

/-- Error kinds of the planner (the source uses `anyhow` strings; we keep the
structured data each message carries). -/
inductive PlanErr where
  | configError (msg : String)
  | unsupportedChar (line col : Nat) (c : Char)
  | phraseAlt (msg : String)
  | unsupportedTyping (c : Char)
  | internalBug (msg : String)
deriving DecidableEq, Repr

/-- `validate_config`; the two `is_finite` ensures are vacuous over `ℚ`. -/
def validate_config (cfg : PlannerConfig) : Except PlanErr Unit :=
  if ¬ (0 < cfg.wpm_min ∧ 0 < cfg.wpm_max) then
    .error (.configError "wpm_min and wpm_max must be > 0")
  else if ¬ (cfg.wpm_min ≤ cfg.wpm_max) then
    .error (.configError "wpm_min must be <= wpm_max")
  else if ¬ (0 ≤ cfg.error_rate_per_word ∧ cfg.error_rate_per_word ≤ 1) then
    .error (.configError "error_rate_per_word must be between 0.0 and 1.0")
  else if ¬ (0 ≤ cfg.word_variant_share ∧ cfg.word_variant_share ≤ 1) then
    .error (.configError "word_variant_share must be between 0.0 and 1.0")
  else if ¬ (0 ≤ cfg.immediate_fix_rate ∧ cfg.immediate_fix_rate ≤ 1) then
    .error (.configError "immediate_fix_rate must be between 0.0 and 1.0")
  else if ¬ (0 ≤ cfg.stop_corrections_after_progress ∧ cfg.stop_corrections_after_progress ≤ 1) then
    .error (.configError "stop_corrections_after_progress must be between 0.0 and 1.0")
  else if ¬ (cfg.review_pause_ms_min ≤ cfg.review_pause_ms_max) then
    .error (.configError "review_pause_ms_min must be <= review_pause_ms_max")
  else .ok ()

inductive CorrectionConstraint where
  | cNone
  | sentenceOrParagraphBoundary
deriving DecidableEq, Repr

structure OutstandingError where
  start : Nat
  wrong : List Char
  correct : List Char
  fix_after_chars : Nat
  constraint : CorrectionConstraint
deriving DecidableEq, Repr

/-- `planner.rs`'s private `is_word_char` (includes the smart apostrophe). -/
def plIsWordChar (c : Char) : Bool :=
  isAsciiAlphanumeric c || c = '\'' || c = '’'

structure EditorState where
  buf : List Char
  cursor : Nat
deriving DecidableEq, Repr

def EditorState.insert_char (e : EditorState) (c : Char) : EditorState :=
  ⟨e.buf.insertIdx e.cursor c, e.cursor + 1⟩

def EditorState.backspace (e : EditorState) : EditorState :=
  if e.cursor = 0 then e else ⟨e.buf.eraseIdx (e.cursor - 1), e.cursor - 1⟩

def EditorState.move_left (e : EditorState) : EditorState :=
  if 0 < e.cursor then ⟨e.buf, e.cursor - 1⟩ else e

def EditorState.move_right (e : EditorState) : EditorState :=
  if e.cursor < e.buf.length then ⟨e.buf, e.cursor + 1⟩ else e

def EditorState.move_word_left (e : EditorState) : EditorState :=
  ⟨e.buf, ctrl_left e.buf e.cursor plIsWordChar⟩

def EditorState.move_word_right (e : EditorState) : EditorState :=
  ⟨e.buf, ctrl_right e.buf e.cursor plIsWordChar⟩

structure ActionBuilder where
  actions : List Action
  shift_down : Bool
  ctrl_down : Bool
  shift_mask : Nat
  ctrl_mask : Nat
deriving DecidableEq, Repr

def ActionBuilder.new (sm cm : Nat) : ActionBuilder := ⟨[], false, false, sm, cm⟩

def ActionBuilder.wait (b : ActionBuilder) (ms : Nat) : ActionBuilder :=
  if ms = 0 then b else { b with actions := b.actions ++ [.wait ms] }

def ActionBuilder.key (b : ActionBuilder) (kc : Nat) (st : KeyState) : ActionBuilder :=
  { b with actions := b.actions ++ [.key kc st] }

def ActionBuilder.set_modifiers (b : ActionBuilder) : ActionBuilder :=
  let depressed :=
    (if b.shift_down then b.shift_mask else 0) ||| (if b.ctrl_down then b.ctrl_mask else 0)
  { b with actions := b.actions ++ [.modifiers depressed 0 0 0] }

def ActionBuilder.set_shift (b : ActionBuilder) (down : Bool) (r : Rng) : ActionBuilder × Rng :=
  if b.shift_down = down then (b, r)
  else
    let b1 := b.key KEY_LEFTSHIFT (if down then .pressed else .released)
    let p1 := genRangeNat 5 20 r
    let b2 := { b1.wait p1.1 with shift_down := down }
    let b3 := b2.set_modifiers
    let p2 := genRangeNat 0 12 p1.2
    (b3.wait p2.1, p2.2)

def ActionBuilder.set_ctrl (b : ActionBuilder) (down : Bool) (r : Rng) : ActionBuilder × Rng :=
  if b.ctrl_down = down then (b, r)
  else
    let b1 := b.key KEY_LEFTCTRL (if down then .pressed else .released)
    let p1 := genRangeNat 5 20 r
    let b2 := { b1.wait p1.1 with ctrl_down := down }
    let b3 := b2.set_modifiers
    let p2 := genRangeNat 0 12 p1.2
    (b3.wait p2.1, p2.2)

def ActionBuilder.press_key (b : ActionBuilder) (kc : Nat) (r : Rng) : ActionBuilder × Rng :=
  let p := genRangeNat 18 70 r
  (((b.key kc .pressed).wait p.1).key kc .released, p.2)

def ActionBuilder.type_char (b : ActionBuilder) (stroke : KeyStroke) (r : Rng) : ActionBuilder × Rng :=
  let p1 := b.set_ctrl false r
  let p2 := p1.1.set_shift stroke.shift p1.2
  p2.1.press_key stroke.keycode p2.2

def ActionBuilder.nav_left (b : ActionBuilder) (r : Rng) : ActionBuilder × Rng :=
  let p1 := b.set_ctrl false r
  let p2 := p1.1.set_shift false p1.2
  p2.1.press_key KEY_LEFT p2.2

def ActionBuilder.nav_right (b : ActionBuilder) (r : Rng) : ActionBuilder × Rng :=
  let p1 := b.set_ctrl false r
  let p2 := p1.1.set_shift false p1.2
  p2.1.press_key KEY_RIGHT p2.2

def ActionBuilder.nav_word_left (b : ActionBuilder) (r : Rng) : ActionBuilder × Rng :=
  let p1 := b.set_ctrl true r
  let p2 := p1.1.set_shift false p1.2
  p2.1.press_key KEY_LEFT p2.2

def ActionBuilder.nav_word_right (b : ActionBuilder) (r : Rng) : ActionBuilder × Rng :=
  let p1 := b.set_ctrl true r
  let p2 := p1.1.set_shift false p1.2
  p2.1.press_key KEY_RIGHT p2.2

def ActionBuilder.backspace (b : ActionBuilder) (r : Rng) : ActionBuilder × Rng :=
  let p1 := b.set_ctrl false r
  let p2 := p1.1.set_shift false p1.2
  p2.1.press_key KEY_BACKSPACE p2.2

/-! ## `planner.rs`: word variants and typos -/

def apply_case_style (template lower : List Char) : List Char :=
  if template.all isAsciiUppercase then lower.map asciiUpper
  else
    let firstIsUpper := match template with
      | [] => false
      | t :: _ => isAsciiUppercase t
    let restAreLower := match template with
      | [] => true
      | _ :: rest => rest.all (fun c => ¬ isAsciiUppercase c)
    if firstIsUpper && restAreLower then
      match lower with
      | [] => []
      | l :: ls => asciiUpper l :: ls
    else lower

def synonymOptions (wl : List Char) : List (List Char) :=
  if wl = "important".toList then ["crucial".toList, "key".toList, "vital".toList]
  else if wl = "help".toList then ["assist".toList, "aid".toList, "support".toList]
  else if wl = "use".toList then ["utilize".toList, "employ".toList]
  else if wl = "show".toList then ["demonstrate".toList, "display".toList]
  else if wl = "make".toList then ["create".toList, "build".toList]
  else if wl = "start".toList then ["begin".toList, "kickoff".toList]
  else if wl = "end".toList then ["finish".toList, "wrap".toList]
  else if wl = "idea".toList then ["concept".toList, "notion".toList]
  else if wl = "quick".toList then ["fast".toList, "rapid".toList]
  else if wl = "slow".toList then ["sluggish".toList, "gradual".toList]
  else []

def endsWithList (l suf : List Char) : Bool :=
  l.drop (l.length - suf.length) = suf

/-- UTF-8 byte length of a string modelled as a char list (Rust `str::len`). -/
def utf8Len (l : List Char) : Nat :=
  l.foldl (fun a c => a + c.utf8Size) 0

/-- The `-ed ↔ -ing` morphology fallthrough of `word_variant`; the length
bounds are byte lengths in the source. -/
def wordVariantMorph (word wl : List Char) (r : Rng) : Option (List Char) × Rng :=
  if endsWithList wl ['e', 'd'] ∧ 4 ≤ utf8Len wl then
    (some (apply_case_style word (wl.take (wl.length - 2) ++ ['i', 'n', 'g'])), r)
  else if endsWithList wl ['i', 'n', 'g'] ∧ 5 ≤ utf8Len wl then
    (some (apply_case_style word (wl.take (wl.length - 3) ++ ['e', 'd'])), r)
  else (none, r)

def word_variant (word : List Char) (r : Rng) : Option (List Char) × Rng :=
  let wl := word.map asciiLower
  let options := synonymOptions wl
  if options.isEmpty then wordVariantMorph word wl r
  else
    let p := genRangeLt 0 options.length r
    let option := options.getD p.1 []
    if option ≠ wl then (some (apply_case_style word option), p.2)
    else wordVariantMorph word wl p.2

def listSwap (l : List Char) (i : Nat) : List Char :=
  (l.set i (l.getD (i + 1) ' ')).set (i + 1) (l.getD i ' ')

/-- The single-character-substitution tail of `word_typo`. -/
def typoSubst (word : List Char) (r : Rng) : Option (List Char) × Rng :=
  let pi := genRangeLt 0 word.length r
  let q := qwerty_adjacent_char (word.getD pi.1 ' ') pi.2
  match q.1 with
  | some adj =>
    let out := word.set pi.1 adj
    if out ≠ word then (some out, q.2) else (none, q.2)
  | none => (none, q.2)

def word_typo (word : List Char) (r : Rng) : Option (List Char) × Rng :=
  if word.length < 2 then (none, r)
  else if 4 ≤ word.length then
    let pb := genBool (25/100) r
    if pb.1 then
      let pi := genRangeLt 0 (word.length - 1) pb.2
      let out := listSwap word pi.1
      if out ≠ word then (some out, pi.2)
      else typoSubst word pi.2
    else typoSubst word pb.2
  else typoSubst word r

/-! ## `planner.rs`: delays -/

/-- Rust `f64::clamp`. -/
def clampQ (x lo hi : ℚ) : ℚ :=
  if x < lo then lo else if hi < x then hi else x

def inter_char_delay_ms (wpm : ℚ) (r : Rng) : Nat × Rng :=
  let mean := 12000 / wpm
  let stddev := mean * (35/100)
  let p := normalSample mean (max stddev 1) r
  ((round (clampQ p.1 25 900)).toNat, p.2)

def punctuation_pause_ms (c : Char) (r : Rng) : Nat × Rng :=
  if c = ',' ∨ c = ';' ∨ c = ':' then genRangeNat 60 220 r
  else if c = '.' ∨ c = '!' ∨ c = '?' then genRangeNat 120 520 r
  else if c = '\n' then genRangeNat 200 900 r
  else (0, r)

def maybe_think_pause_ms (prev : Char) (r : Rng) : Nat × Rng :=
  if prev = '.' ∨ prev = '!' ∨ prev = '?' then
    let p := genBool (12/100) r
    if p.1 then genRangeNat 700 2400 p.2 else (0, p.2)
  else if prev = '\n' then
    let p := genBool (10/100) r
    if p.1 then genRangeNat 600 2000 p.2 else (0, p.2)
  else (0, r)

/-- The total wait appended by `type_string` after one character: inter-char
delay plus punctuation pause plus think pause. -/
def delayAfterChar (c : Char) (wpm : ℚ) (r : Rng) : Nat × Rng :=
  let p1 := inter_char_delay_ms wpm r
  let p2 := punctuation_pause_ms c p1.2
  let p3 := maybe_think_pause_ms c p2.2
  (p1.1 + p2.1 + p3.1, p3.2)

def byteIndexToLineColAux (byteIdx : Nat) : List Char → Nat → Nat → Nat → Nat × Nat
  | [], line, col, _ => (line, col)
  | c :: cs, line, col, bytePos =>
    if byteIdx ≤ bytePos then (line, col)
    else if c = '\n' then byteIndexToLineColAux byteIdx cs (line + 1) 1 (bytePos + c.utf8Size)
    else byteIndexToLineColAux byteIdx cs line (col + 1) (bytePos + c.utf8Size)

def byte_index_to_line_col (text : List Char) (byteIdx : Nat) : Nat × Nat :=
  byteIndexToLineColAux byteIdx text 1 1 0

def sentence_or_paragraph_boundary (c : Char) : Bool :=
  c = '.' || c = '!' || c = '?' || c = '\n'

/-! ## `planner.rs`: paragraph spans and phrase spans -/

structure PhraseSpan where
  start : Nat
  original : List Char
  alternative : List Char
  original_len_chars : Nat
deriving DecidableEq, Repr

def skipNl (chars : List Char) (idx : Nat) : Nat :=
  skipRightWhile chars (fun c => c = '\n') idx

theorem skipRightWhile_ge (buf : List Char) (p : Char → Bool) (idx : Nat) :
    idx ≤ skipRightWhile buf p idx :=
  Nat.le_add_right _ _

theorem takeWhile_stop (p : Char → Bool) (l : List Char) (d : Char)
    (h : (l.takeWhile p).length < l.length) :
    p (l.getD (l.takeWhile p).length d) = false := by
  induction l with
  | nil => simp at h
  | cons x xs ih =>
    by_cases hx : p x
    · simpa [List.takeWhile_cons, hx] using ih (by simpa [List.takeWhile_cons, hx] using h)
    · simp [List.takeWhile_cons, hx]

theorem getD_drop (l : List Char) (n k : Nat) (d : Char) :
    (l.drop n).getD k d = l.getD (n + k) d := by
  simp [List.getD_eq_getElem?_getD, List.getElem?_drop]

theorem skipRightWhile_stop (buf : List Char) (p : Char → Bool) (idx : Nat) (d : Char)
    (hle : idx ≤ buf.length)
    (h : skipRightWhile buf p idx < buf.length) :
    p (buf.getD (skipRightWhile buf p idx) d) = false := by
  have hlen : ((buf.drop idx).takeWhile p).length < (buf.drop idx).length := by
    have := List.length_drop idx buf
    unfold skipRightWhile at h
    omega
  have := takeWhile_stop p (buf.drop idx) d hlen
  rwa [getD_drop] at this

/-- The inner `while` of `paragraph_byte_spans` (fuel-driven; the index
increases by one per step, so `chars.length + 1` fuel always suffices):
first index `≥ idx` where a blank line (`"\n\n"`) starts, else the end of
the text. -/
def paraStopF (chars : List Char) : Nat → Nat → Nat
  | 0, _ => chars.length
  | f + 1, idx =>
    if idx < chars.length then
      if chars.getD idx ' ' = '\n' ∧ chars.getD (idx + 1) ' ' = '\n' then idx
      else paraStopF chars f (idx + 1)
    else chars.length

def paraStop (chars : List Char) (idx : Nat) : Nat :=
  paraStopF chars (chars.length + 1) idx

/-- `paragraph_byte_spans`, in character coordinates (each `'\n'` is a single
byte and no other character contains a `'\n'` byte, so the byte scan of the
source visits exactly the character boundaries).  Fuel-driven: every
iteration advances the scan index by at least one (after `skipNl` the head is
not a newline, so `paraStop` moves past it), so `chars.length + 1` fuel
always suffices. -/
def paraSpansAuxF (chars : List Char) : Nat → Nat → List (Nat × Nat)
  | 0, _ => []
  | f + 1, idx =>
    let s := skipNl chars idx
    if s < chars.length then
      let e := paraStop chars s
      (s, e) :: paraSpansAuxF chars f (skipNl chars e)
    else []

def paragraph_spans (text : List Char) : List (Nat × Nat) :=
  paraSpansAuxF text (text.length + 1) 0

/-- The sort key relation of `spans.sort_by_key(start)`. -/
def leStart (a b : PhraseSpan) : Prop := a.start ≤ b.start

instance : DecidableRel leStart := fun a b => by unfold leStart; infer_instance

def spansNonOverlapping : List PhraseSpan → Bool
  | a :: b :: rest => a.start + a.original_len_chars ≤ b.start && spansNonOverlapping (b :: rest)
  | _ => true

def itemsToSpans (textLen : Nat) (paragraph : List Char) (paraStart : Nat) :
    List PhraseAlternative → Except PlanErr (List PhraseSpan)
  | [] => .ok []
  | item :: rest =>
    match firstOccAt item.original paragraph with
    | none => .error (.phraseAlt "original not found in paragraph")
    | some localStart =>
      let start := paraStart + localStart
      let olen := item.original.length
      if textLen < start + olen then
        .error (.phraseAlt "phrase alternative out of bounds in final text")
      else
        (itemsToSpans textLen paragraph paraStart rest).map
          (fun more => (⟨start, item.original, item.alternative, olen⟩ : PhraseSpan) :: more)

def spansForParagraphs (text : List Char) :
    List ((Nat × Nat) × List PhraseAlternative) → Except PlanErr (List PhraseSpan)
  | [] => .ok []
  | (ps, items) :: rest =>
    let paragraph := listSlice text ps.1 ps.2
    match validate_phrase_alternatives paragraph items with
    | .error e => .error (.phraseAlt ("phrase alternatives failed validation: " ++ e))
    | .ok _ =>
      (itemsToSpans text.length paragraph ps.1 items).bind fun ss =>
        (spansForParagraphs text rest).map (fun more => ss ++ more)

def phrase_spans_from_paragraph_alternatives (text : List Char)
    (alts : List (List PhraseAlternative)) : Except PlanErr (List PhraseSpan) :=
  let paraSpans := paragraph_spans text
  if ¬ (alts.length = paraSpans.length) then
    .error (.phraseAlt "expected one paragraph alternative list per paragraph")
  else
    (spansForParagraphs text (paraSpans.zip alts)).bind fun spans =>
      let sorted := spans.insertionSort leStart
      if spansNonOverlapping sorted then .ok sorted
      else .error (.phraseAlt "phrase alternative spans overlap in final text")

/-! ## `planner.rs`: typing, corrections and navigation -/

def type_string (b : ActionBuilder) (e : EditorState) (s : List Char) (wpm : ℚ)
    (r : Rng) : Except PlanErr (ActionBuilder × EditorState × Rng) :=
  match s with
  | [] => .ok (b, e, r)
  | c :: cs =>
    match keystroke_for_output_char c with
    | none => .error (.unsupportedTyping c)
    | some stroke =>
      let p1 := b.type_char stroke r
      let e1 := e.insert_char c
      let p2 := delayAfterChar c wpm p1.2
      type_string (p1.1.wait p2.1) e1 cs wpm p2.2

def backspaceLoop (b : ActionBuilder) (e : EditorState) (r : Rng) :
    Nat → ActionBuilder × EditorState × Rng
  | 0 => (b, e, r)
  | n + 1 =>
    let p := b.backspace r
    let e1 := e.backspace
    let q := genRangeNat 15 55 p.2
    backspaceLoop (p.1.wait q.1) e1 q.2 n

def replace_at_end (b : ActionBuilder) (e : EditorState) (wrong correct : List Char)
    (wpm : ℚ) (r : Rng) : Except PlanErr (ActionBuilder × EditorState × Rng) :=
  let pw := genRangeNat 60 260 r
  let t := backspaceLoop (b.wait pw.1) e pw.2 wrong.length
  type_string t.1 t.2.1 correct wpm t.2.2

def chromeLeftJumpOk (e : EditorState) (target : Nat) : Bool :=
  let ct := ctrl_left e.buf e.cursor plIsWordChar
  target ≤ ct && 4 ≤ e.cursor - ct && 12 ≤ e.cursor - target &&
    !((listSlice e.buf ct e.cursor).any (fun c => c = '\n'))

def compatLeftJumpOk (e : EditorState) (target : Nat) : Bool :=
  let ct := ctrl_left e.buf e.cursor plIsWordChar
  target ≤ ct && 4 ≤ e.cursor - ct && 12 ≤ e.cursor - target &&
    compatible_ctrl_jump_is_safe e.buf e.cursor ct

def navLeftStepJump (profile : WordNavProfile) (e : EditorState) (target : Nat) : Bool :=
  match profile with
  | .chrome => chromeLeftJumpOk e target
  | .compatible => compatLeftJumpOk e target

theorem navLeftStepJump_lt (profile : WordNavProfile) (e : EditorState) (target : Nat)
    (h : navLeftStepJump profile e target = true) :
    ctrl_left e.buf e.cursor plIsWordChar < e.cursor := by
  cases profile <;>
    simp only [navLeftStepJump, chromeLeftJumpOk, compatLeftJumpOk, Bool.and_eq_true,
      decide_eq_true_eq] at h <;> omega

/-- The small pause after each leftward navigation step. -/
def navPauseWait (b : ActionBuilder) (r : Rng) : ActionBuilder × Rng :=
  let pc := genBool (3/100) r
  let pw := if pc.1 then genRangeNat 40 180 pc.2 else genRangeNat 6 22 pc.2
  (b.wait pw.1, pw.2)

/-- The Chrome/Compatible leftward walk (fuel-driven: the cursor strictly
decreases every iteration — a taken jump satisfies `ctrl_delta ≥ 4`, see
`navLeftStepJump_lt` — so `e.cursor + 1` fuel always suffices). -/
def navigateLeftLoopF (profile : WordNavProfile) :
    Nat → ActionBuilder → EditorState → Nat → Rng → ActionBuilder × EditorState × Rng
  | 0, b, e, _, r => (b, e, r)
  | f + 1, b, e, target, r =>
    if target < e.cursor then
      if navLeftStepJump profile e target then
        let p := b.nav_word_left r
        let q := navPauseWait p.1 p.2
        navigateLeftLoopF profile f q.1 e.move_word_left target q.2
      else
        let p := b.nav_left r
        let q := navPauseWait p.1 p.2
        navigateLeftLoopF profile f q.1 e.move_left target q.2
    else (b, e, r)

def navigate_left_to (b : ActionBuilder) (e : EditorState) (target : Nat)
    (profile : WordNavProfile) (r : Rng) : ActionBuilder × EditorState × Rng :=
  let t := min target e.buf.length
  match profile with
  | .chrome => navigateLeftLoopF .chrome (e.cursor + 1) b e t r
  | .compatible =>
    let p := navigateLeftLoopF .compatible (e.cursor + 1) b e t r
    let q := p.1.set_ctrl false p.2.2
    (q.1, p.2.1, q.2)

def chromeRightJumpOk (e : EditorState) (target : Nat) : Bool :=
  let ct := ctrl_right e.buf e.cursor plIsWordChar
  ct ≤ target && 4 ≤ ct - e.cursor && 12 ≤ target - e.cursor &&
    !((listSlice e.buf e.cursor ct).any (fun c => c = '\n'))

def compatRightJumpOk (e : EditorState) (target : Nat) : Bool :=
  let ct := ctrl_right e.buf e.cursor plIsWordChar
  ct ≤ target && 4 ≤ ct - e.cursor && 12 ≤ target - e.cursor &&
    compatible_ctrl_jump_is_safe e.buf e.cursor ct

def navRightStepJump (profile : WordNavProfile) (e : EditorState) (target : Nat) : Bool :=
  match profile with
  | .chrome => chromeRightJumpOk e target
  | .compatible => compatRightJumpOk e target

theorem navRightStepJump_gt (profile : WordNavProfile) (e : EditorState) (target : Nat)
    (h : navRightStepJump profile e target = true) :
    e.cursor < ctrl_right e.buf e.cursor plIsWordChar ∧
      ctrl_right e.buf e.cursor plIsWordChar ≤ target := by
  cases profile <;>
    simp only [navRightStepJump, chromeRightJumpOk, compatRightJumpOk, Bool.and_eq_true,
      decide_eq_true_eq] at h <;> omega

/-- The rightward walk of `navigate_right_to` (fuel-driven: the cursor
strictly increases towards the in-range target every iteration, see
`navRightStepJump_gt`, so `target + 1 - e.cursor` fuel always suffices).
The guard carries `target ≤ buf.len`, which the clamp in `navigate_right_to`
establishes, making the loop equivalent to the source's
`while editor.cursor < target`. -/
def navigateRightLoopF (profile : WordNavProfile) :
    Nat → ActionBuilder → EditorState → Nat → Rng → ActionBuilder × EditorState × Rng
  | 0, b, e, _, r => (b, e, r)
  | f + 1, b, e, target, r =>
    if e.cursor < target ∧ target ≤ e.buf.length then
      if navRightStepJump profile e target then
        let p := b.nav_word_right r
        let q := genRangeNat 6 22 p.2
        navigateRightLoopF profile f (p.1.wait q.1) e.move_word_right target q.2
      else
        let p := b.nav_right r
        let q := genRangeNat 6 22 p.2
        navigateRightLoopF profile f (p.1.wait q.1) e.move_right target q.2
    else (b, e, r)

def navigate_right_to (b : ActionBuilder) (e : EditorState) (target : Nat)
    (profile : WordNavProfile) (r : Rng) : ActionBuilder × EditorState × Rng :=
  let t := min target e.buf.length
  let p := navigateRightLoopF profile (t + 1 - e.cursor) b e t r
  let q := p.1.set_ctrl false p.2.2
  (q.1, p.2.1, q.2)

def fix_error_at_position (b : ActionBuilder) (e : EditorState) (err : OutstandingError)
    (wpm : ℚ) (profile : WordNavProfile) (r : Rng) :
    Except PlanErr (ActionBuilder × EditorState × Rng) :=
  let wrongLen := err.wrong.length
  let targetEnd := err.start + wrongLen
  if e.cursor < targetEnd then .error (.internalBug "internal error: correction target after cursor")
  else
    let n := navigate_left_to b e targetEnd profile r
    let pw := genRangeNat 50 220 n.2.2
    let t := backspaceLoop (n.1.wait pw.1) n.2.1 pw.2 wrongLen
    (type_string t.1 t.2.1 err.correct wpm t.2.2).bind fun u =>
      let v := navigate_right_to u.1 u.2.1 u.2.1.buf.length profile u.2.2
      .ok v

/-- The word-token scan: `i = start; i += 1; while i < len && is_word_char(chars[i]) { i += 1 }`. -/
def word_run_end (chars : List Char) (start : Nat) : Nat :=
  skipRightWhile chars plIsWordChar (start + 1)

/-- The duplicated word-token body of the main pass: decide on an error,
type the wrong word (immediately fixed or recorded), else the word itself. -/
def handle_word (cfg : PlannerConfig) (b : ActionBuilder) (e : EditorState)
    (outstanding : List OutstandingError) (word : List Char) (wpm : ℚ) (r : Rng) :
    Except PlanErr (ActionBuilder × EditorState × List OutstandingError × Rng) :=
  let pInj := genBool cfg.error_rate_per_word r
  if pInj.1 && outstanding.length < cfg.max_outstanding_errors then
    let pv := genBool cfg.word_variant_share pInj.2
    let wrongRes :=
      if pv.1 then
        let w1 := word_variant word pv.2
        match w1.1 with
        | some w => (some w, w1.2)
        | none => word_typo word w1.2
      else
        let w1 := word_typo word pv.2
        match w1.1 with
        | some w => (some w, w1.2)
        | none => word_variant word w1.2
    match wrongRes.1 with
    | some wrongWord =>
      let wordStartCursor := e.cursor
      (type_string b e wrongWord wpm wrongRes.2).bind fun t =>
        let pFix := genBool cfg.immediate_fix_rate t.2.2
        if pFix.1 then
          (replace_at_end t.1 t.2.1 wrongWord word wpm pFix.2).map fun u =>
            (u.1, u.2.1, outstanding, u.2.2)
        else
          let pf := genRangeNat 25 220 pFix.2
          .ok (t.1, t.2.1,
               outstanding ++ [⟨wordStartCursor, wrongWord, word, pf.1, .cNone⟩], pf.2)
    | none =>
      (type_string b e word wpm wrongRes.2).map fun t => (t.1, t.2.1, outstanding, t.2.2)
  else
    (type_string b e word wpm pInj.2).map fun t => (t.1, t.2.1, outstanding, t.2.2)

/-- The opportunistic-correction check run after every position of the main
pass (`if let Some(err) = outstanding.last() { ... }`). -/
def maybe_fix (cfg : PlannerConfig) (b : ActionBuilder) (e : EditorState)
    (outstanding : List OutstandingError) (lastChar : Char) (progress : ℚ) (wpm : ℚ)
    (r : Rng) : Except PlanErr (ActionBuilder × EditorState × List OutstandingError × Rng) :=
  match outstanding.getLast? with
  | none => .ok (b, e, outstanding, r)
  | some err =>
    let wrongLen := err.wrong.length
    let age := e.cursor - (err.start + wrongLen)
    let lateStage := cfg.stop_corrections_after_progress ≤ progress
    let forceFix := cfg.max_outstanding_errors ≤ outstanding.length
    let due := err.fix_after_chars ≤ age
    let boundaryForRandomFix :=
      match err.constraint with
      | .cNone => lastChar = ' ' || ",.;:!?\n".toList.contains lastChar
      | .sentenceOrParagraphBoundary => sentence_or_paragraph_boundary lastChar
    let pr := if lateStage then (false, r) else genBool (12/100) r
    let randomFix := !lateStage && pr.1 && boundaryForRandomFix
    let shouldFix :=
      match err.constraint with
      | .cNone => forceFix || (due && !lateStage) || randomFix
      | .sentenceOrParagraphBoundary =>
        sentence_or_paragraph_boundary lastChar && (forceFix || (due && !lateStage) || randomFix)
    if shouldFix then
      (fix_error_at_position b e err wpm cfg.word_nav_profile pr.2).bind fun t =>
        let pw := genRangeNat 80 420 t.2.2
        .ok (t.1.wait pw.1, t.2.1, outstanding.dropLast, pw.2)
    else .ok (b, e, outstanding, pr.2)

/-- The index after the current position is consumed on the non-phrase path. -/
def next_index (chars : List Char) (np : Option Nat) (i : Nat) : Nat :=
  if plIsWordChar (chars.getD i ' ') then
    let wend := word_run_end chars i
    match np with
    | some p => if i < p ∧ p < wend then p else wend
    | none => wend
  else i + 1

theorem word_run_end_gt (chars : List Char) (start : Nat) : start < word_run_end chars start := by
  have := skipRightWhile_ge chars plIsWordChar (start + 1)
  unfold word_run_end
  omega

theorem next_index_gt (chars : List Char) (np : Option Nat) (i : Nat) :
    i < next_index chars np i := by
  unfold next_index
  split
  · cases np with
    | none => exact word_run_end_gt chars i
    | some p =>
      dsimp only
      split
      next hc => omega
      next hc => exact word_run_end_gt chars i
  · omega

/-- The word-token / plain-character body of the main-pass position `i`
(everything but phrase substitution and the correction check), returning the
`last_char` of the position. -/
def word_or_char_step (cfg : PlannerConfig) (chars : List Char) (np : Option Nat)
    (b : ActionBuilder) (e : EditorState) (outstanding : List OutstandingError)
    (i : Nat) (wpm : ℚ) (r : Rng) :
    Except PlanErr (ActionBuilder × EditorState × List OutstandingError × Char × Rng) :=
  if plIsWordChar (chars.getD i ' ') then
    let wend := word_run_end chars i
    match np with
    | some p =>
      if i < p ∧ p < wend then
        (type_string b e (listSlice chars i p) wpm r).map fun t =>
          (t.1, t.2.1, outstanding, chars.getD (p - 1) ' ', t.2.2)
      else
        (handle_word cfg b e outstanding (listSlice chars i wend) wpm r).map fun t =>
          (t.1, t.2.1, t.2.2.1, chars.getD (wend - 1) ' ', t.2.2.2)
    | none =>
      (handle_word cfg b e outstanding (listSlice chars i wend) wpm r).map fun t =>
        (t.1, t.2.1, t.2.2.1, chars.getD (wend - 1) ' ', t.2.2.2)
  else
    let c := chars.getD i ' '
    if c = ' ' then
      let pb := genBool (15/1000) r
      if pb.1 && outstanding.length < cfg.max_outstanding_errors then
        let sc := e.cursor
        (type_string b e [' ', ' '] wpm pb.2).bind fun t =>
          let pf := genRangeNat 40 260 t.2.2
          .ok (t.1, t.2.1, outstanding ++ [⟨sc, [' ', ' '], [' '], pf.1, .cNone⟩], c, pf.2)
      else
        (type_string b e [c] wpm pb.2).map fun t => (t.1, t.2.1, outstanding, c, t.2.2)
    else
      (type_string b e [c] wpm r).map fun t => (t.1, t.2.1, outstanding, c, t.2.2)

/-- The main pass of `generate_plan_impl` (`while i < chars.len()`),
fuel-driven: every iteration either advances `i` (see `next_index_gt`; the
phrase branch advances `i` by the original's length) or consumes a phrase
span, so `chars.length + spans.length + 1` fuel always suffices. -/
def main_loopF (cfg : PlannerConfig) (spans : List PhraseSpan) (chars : List Char)
    (wpm : ℚ) :
    Nat → ActionBuilder → EditorState → List OutstandingError → Nat → Nat → Rng →
      Except PlanErr (ActionBuilder × EditorState × List OutstandingError × Rng)
  | 0, b, e, outstanding, _, _, r => .ok (b, e, outstanding, r)
  | f + 1, b, e, outstanding, i, phraseIdx, r =>
    if i < chars.length then
      let progress : ℚ := (i : ℚ) / (chars.length : ℚ)
      match spans[phraseIdx]? with
      | some span =>
        if span.start = i then
          let core : Except PlanErr (ActionBuilder × EditorState × List OutstandingError × Char × Rng) :=
            if outstanding.length < cfg.max_outstanding_errors then
              let startCursor := e.cursor
              (type_string b e span.alternative wpm r).bind fun t =>
                let pf := genRangeNat 90 420 t.2.2
                match span.alternative.getLast? with
                | some lastChar =>
                  .ok (t.1, t.2.1,
                       outstanding ++
                         [⟨startCursor, span.alternative, span.original, pf.1,
                           .sentenceOrParagraphBoundary⟩],
                       lastChar, pf.2)
                | none => .error (.internalBug "phrase alternative must not be empty")
            else
              (type_string b e span.original wpm r).bind fun t =>
                match span.original.getLast? with
                | some lastChar => .ok (t.1, t.2.1, outstanding, lastChar, t.2.2)
                | none => .error (.internalBug "phrase alternative must not be empty")
          core.bind fun t =>
            (maybe_fix cfg t.1 t.2.1 t.2.2.1 t.2.2.2.1 progress wpm t.2.2.2.2).bind fun m =>
              main_loopF cfg spans chars wpm f m.1 m.2.1 m.2.2.1
                (i + span.original_len_chars) (phraseIdx + 1) m.2.2.2
        else
          (word_or_char_step cfg chars (some span.start) b e outstanding i wpm r).bind fun t =>
            (maybe_fix cfg t.1 t.2.1 t.2.2.1 t.2.2.2.1 progress wpm t.2.2.2.2).bind fun m =>
              main_loopF cfg spans chars wpm f m.1 m.2.1 m.2.2.1
                (next_index chars (some span.start) i) phraseIdx m.2.2.2
      | none =>
        (word_or_char_step cfg chars none b e outstanding i wpm r).bind fun t =>
          (maybe_fix cfg t.1 t.2.1 t.2.2.1 t.2.2.2.1 progress wpm t.2.2.2.2).bind fun m =>
            main_loopF cfg spans chars wpm f m.1 m.2.1 m.2.2.1
              (next_index chars none i) phraseIdx m.2.2.2
    else .ok (b, e, outstanding, r)

def main_loop (cfg : PlannerConfig) (spans : List PhraseSpan) (chars : List Char)
    (wpm : ℚ) (b : ActionBuilder) (e : EditorState)
    (outstanding : List OutstandingError) (i phraseIdx : Nat) (r : Rng) :
    Except PlanErr (ActionBuilder × EditorState × List OutstandingError × Rng) :=
  main_loopF cfg spans chars wpm (chars.length + spans.length + 1) b e outstanding i phraseIdx r

/-- The review phase: drain in pop (LIFO) order; the caller passes the
reversed outstanding list. -/
def review_drain (b : ActionBuilder) (e : EditorState) (errs : List OutstandingError)
    (wpm : ℚ) (profile : WordNavProfile) (r : Rng) :
    Except PlanErr (ActionBuilder × EditorState × Rng) :=
  match errs with
  | [] => .ok (b, e, r)
  | err :: rest =>
    (fix_error_at_position b e err wpm profile r).bind fun t =>
      let pw := genRangeNat 120 520 t.2.2
      review_drain (t.1.wait pw.1) t.2.1 rest wpm profile pw.2

structure KeymapInfo where
  layout : String
  keymap_format : Nat
  keymap : String
  shift_mask : Nat
  ctrl_mask : Nat
deriving DecidableEq, Repr

/-- Modelled from the spec: `keymap.rs`'s `us_qwerty_keymap` obtains its data
from xkbcommon, an external collaborator (§6 of the spec); it returns layout
`"us"`, keymap format 1, a keymap text blob, and single-bit Shift and Ctrl
masks.  We model a fixed successful provider with Shift mask `2^0` and Ctrl
mask `2^2` (the usual xkb modifier indices 0 and 2). -/
def us_qwerty_keymap : KeymapInfo := ⟨"us", 1, "", 1, 4⟩

def generate_plan_impl (text : List Char) (cfg : PlannerConfig)
    (spans : List PhraseSpan) (r : Rng) : Except PlanErr Plan :=
  (validate_config cfg).bind fun _ =>
  match find_first_unsupported_char text with
  | some bc =>
    let lc := byte_index_to_line_col text bc.1
    .error (.unsupportedChar lc.1 lc.2 bc.2)
  | none =>
    let keymap := us_qwerty_keymap
    let pwpm := genRangeQ cfg.wpm_min cfg.wpm_max r
    let wpm := pwpm.1
    let b1 := (ActionBuilder.new keymap.shift_mask keymap.ctrl_mask).set_modifiers
    let pw := genRangeNat 250 600 pwpm.2
    let b2 := b1.wait pw.1
    (main_loop cfg spans text wpm b2 ⟨[], 0⟩ [] 0 0 pw.2).bind fun m =>
      let prev := genRangeNat cfg.review_pause_ms_min cfg.review_pause_ms_max m.2.2.2
      let b3 := m.1.wait prev.1
      (review_drain b3 m.2.1 m.2.2.1.reverse wpm cfg.word_nav_profile prev.2).bind fun d =>
        let ps := d.1.set_shift false d.2.2
        let pc := ps.1.set_ctrl false ps.2
        let bF := pc.1.set_modifiers
        if d.2.1.buf = text then
          .ok ⟨1, ⟨keymap.layout, keymap.keymap_format, keymap.keymap, wpm⟩, bF.actions⟩
        else .error (.internalBug "planner bug: simulated text does not match final draft")

def generate_plan_no_revision (text : List Char) (cfg : PlannerConfig) (r : Rng) :
    Except PlanErr Plan :=
  (validate_config cfg).bind fun _ =>
  match find_first_unsupported_char text with
  | some bc =>
    let lc := byte_index_to_line_col text bc.1
    .error (.unsupportedChar lc.1 lc.2 bc.2)
  | none =>
    let keymap := us_qwerty_keymap
    let pwpm := genRangeQ cfg.wpm_min cfg.wpm_max r
    let wpm := pwpm.1
    let b1 := (ActionBuilder.new keymap.shift_mask keymap.ctrl_mask).set_modifiers
    let pw := genRangeNat 250 600 pwpm.2
    let b2 := b1.wait pw.1
    (type_string b2 ⟨[], 0⟩ text wpm pw.2).bind fun t =>
      let ps := t.1.set_shift false t.2.2
      let pc := ps.1.set_ctrl false ps.2
      let bF := pc.1.set_modifiers
      if t.2.1.buf = text then
        .ok ⟨1, ⟨keymap.layout, keymap.keymap_format, keymap.keymap, wpm⟩, bF.actions⟩
      else .error (.internalBug "planner bug: simulated text does not match final draft")

def generate_plan (text : List Char) (cfg : PlannerConfig) (r : Rng) : Except PlanErr Plan :=
  if cfg.no_revision then generate_plan_no_revision text cfg r
  else generate_plan_impl text cfg [] r

def generate_plan_with_phrase_alternatives (text : List Char) (cfg : PlannerConfig)
    (alts : List (List PhraseAlternative)) (r : Rng) : Except PlanErr Plan :=
  match find_first_unsupported_char text with
  | some bc =>
    let lc := byte_index_to_line_col text bc.1
    .error (.unsupportedChar lc.1 lc.2 bc.2)
  | none =>
    (phrase_spans_from_paragraph_alternatives text alts).bind fun spans =>
      generate_plan_impl text cfg spans r

/-! ## Word-navigation lemmas (towards C3) -/

theorem skipLeftWhile_le (buf : List Char) (p : Char → Bool) (idx : Nat) :
    skipLeftWhile buf p idx ≤ idx := by
  induction idx with
  | zero => simp [skipLeftWhile]
  | succ n ih =>
    rw [skipLeftWhile]
    split
    · omega
    · omega

theorem skipLeftWhile_mem (buf : List Char) (p : Char → Bool) (idx : Nat) :
    ∀ k, skipLeftWhile buf p idx ≤ k → k < idx → p (buf.getD k ' ') = true := by
  induction idx with
  | zero => intro k h1 h2; omega
  | succ n ih =>
    intro k h1 h2
    rw [skipLeftWhile] at h1
    by_cases hp : p (buf.getD n ' ') = true
    · rw [if_pos hp] at h1
      by_cases hk : k < n
      · exact ih k h1 hk
      · have : k = n := by omega
        subst this
        exact hp
    · rw [if_neg hp] at h1
      omega

theorem skipLeftWhile_maximal (buf : List Char) (p : Char → Bool) (idx : Nat) :
    skipLeftWhile buf p idx = 0 ∨ p (buf.getD (skipLeftWhile buf p idx - 1) ' ') = false := by
  induction idx with
  | zero => left; simp [skipLeftWhile]
  | succ n ih =>
    rw [skipLeftWhile]
    split
    · exact ih
    · right
      simp only [Nat.add_sub_cancel]
      rename_i hp
      simpa using hp

/-- The `ctrl_left` postcondition stated by the spec: with `n` the clamped
cursor, there is a whitespace-skip point `j` (everything in `[j, n)` is
whitespace, maximally so), and the result skips the contiguous run of the
class immediately left of `j` (maximally), or is `0` when `j = 0`. -/
def CtrlLeftSpec (buf : List Char) (cursor : Nat) (iw : Char → Bool) (res : Nat) : Prop :=
  let n := min cursor buf.length
  ∃ j, j ≤ n ∧
    (∀ k, j ≤ k → k < n → classify_char iw (buf.getD k ' ') = .whitespace) ∧
    (j = 0 ∨ classify_char iw (buf.getD (j - 1) ' ') ≠ .whitespace) ∧
    ((j = 0 ∧ res = 0) ∨
      (0 < j ∧ res ≤ j ∧
        (∀ k, res ≤ k → k < j →
          classify_char iw (buf.getD k ' ') = classify_char iw (buf.getD (j - 1) ' ')) ∧
        (res = 0 ∨
          classify_char iw (buf.getD (res - 1) ' ') ≠ classify_char iw (buf.getD (j - 1) ' '))))

theorem ctrl_left_spec (buf : List Char) (cursor : Nat) (iw : Char → Bool) :
    CtrlLeftSpec buf cursor iw (ctrl_left buf cursor iw) := by
  unfold CtrlLeftSpec ctrl_left
  set n := min cursor buf.length with hn
  by_cases h0 : n = 0
  · refine ⟨0, by omega, ?_, Or.inl rfl, Or.inl ⟨rfl, by simp [h0]⟩⟩
    intro k h1 h2; omega
  · rw [if_neg h0]
    set j := skipLeftWhile buf (fun c => classify_char iw c == .whitespace) n with hj
    have hj_le : j ≤ n := skipLeftWhile_le _ _ _
    have hj_mem : ∀ k, j ≤ k → k < n → classify_char iw (buf.getD k ' ') = .whitespace := by
      intro k h1 h2
      have := skipLeftWhile_mem buf (fun c => classify_char iw c == .whitespace) n k h1 h2
      simpa using this
    have hj_max : j = 0 ∨ classify_char iw (buf.getD (j - 1) ' ') ≠ .whitespace := by
      rcases skipLeftWhile_maximal buf (fun c => classify_char iw c == .whitespace) n with h | h
      · exact Or.inl h
      · right; simpa using h
    by_cases hj0 : j = 0
    · rw [if_pos hj0]
      exact ⟨j, hj_le, hj_mem, hj_max, Or.inl ⟨hj0, rfl⟩⟩
    · rw [if_neg hj0]
      set cls := classify_char iw (buf.getD (j - 1) ' ') with hcls
      set res := skipLeftWhile buf (fun c => classify_char iw c == cls) j with hres
      refine ⟨j, hj_le, hj_mem, hj_max, Or.inr ⟨by omega, skipLeftWhile_le _ _ _, ?_, ?_⟩⟩
      · intro k h1 h2
        have hm := skipLeftWhile_mem buf (fun c => classify_char iw c == cls) j k h1 h2
        simp only [beq_iff_eq] at hm
        rw [← hcls]
        exact hm
      · rcases skipLeftWhile_maximal buf (fun c => classify_char iw c == cls) j with h | h
        · exact Or.inl h
        · right
          rw [← hcls]
          intro hcontra
          rw [hcontra] at h
          simp at h

theorem ctrl_left_clamp (buf : List Char) (cursor : Nat) (iw : Char → Bool) :
    ctrl_left buf cursor iw = ctrl_left buf (min cursor buf.length) iw := by
  unfold ctrl_left
  simp [Nat.min_assoc]

/-- C3.  For the buffer `"hello   world"` and the default word-character
predicate, `ctrl_left` at 3 and 6 gives 0, and `ctrl_right` at 0, 5, 8 gives
5, 8, 13; in general `ctrl_left` first clamps the cursor to the buffer
length, skips the leftward whitespace run, then skips leftward over the
contiguous run of the class immediately to the left and returns that index. -/
theorem c3_word_nav :
    (ctrl_left "hello   world".toList 3 plIsWordChar = 0 ∧
     ctrl_left "hello   world".toList 6 plIsWordChar = 0 ∧
     ctrl_right "hello   world".toList 0 plIsWordChar = 5 ∧
     ctrl_right "hello   world".toList 5 plIsWordChar = 8 ∧
     ctrl_right "hello   world".toList 8 plIsWordChar = 13) ∧
    (∀ (buf : List Char) (cursor : Nat) (iw : Char → Bool),
      ctrl_left buf cursor iw = ctrl_left buf (min cursor buf.length) iw ∧
      CtrlLeftSpec buf cursor iw (ctrl_left buf cursor iw)) := by
  constructor
  · refine ⟨by decide, by decide, by decide, by decide, by decide⟩
  · intro buf cursor iw
    exact ⟨ctrl_left_clamp buf cursor iw, ctrl_left_spec buf cursor iw⟩

/-- Witness for C3 at the concrete buffer of the claim. -/
theorem c3_word_nav_witness :
    ctrl_left "hello   world".toList 3 plIsWordChar = 0 ∧
    ctrl_right "hello   world".toList 8 plIsWordChar = 13 ∧
    CtrlLeftSpec "hello   world".toList 6 plIsWordChar 0 := by
  refine ⟨c3_word_nav.1.1, c3_word_nav.1.2.2.2.2, ?_⟩
  have h := (c3_word_nav.2 "hello   world".toList 6 plIsWordChar).2
  have he : ctrl_left "hello   world".toList 6 plIsWordChar = 0 := c3_word_nav.1.2.1
  rwa [he] at h

/-! ## C10: empty clamped jumps are always safe -/

/-- C10.  Whenever `from` and `to` clamp to the same index, the Compatible
jump predicate returns `true`, regardless of the buffer's contents. -/
theorem c10_empty_jump_safe (buf : List Char) (frm dst : Nat)
    (h : min frm buf.length = min dst buf.length) :
    compatible_ctrl_jump_is_safe buf frm dst = true := by
  unfold compatible_ctrl_jump_is_safe
  simp [h]

/-- Witness for C10: a zero-length jump bordered by punctuation. -/
theorem c10_empty_jump_safe_witness :
    min 1 (['-', '-'].length) = min 1 (['-', '-'].length) ∧
    compatible_ctrl_jump_is_safe ['-', '-'] 1 1 = true :=
  ⟨rfl, c10_empty_jump_safe ['-', '-'] 1 1 rfl⟩

/-! ## C4: the Compatible jump predicate (corrected) -/

/-- The condition stated by the claim: every character of the jump span plus
the one before its start and the one after its end (when they exist) is an
ASCII alphanumeric or a space.  Indices are clamped to the buffer as in the
source. -/
def specJumpSafeCond (buf : List Char) (frm dst : Nat) : Bool :=
  let len := buf.length
  let f := min frm len
  let t := min dst len
  let s := min f t
  let e := max f t
  compatible_ctrl_span_is_safe (listSlice buf s e) &&
    (decide (s = 0) || compatible_ctrl_span_is_safe (listSlice buf (s - 1) s)) &&
    (decide (e = len) || compatible_ctrl_span_is_safe (listSlice buf e (e + 1)))

/-- Counterexample to C4 as stated: on `"-a-"` with `from = to = 1` the
predicate returns `true` although the character before the (empty) span is a
hyphen, so "returns true exactly when span and adjacent characters are
alphanumeric or space" fails. -/
theorem c4_counterexample :
    compatible_ctrl_jump_is_safe "-a-".toList 1 1 = true ∧
    specJumpSafeCond "-a-".toList 1 1 = false := by
  constructor <;> decide

/-- The Boolean skeleton of the non-empty-jump branch of
`compatible_ctrl_jump_is_safe`. -/
theorem jumpChainEq (sp bf af : Bool) (s e len : Nat) (hse : e ≤ len) :
    (if ¬ sp = true then false
     else if (decide (s > 0) && decide (¬ bf = true)) = true then false
     else if (decide (e < len) && decide (¬ af = true)) = true then false
     else true) =
    (sp && (decide (s = 0) || bf) && (decide (e = len) || af)) := by
  cases sp <;> cases bf <;> cases af <;>
    by_cases h1 : s = 0 <;> by_cases h2 : e = len <;>
      simp [h1, h2] <;> omega

/-- C4 (amended).  The Compatible jump predicate returns `true` exactly when
the clamped jump is empty or the span-plus-adjacent-characters condition
holds; the two concrete examples of the claim hold; and the planner's
Compatible navigation loops emit a Ctrl-arrow jump only when the predicate
holds on the jump they are about to take. -/
theorem c4_compatible_jump :
    (∀ (buf : List Char) (frm dst : Nat),
      compatible_ctrl_jump_is_safe buf frm dst =
        (decide (min frm buf.length = min dst buf.length) || specJumpSafeCond buf frm dst)) ∧
    compatible_ctrl_jump_is_safe "mid-sentence".toList ("mid-sentence".toList.length) 4 = false ∧
    compatible_ctrl_jump_is_safe "hello world".toList ("hello world".toList.length) 6 = true ∧
    (∀ (e : EditorState) (target : Nat), compatLeftJumpOk e target = true →
      compatible_ctrl_jump_is_safe e.buf e.cursor (ctrl_left e.buf e.cursor plIsWordChar) = true) ∧
    (∀ (e : EditorState) (target : Nat), compatRightJumpOk e target = true →
      compatible_ctrl_jump_is_safe e.buf e.cursor (ctrl_right e.buf e.cursor plIsWordChar) = true) := by
  refine ⟨?_, by decide, by decide, ?_, ?_⟩
  · intro buf frm dst
    unfold compatible_ctrl_jump_is_safe specJumpSafeCond
    by_cases h : min frm buf.length = min dst buf.length
    · simp [h]
    · rw [if_neg h]
      have hd : (decide (min frm buf.length = min dst buf.length) : Bool) = false := by
        simp [h]
      rw [hd, Bool.false_or]
      exact jumpChainEq
        (compatible_ctrl_span_is_safe (listSlice buf
          (min (min frm buf.length) (min dst buf.length))
          (max (min frm buf.length) (min dst buf.length))))
        (compatible_ctrl_span_is_safe (listSlice buf
          (min (min frm buf.length) (min dst buf.length) - 1)
          (min (min frm buf.length) (min dst buf.length))))
        (compatible_ctrl_span_is_safe (listSlice buf
          (max (min frm buf.length) (min dst buf.length))
          (max (min frm buf.length) (min dst buf.length) + 1)))
        (min (min frm buf.length) (min dst buf.length))
        (max (min frm buf.length) (min dst buf.length))
        buf.length (by omega)
  · intro e target h
    simp only [compatLeftJumpOk, Bool.and_eq_true] at h
    exact h.2
  · intro e target h
    simp only [compatRightJumpOk, Bool.and_eq_true] at h
    exact h.2

/-- Witness for C4's amended theorem at a concrete jump. -/
theorem c4_compatible_jump_witness :
    compatible_ctrl_jump_is_safe "hello world".toList 11 6 =
      (decide (min 11 ("hello world".toList.length) = min 6 ("hello world".toList.length)) ||
        specJumpSafeCond "hello world".toList 11 6) ∧
    compatLeftJumpOk ⟨"hello world abcd efgh".toList, 21⟩ 2 = true ∧
    compatible_ctrl_jump_is_safe "hello world abcd efgh".toList 21
      (ctrl_left "hello world abcd efgh".toList 21 plIsWordChar) = true := by
  refine ⟨c4_compatible_jump.1 _ 11 6, by decide, ?_⟩
  exact c4_compatible_jump.2.2.2.1 ⟨"hello world abcd efgh".toList, 21⟩ 2 (by decide)

/-! ## ActionBuilder field lemmas, C9 and C5 -/

theorem wait_shift_down (b : ActionBuilder) (ms : Nat) : (b.wait ms).shift_down = b.shift_down := by
  unfold ActionBuilder.wait; split <;> rfl

theorem wait_ctrl_down (b : ActionBuilder) (ms : Nat) : (b.wait ms).ctrl_down = b.ctrl_down := by
  unfold ActionBuilder.wait; split <;> rfl

theorem set_modifiers_shift_down (b : ActionBuilder) : b.set_modifiers.shift_down = b.shift_down := rfl

theorem set_modifiers_ctrl_down (b : ActionBuilder) : b.set_modifiers.ctrl_down = b.ctrl_down := rfl

theorem set_shift_shift_down (b : ActionBuilder) (d : Bool) (r : Rng) :
    ((b.set_shift d r).1).shift_down = d := by
  unfold ActionBuilder.set_shift
  split
  next h => exact h
  next h => rw [wait_shift_down, set_modifiers_shift_down]

theorem set_ctrl_ctrl_down (b : ActionBuilder) (d : Bool) (r : Rng) :
    ((b.set_ctrl d r).1).ctrl_down = d := by
  unfold ActionBuilder.set_ctrl
  split
  next h => exact h
  next h => rw [wait_ctrl_down, set_modifiers_ctrl_down]

/-- C9.  `set_shift` and `set_ctrl` are idempotent: once the builder is in
the requested state, a second call with the same argument appends no
actions and consumes no randomness. -/
theorem c9_modifier_setters_idempotent (b : ActionBuilder) (d : Bool) (r r' : Rng) :
    ((b.set_shift d r).1).set_shift d r' = ((b.set_shift d r).1, r') ∧
    ((b.set_ctrl d r).1).set_ctrl d r' = ((b.set_ctrl d r).1, r') := by
  constructor
  · unfold ActionBuilder.set_shift
    rw [if_pos]
    exact set_shift_shift_down b d r
  · unfold ActionBuilder.set_ctrl
    rw [if_pos]
    exact set_ctrl_ctrl_down b d r

/-- The Shift state implied by a cumulative sequence of key events. -/
def shiftStep (s : Bool) (a : Action) : Bool :=
  match a with
  | .key kc st => if kc = KEY_LEFTSHIFT ∨ kc = KEY_RIGHTSHIFT then decide (st = .pressed) else s
  | _ => s

def ctrlStep (s : Bool) (a : Action) : Bool :=
  match a with
  | .key kc st => if kc = KEY_LEFTCTRL then decide (st = .pressed) else s
  | _ => s

def impliedShift (acts : List Action) : Bool := acts.foldl shiftStep false

def impliedCtrl (acts : List Action) : Bool := acts.foldl ctrlStep false

/-- The depressed bitmask implied by the cumulative key events. -/
def impliedMask (sm cm : Nat) (acts : List Action) : Nat :=
  (if impliedShift acts then sm else 0) ||| (if impliedCtrl acts then cm else 0)

/-- The depressed bits of the most recently emitted `Modifiers` action. -/
def lastDepressed (acts : List Action) : Option Nat :=
  acts.foldl (fun s a => match a with | .modifiers d _ _ _ => some d | _ => s) none

/-- C5 as stated, as a property of a builder's action stream: at *every*
index, the masks implied by cumulative key events match the last emitted
`Modifiers` depressed bits (`0` before any `Modifiers`). -/
def ModsMatchEverywhere (b : ActionBuilder) : Prop :=
  ∀ i, i ≤ b.actions.length →
    impliedMask b.shift_mask b.ctrl_mask (b.actions.take i) =
      (lastDepressed (b.actions.take i)).getD 0

/-- Counterexample to C5 as stated: immediately after the Shift press key
event (and before the following `Modifiers` snapshot) the implied mask is
already `shift_mask` while the last emitted `Modifiers` still carries `0`. -/
theorem c5_counterexample :
    ¬ ModsMatchEverywhere
        (((ActionBuilder.new 1 4).set_modifiers.set_shift true ⟨fun _ => 0, 0⟩).1) := by
  intro h
  have := h 2 (by decide)
  revert this
  decide

/-- Every `Modifiers` action in the stream carries exactly the mask implied
by the key events before it. -/
def ModsOk (sm cm : Nat) (acts : List Action) : Prop :=
  ∀ i d l k g, acts[i]? = some (.modifiers d l k g) → d = impliedMask sm cm (acts.take i)

/-- The amended invariant: the builder's `shift_down`/`ctrl_down` fields
equal the state implied by the cumulative key events, and *every* `Modifiers`
action in the stream carries exactly the mask implied at its position. -/
def BuilderTracks (b : ActionBuilder) : Prop :=
  impliedShift b.actions = b.shift_down ∧ impliedCtrl b.actions = b.ctrl_down ∧
  ModsOk b.shift_mask b.ctrl_mask b.actions

theorem impliedShift_append (l1 l2 : List Action) :
    impliedShift (l1 ++ l2) = l2.foldl shiftStep (impliedShift l1) := by
  unfold impliedShift
  exact List.foldl_append _ _ _ _

theorem impliedCtrl_append (l1 l2 : List Action) :
    impliedCtrl (l1 ++ l2) = l2.foldl ctrlStep (impliedCtrl l1) := by
  unfold impliedCtrl
  exact List.foldl_append _ _ _ _

theorem impliedShift_snoc (acts : List Action) (a : Action) :
    impliedShift (acts ++ [a]) = shiftStep (impliedShift acts) a := by
  rw [impliedShift_append]; rfl

theorem impliedCtrl_snoc (acts : List Action) (a : Action) :
    impliedCtrl (acts ++ [a]) = ctrlStep (impliedCtrl acts) a := by
  rw [impliedCtrl_append]; rfl

/-- Appending a non-`Modifiers` action preserves `ModsOk`. -/
theorem modsOk_append (sm cm : Nat) (acts : List Action) (a : Action)
    (hm : ModsOk sm cm acts)
    (ha : ∀ d l k g, a ≠ .modifiers d l k g) :
    ModsOk sm cm (acts ++ [a]) := by
  intro i d l k g hi
  by_cases hlt : i < acts.length
  · rw [List.getElem?_append_left hlt] at hi
    rw [List.take_append_of_le_length (by omega)]
    exact hm i d l k g hi
  · by_cases heq : i = acts.length
    · subst heq
      rw [List.getElem?_append_right (le_refl _)] at hi
      simp at hi
      exact absurd hi (ha d l k g)
    · have hnone : (acts ++ [a])[i]? = none :=
        List.getElem?_eq_none (by simp; omega)
      rw [hnone] at hi
      exact absurd hi (by simp)

/-- Appending a `Modifiers` action carrying the implied mask preserves
`ModsOk`. -/
theorem modsOk_append_mod (sm cm : Nat) (acts : List Action) (d0 : Nat)
    (hm : ModsOk sm cm acts)
    (hd : d0 = impliedMask sm cm acts) :
    ModsOk sm cm (acts ++ [Action.modifiers d0 0 0 0]) := by
  intro i d l k g hi
  by_cases hlt : i < acts.length
  · rw [List.getElem?_append_left hlt] at hi
    rw [List.take_append_of_le_length (by omega)]
    exact hm i d l k g hi
  · by_cases heq : i = acts.length
    · subst heq
      rw [List.getElem?_append_right (le_refl _)] at hi
      simp at hi
      rw [List.take_append_of_le_length (le_refl _), List.take_length]
      rw [← hi.1, hd]
    · have hnone : (acts ++ [Action.modifiers d0 0 0 0])[i]? = none :=
        List.getElem?_eq_none (by simp; omega)
      rw [hnone] at hi
      exact absurd hi (by simp)

theorem tracks_new (sm cm : Nat) : BuilderTracks (ActionBuilder.new sm cm) := by
  refine ⟨rfl, rfl, ?_⟩
  intro i d l k g hi
  simp [ActionBuilder.new] at hi

theorem wait_actions_eq (b : ActionBuilder) (ms : Nat) :
    (b.wait ms).actions = b.actions ++ (if ms = 0 then [] else [Action.wait ms]) := by
  unfold ActionBuilder.wait
  split
  · simp
  · rfl

theorem wait_fields (b : ActionBuilder) (ms : Nat) :
    (b.wait ms).shift_down = b.shift_down ∧ (b.wait ms).ctrl_down = b.ctrl_down ∧
    (b.wait ms).shift_mask = b.shift_mask ∧ (b.wait ms).ctrl_mask = b.ctrl_mask := by
  unfold ActionBuilder.wait
  split <;> exact ⟨rfl, rfl, rfl, rfl⟩

theorem tracks_wait (b : ActionBuilder) (ms : Nat) (h : BuilderTracks b) :
    BuilderTracks (b.wait ms) := by
  obtain ⟨h1, h2, h3⟩ := h
  unfold ActionBuilder.wait
  split
  · exact ⟨h1, h2, h3⟩
  · refine ⟨?_, ?_, ?_⟩
    · rw [show ({ b with actions := b.actions ++ [Action.wait ms] } : ActionBuilder).actions =
        b.actions ++ [Action.wait ms] from rfl, impliedShift_snoc]
      exact h1
    · rw [show ({ b with actions := b.actions ++ [Action.wait ms] } : ActionBuilder).actions =
        b.actions ++ [Action.wait ms] from rfl, impliedCtrl_snoc]
      exact h2
    · exact modsOk_append _ _ _ _ h3 (by intro d l k g; simp)

theorem tracks_key (b : ActionBuilder) (kc : Nat) (st : KeyState)
    (h : BuilderTracks b) (h1 : kc ≠ KEY_LEFTSHIFT) (h2 : kc ≠ KEY_RIGHTSHIFT)
    (h3 : kc ≠ KEY_LEFTCTRL) : BuilderTracks (b.key kc st) := by
  obtain ⟨t1, t2, t3⟩ := h
  refine ⟨?_, ?_, ?_⟩
  · rw [show (b.key kc st).actions = b.actions ++ [Action.key kc st] from rfl, impliedShift_snoc]
    simp [shiftStep, h1, h2]
    exact t1
  · rw [show (b.key kc st).actions = b.actions ++ [Action.key kc st] from rfl, impliedCtrl_snoc]
    simp [ctrlStep, h3]
    exact t2
  · exact modsOk_append _ _ _ _ t3 (by intro d l k g; simp)

theorem tracks_set_modifiers (b : ActionBuilder) (h : BuilderTracks b) :
    BuilderTracks b.set_modifiers := by
  obtain ⟨t1, t2, t3⟩ := h
  refine ⟨?_, ?_, ?_⟩
  · rw [show b.set_modifiers.actions = b.actions ++
      [Action.modifiers ((if b.shift_down then b.shift_mask else 0) |||
        (if b.ctrl_down then b.ctrl_mask else 0)) 0 0 0] from rfl, impliedShift_snoc]
    exact t1
  · rw [show b.set_modifiers.actions = b.actions ++
      [Action.modifiers ((if b.shift_down then b.shift_mask else 0) |||
        (if b.ctrl_down then b.ctrl_mask else 0)) 0 0 0] from rfl, impliedCtrl_snoc]
    exact t2
  · exact modsOk_append_mod _ _ _ _ t3 (by rw [impliedMask, t1, t2]; rfl)

theorem tracks_set_shift (b : ActionBuilder) (d : Bool) (r : Rng) (h : BuilderTracks b) :
    BuilderTracks (b.set_shift d r).1 := by
  obtain ⟨t1, t2, t3⟩ := h
  unfold ActionBuilder.set_shift
  split
  · exact ⟨t1, t2, t3⟩
  · dsimp only
    set b1 := b.key KEY_LEFTSHIFT (if d then KeyState.pressed else KeyState.released) with hb1
    set w1 := (genRangeNat 5 20 r).1 with hw1
    have k1 : impliedShift b1.actions = d := by
      rw [hb1, show (b.key KEY_LEFTSHIFT _).actions = b.actions ++
        [Action.key KEY_LEFTSHIFT (if d then KeyState.pressed else KeyState.released)] from rfl,
        impliedShift_snoc]
      cases d <;> simp [shiftStep, KEY_LEFTSHIFT, KEY_RIGHTSHIFT]
    have k2 : impliedCtrl b1.actions = b.ctrl_down := by
      rw [hb1, show (b.key KEY_LEFTSHIFT _).actions = b.actions ++
        [Action.key KEY_LEFTSHIFT (if d then KeyState.pressed else KeyState.released)] from rfl,
        impliedCtrl_snoc]
      simp [ctrlStep, KEY_LEFTSHIFT, KEY_LEFTCTRL]
      exact t2
    have k3 : ModsOk b.shift_mask b.ctrl_mask b1.actions :=
      modsOk_append _ _ _ _ t3 (by intro dd l k g; simp)
    set b2 := { b1.wait w1 with shift_down := d } with hb2
    have m1 : impliedShift b2.actions = d := by
      rw [hb2]
      have : ({ b1.wait w1 with shift_down := d } : ActionBuilder).actions = (b1.wait w1).actions := rfl
      rw [this, wait_actions_eq, impliedShift_append]
      split <;> simp [shiftStep, k1]
    have m2 : impliedCtrl b2.actions = b.ctrl_down := by
      have : ({ b1.wait w1 with shift_down := d } : ActionBuilder).actions = (b1.wait w1).actions := rfl
      rw [hb2, this, wait_actions_eq, impliedCtrl_append]
      split <;> simp [ctrlStep, k2]
    have m3 : ModsOk b.shift_mask b.ctrl_mask b2.actions := by
      have : ({ b1.wait w1 with shift_down := d } : ActionBuilder).actions = (b1.wait w1).actions := rfl
      rw [hb2, this, wait_actions_eq]
      split
      · simpa using k3
      · exact modsOk_append _ _ _ _ k3 (by intro dd l k g; simp)
    have hb2f : b2.shift_down = d ∧ b2.ctrl_down = b.ctrl_down ∧
        b2.shift_mask = b.shift_mask ∧ b2.ctrl_mask = b.ctrl_mask := by
      rw [hb2]
      refine ⟨rfl, ?_, ?_, ?_⟩
      · exact (wait_fields b1 w1).2.1
      · exact (wait_fields b1 w1).2.2.1
      · exact (wait_fields b1 w1).2.2.2
    have hb2tracks : BuilderTracks b2 := by
      refine ⟨?_, ?_, ?_⟩
      · rw [m1, hb2f.1]
      · rw [m2, hb2f.2.1]
      · rw [hb2f.2.2.1, hb2f.2.2.2]
        exact m3
    have hb3 := tracks_set_modifiers b2 hb2tracks
    exact tracks_wait _ _ hb3

theorem tracks_set_ctrl (b : ActionBuilder) (d : Bool) (r : Rng) (h : BuilderTracks b) :
    BuilderTracks (b.set_ctrl d r).1 := by
  obtain ⟨t1, t2, t3⟩ := h
  unfold ActionBuilder.set_ctrl
  split
  · exact ⟨t1, t2, t3⟩
  · dsimp only
    set b1 := b.key KEY_LEFTCTRL (if d then KeyState.pressed else KeyState.released) with hb1
    set w1 := (genRangeNat 5 20 r).1 with hw1
    have k1 : impliedCtrl b1.actions = d := by
      rw [hb1, show (b.key KEY_LEFTCTRL _).actions = b.actions ++
        [Action.key KEY_LEFTCTRL (if d then KeyState.pressed else KeyState.released)] from rfl,
        impliedCtrl_snoc]
      cases d <;> simp [ctrlStep, KEY_LEFTCTRL]
    have k2 : impliedShift b1.actions = b.shift_down := by
      rw [hb1, show (b.key KEY_LEFTCTRL _).actions = b.actions ++
        [Action.key KEY_LEFTCTRL (if d then KeyState.pressed else KeyState.released)] from rfl,
        impliedShift_snoc]
      simp [shiftStep, KEY_LEFTCTRL, KEY_LEFTSHIFT, KEY_RIGHTSHIFT]
      exact t1
    have k3 : ModsOk b.shift_mask b.ctrl_mask b1.actions :=
      modsOk_append _ _ _ _ t3 (by intro dd l k g; simp)
    set b2 := { b1.wait w1 with ctrl_down := d } with hb2
    have hacts : ({ b1.wait w1 with ctrl_down := d } : ActionBuilder).actions = (b1.wait w1).actions := rfl
    have m1 : impliedCtrl b2.actions = d := by
      rw [hb2, hacts, wait_actions_eq, impliedCtrl_append]
      split <;> simp [ctrlStep, k1]
    have m2 : impliedShift b2.actions = b.shift_down := by
      rw [hb2, hacts, wait_actions_eq, impliedShift_append]
      split <;> simp [shiftStep, k2]
    have m3 : ModsOk b.shift_mask b.ctrl_mask b2.actions := by
      rw [hb2, hacts, wait_actions_eq]
      split
      · simpa using k3
      · exact modsOk_append _ _ _ _ k3 (by intro dd l k g; simp)
    have hb2f : b2.ctrl_down = d ∧ b2.shift_down = b.shift_down ∧
        b2.shift_mask = b.shift_mask ∧ b2.ctrl_mask = b.ctrl_mask := by
      rw [hb2]
      refine ⟨rfl, ?_, ?_, ?_⟩
      · exact (wait_fields b1 w1).1
      · exact (wait_fields b1 w1).2.2.1
      · exact (wait_fields b1 w1).2.2.2
    have hb2tracks : BuilderTracks b2 := by
      refine ⟨?_, ?_, ?_⟩
      · rw [m2, hb2f.2.1]
      · rw [m1, hb2f.1]
      · rw [hb2f.2.2.1, hb2f.2.2.2]
        exact m3
    have hb3 := tracks_set_modifiers b2 hb2tracks
    exact tracks_wait _ _ hb3

theorem tracks_press_key (b : ActionBuilder) (kc : Nat) (r : Rng)
    (h : BuilderTracks b) (h1 : kc ≠ KEY_LEFTSHIFT) (h2 : kc ≠ KEY_RIGHTSHIFT)
    (h3 : kc ≠ KEY_LEFTCTRL) : BuilderTracks (b.press_key kc r).1 := by
  unfold ActionBuilder.press_key
  exact tracks_key _ _ _ (tracks_wait _ _ (tracks_key _ _ _ h h1 h2 h3)) h1 h2 h3

theorem tracks_type_char (b : ActionBuilder) (stroke : KeyStroke) (r : Rng)
    (h : BuilderTracks b) (h1 : stroke.keycode ≠ KEY_LEFTSHIFT)
    (h2 : stroke.keycode ≠ KEY_RIGHTSHIFT) (h3 : stroke.keycode ≠ KEY_LEFTCTRL) :
    BuilderTracks (b.type_char stroke r).1 := by
  unfold ActionBuilder.type_char
  exact tracks_press_key _ _ _ (tracks_set_shift _ _ _ (tracks_set_ctrl _ _ _ h)) h1 h2 h3

/-- C5 (amended).  The action builder's `shift_down`/`ctrl_down` always equal
the Shift/Ctrl state implied by the cumulative key events, and every emitted
`Modifiers` action carries exactly the mask implied at its position: this
invariant holds of a fresh builder and is preserved by every builder
operation (for `press_key`/`type_char`, whenever the pressed keycode is not
itself a modifier key, which holds for every keystroke the planner emits). -/
theorem c5_modifier_tracking :
    (∀ sm cm, BuilderTracks (ActionBuilder.new sm cm)) ∧
    (∀ b ms, BuilderTracks b → BuilderTracks (b.wait ms)) ∧
    (∀ b, BuilderTracks b → BuilderTracks b.set_modifiers) ∧
    (∀ b d r, BuilderTracks b → BuilderTracks (b.set_shift d r).1) ∧
    (∀ b d r, BuilderTracks b → BuilderTracks (b.set_ctrl d r).1) ∧
    (∀ b kc r, BuilderTracks b → kc ≠ KEY_LEFTSHIFT → kc ≠ KEY_RIGHTSHIFT →
      kc ≠ KEY_LEFTCTRL → BuilderTracks (b.press_key kc r).1) ∧
    (∀ b stroke r, BuilderTracks b → stroke.keycode ≠ KEY_LEFTSHIFT →
      stroke.keycode ≠ KEY_RIGHTSHIFT → stroke.keycode ≠ KEY_LEFTCTRL →
      BuilderTracks (b.type_char stroke r).1) ∧
    (∀ b r, BuilderTracks b →
      BuilderTracks (b.nav_left r).1 ∧ BuilderTracks (b.nav_right r).1 ∧
      BuilderTracks (b.nav_word_left r).1 ∧ BuilderTracks (b.nav_word_right r).1 ∧
      BuilderTracks (b.backspace r).1) := by
  refine ⟨tracks_new, tracks_wait, tracks_set_modifiers, tracks_set_shift, tracks_set_ctrl,
    tracks_press_key, tracks_type_char, ?_⟩
  intro b r h
  have base : ∀ (d : Bool) (r0 : Rng), BuilderTracks ((b.set_ctrl d r0).1.set_shift false
      (b.set_ctrl d r0).2).1 := fun d r0 =>
    tracks_set_shift _ _ _ (tracks_set_ctrl _ _ _ h)
  refine ⟨?_, ?_, ?_, ?_, ?_⟩
  · unfold ActionBuilder.nav_left
    exact tracks_press_key _ _ _ (base false r) (by decide) (by decide) (by decide)
  · unfold ActionBuilder.nav_right
    exact tracks_press_key _ _ _ (base false r) (by decide) (by decide) (by decide)
  · unfold ActionBuilder.nav_word_left
    exact tracks_press_key _ _ _ (base true r) (by decide) (by decide) (by decide)
  · unfold ActionBuilder.nav_word_right
    exact tracks_press_key _ _ _ (base true r) (by decide) (by decide) (by decide)
  · unfold ActionBuilder.backspace
    exact tracks_press_key _ _ _ (base false r) (by decide) (by decide) (by decide)

/-- Witness for C5's amended theorem: the invariant holds after a concrete
`new → set_modifiers → set_shift true → press_key KEY_A` chain. -/
theorem c5_modifier_tracking_witness :
    BuilderTracks (((((ActionBuilder.new 1 4).set_modifiers).set_shift true
      ⟨fun _ => 0, 0⟩).1).press_key KEY_A
        ((((ActionBuilder.new 1 4).set_modifiers).set_shift true ⟨fun _ => 0, 0⟩).2)).1 := by
  apply c5_modifier_tracking.2.2.2.2.2.1
  · apply c5_modifier_tracking.2.2.2.1
    apply c5_modifier_tracking.2.2.1
    exact c5_modifier_tracking.1 1 4
  · decide
  · decide
  · decide

/-! ## C6: the phrase-alternative validator -/

/-- The per-item conditions of the amended claim (with "occurs exactly once"
read as `match_indices`' non-overlapping left-to-right scan, as the source
counts). -/
def itemOk (paragraph : List Char) (it : PhraseAlternative) : Prop :=
  it.original ≠ [] ∧ rustTrim it.original = it.original ∧
  it.alternative ≠ [] ∧ rustTrim it.alternative = it.alternative ∧
  it.original ≠ it.alternative ∧
  is_supported_text it.original = true ∧
  is_supported_text it.alternative = true ∧
  countOcc it.original paragraph = 1

instance (paragraph : List Char) (it : PhraseAlternative) : Decidable (itemOk paragraph it) := by
  unfold itemOk
  infer_instance

/-- The occurrence range of an item's original (its first match). -/
def rangeOf (paragraph : List Char) (it : PhraseAlternative) : Nat × Nat :=
  ((firstOccAt it.original paragraph).getD 0,
   (firstOccAt it.original paragraph).getD 0 + it.original.length)

/-- Two ranges do not overlap. -/
def PairDisj (a b : Nat × Nat) : Prop := a.2 ≤ b.1 ∨ b.2 ≤ a.1

instance : DecidableRel PairDisj := fun a b => by unfold PairDisj; infer_instance

/-- The number of positions at which `pat` occurs in `paragraph` (counting
overlapping occurrences): the literal reading of "occurs exactly once". -/
def occPositions (paragraph pat : List Char) : Nat :=
  ((List.range (paragraph.length + 1)).filter (fun k => leadsWith pat (paragraph.drop k))).length

/-- The claim as stated, with "occurs exactly once in the paragraph" read as
the count of occurrence positions. -/
def specValidateLiteral (paragraph : List Char) (items : List PhraseAlternative) : Prop :=
  is_supported_text paragraph = true ∧
  (∀ it ∈ items,
    it.original ≠ [] ∧ rustTrim it.original = it.original ∧
    it.alternative ≠ [] ∧ rustTrim it.alternative = it.alternative ∧
    it.original ≠ it.alternative ∧
    is_supported_text it.original = true ∧
    is_supported_text it.alternative = true ∧
    occPositions paragraph it.original = 1) ∧
  (items.map (rangeOf paragraph)).Pairwise PairDisj

/-- Counterexample to C6 as stated: in the paragraph `"aaa"` the original
`"aa"` occurs at two positions (0 and 1), yet the validator accepts it,
because `match_indices` counts non-overlapping matches only. -/
theorem c6_counterexample :
    validate_phrase_alternatives "aaa".toList [⟨"aa".toList, "b".toList⟩] = .ok () ∧
    ¬ specValidateLiteral "aaa".toList [⟨"aa".toList, "b".toList⟩] := by
  constructor
  · decide
  · intro h
    have := (h.2.1 ⟨"aa".toList, "b".toList⟩ (by decide)).2.2.2.2.2.2.2
    revert this
    decide

theorem countOcc_pos_firstOcc (pat : List Char) : ∀ (hay : List Char),
    countOcc pat hay ≠ 0 → (firstOccAt pat hay).isSome := by
  intro hay
  induction hay with
  | nil =>
    intro h
    rw [countOcc_nil] at h
    rw [firstOccAt]
    split at h
    · simp_all
    · omega
  | cons x xs ih =>
    intro h
    rw [countOcc_cons] at h
    rw [firstOccAt]
    by_cases hl : leadsWith pat (x :: xs) = true
    · simp [hl]
    · rw [if_neg hl] at h ⊢
      have := ih h
      simp_all

theorem validateItems_sound (paragraph : List Char) : ∀ (items : List PhraseAlternative)
    (rs : List (Nat × Nat)), validateItems paragraph items = .ok rs →
    (∀ it ∈ items, itemOk paragraph it) ∧ rs = items.map (rangeOf paragraph) := by
  intro items
  induction items with
  | nil =>
    intro rs h
    rw [validateItems] at h
    simp at h
    subst h
    simp
  | cons it rest ih =>
    intro rs h
    rw [validateItems] at h
    split at h; · simp at h
    split at h; · simp at h
    split at h; · simp at h
    split at h; · simp at h
    split at h; · simp at h
    split at h; · simp at h
    split at h; · simp at h
    split at h; · simp at h
    split at h
    · simp at h
    · rename_i st hst
      cases hrec : validateItems paragraph rest with
      | error e => rw [hrec] at h; simp [Except.map] at h
      | ok rs' =>
        rw [hrec] at h
        simp [Except.map] at h
        obtain ⟨hall, hmap⟩ := ih rs' hrec
        constructor
        · intro x hx
          rcases List.mem_cons.mp hx with rfl | hx'
          · refine ⟨?_, ?_, ?_, ?_, ?_, ?_, ?_, ?_⟩ <;> simp_all
          · exact hall x hx'
        · rw [← h, hmap]
          simp [rangeOf, hst]

theorem validateItems_complete (paragraph : List Char) : ∀ (items : List PhraseAlternative),
    (∀ it ∈ items, itemOk paragraph it) →
    validateItems paragraph items = .ok (items.map (rangeOf paragraph)) := by
  intro items
  induction items with
  | nil => intro _; rw [validateItems]; simp
  | cons it rest ih =>
    intro h
    obtain ⟨o1, o2, o3, o4, o5, o6, o7, o8⟩ := h it (List.mem_cons_self it rest)
    have hsome : (firstOccAt it.original paragraph).isSome :=
      countOcc_pos_firstOcc it.original paragraph (by omega)
    obtain ⟨st, hst⟩ := Option.isSome_iff_exists.mp hsome
    rw [validateItems]
    rw [if_neg (by simpa using o1), if_neg (by simp [o2]), if_neg (by simpa using o3),
      if_neg (by simp [o4]), if_neg (by simp [o5]), if_neg (by simp [o6]),
      if_neg (by simp [o7]), if_neg (by simp [o8]), hst]
    rw [ih (fun x hx => h x (List.mem_cons_of_mem it hx))]
    simp [Except.map, rangeOf, hst]

theorem rangesNonOverlapping_iff_chain : ∀ (l : List (Nat × Nat)),
    rangesNonOverlapping l = true ↔ l.Chain' (fun a b => a.2 ≤ b.1)
  | [] => by simp [rangesNonOverlapping]
  | [a] => by simp [rangesNonOverlapping]
  | a :: b :: rest => by
    rw [rangesNonOverlapping]
    rw [Bool.and_eq_true, rangesNonOverlapping_iff_chain (b :: rest), List.chain'_cons]
    simp

theorem chain'_conj {α : Type} {R S : α → α → Prop} : ∀ (l : List α),
    l.Chain' R → l.Chain' S → l.Chain' (fun a b => R a b ∧ S a b)
  | [] => by simp
  | [a] => by simp
  | a :: b :: rest => by
    intro hr hs
    rw [List.chain'_cons] at hr hs ⊢
    exact ⟨⟨hr.1, hs.1⟩, chain'_conj (b :: rest) hr.2 hs.2⟩

theorem chain_to_pairwise : ∀ (l : List (Nat × Nat)),
    l.Pairwise (fun a b => a.1 ≤ b.1) → l.Chain' (fun a b => a.2 ≤ b.1) →
    l.Pairwise (fun a b => a.2 ≤ b.1)
  | [] => by simp
  | a :: t => by
    intro hs hc
    rw [List.pairwise_cons] at hs ⊢
    refine ⟨?_, chain_to_pairwise t hs.2 hc.tail⟩
    intro b hb
    cases t with
    | nil => simp at hb
    | cons c t' =>
      have hac : a.2 ≤ c.1 := (List.chain'_cons.mp hc).1
      rcases List.mem_cons.mp hb with rfl | hb'
      · exact hac
      · have hcb : c.1 ≤ b.1 := (List.pairwise_cons.mp hs.2).1 b hb'
        omega

theorem directed_of_pairdisj : ∀ (l : List (Nat × Nat)),
    (∀ p ∈ l, p.1 < p.2) → l.Chain' (fun a b => a.1 ≤ b.1) → l.Chain' PairDisj →
    l.Chain' (fun a b => a.2 ≤ b.1)
  | [] => by simp
  | [a] => by simp
  | a :: b :: rest => by
    intro hlen hs hd
    rw [List.chain'_cons] at hs hd ⊢
    refine ⟨?_, directed_of_pairdisj (b :: rest)
      (fun p hp => hlen p (List.mem_cons_of_mem a hp)) hs.2 hd.2⟩
    have ha := hlen a (by simp)
    have hb := hlen b (by simp)
    rcases hd.1 with h | h
    · exact h
    · omega

theorem pairDisj_symm : ∀ a b : Nat × Nat, PairDisj a b → PairDisj b a := by
  intro a b h
  exact Or.symm h

theorem nonOverlap_sorted_iff (l : List (Nat × Nat)) (hlen : ∀ p ∈ l, p.1 < p.2) :
    rangesNonOverlapping (l.insertionSort leFst) = true ↔ l.Pairwise PairDisj := by
  have hperm : List.Perm (l.insertionSort leFst) l := List.perm_insertionSort leFst l
  have hsorted : (l.insertionSort leFst).Pairwise (fun a b => a.1 ≤ b.1) :=
    List.sorted_insertionSort leFst l
  have hlen' : ∀ p ∈ l.insertionSort leFst, p.1 < p.2 := fun p hp =>
    hlen p (hperm.mem_iff.mp hp)
  rw [rangesNonOverlapping_iff_chain]
  constructor
  · intro hchain
    have hpw := chain_to_pairwise _ hsorted hchain
    have hps : (l.insertionSort leFst).Pairwise PairDisj :=
      hpw.imp (fun h => Or.inl h)
    exact (List.Perm.pairwise_iff (fun {a b} h => pairDisj_symm a b h) hperm).mp hps
  · intro hpl
    have hps : (l.insertionSort leFst).Pairwise PairDisj :=
      (List.Perm.pairwise_iff (fun {a b} h => pairDisj_symm a b h) hperm).mpr hpl
    exact directed_of_pairdisj _ hlen' hsorted.chain' hps.chain'

theorem itemOk_range_len (paragraph : List Char) (it : PhraseAlternative)
    (h : itemOk paragraph it) : (rangeOf paragraph it).1 < (rangeOf paragraph it).2 := by
  obtain ⟨h1, -, -, -, -, -, -, -⟩ := h
  unfold rangeOf
  have : 0 < it.original.length := List.length_pos.mpr h1
  omega

/-- C6 (amended).  `validate_phrase_alternatives` returns `Ok` exactly when
the paragraph is fully typeable, every item's original is non-empty, not
whitespace-bordered, typeable, with exactly one match in the non-overlapping
left-to-right scan of the paragraph, every item's alternative is non-empty,
not whitespace-bordered, typeable and differs from its original, and the
items' occurrence ranges are pairwise non-overlapping; on any violation it
returns an error (nothing is partially accepted). -/
theorem c6_validator (paragraph : List Char) (items : List PhraseAlternative) :
    validate_phrase_alternatives paragraph items = .ok () ↔
      (is_supported_text paragraph = true ∧
       (∀ it ∈ items, itemOk paragraph it) ∧
       (items.map (rangeOf paragraph)).Pairwise PairDisj) := by
  unfold validate_phrase_alternatives
  by_cases hsup : is_supported_text paragraph = true
  · rw [if_neg (by simpa using hsup)]
    constructor
    · intro h
      cases hv : validateItems paragraph items with
      | error e => rw [hv] at h; simp [Except.bind] at h
      | ok rs =>
        rw [hv] at h
        simp only [Except.bind] at h
        obtain ⟨hall, hrs⟩ := validateItems_sound paragraph items rs hv
        subst hrs
        split at h
        · rename_i hno
          refine ⟨hsup, hall, ?_⟩
          rw [← nonOverlap_sorted_iff _ ?_]
          · exact hno
          · intro p hp
            obtain ⟨it, hit, rfl⟩ := List.mem_map.mp hp
            exact itemOk_range_len paragraph it (hall it hit)
        · simp at h
    · rintro ⟨-, h2, h3⟩
      rw [validateItems_complete paragraph items h2]
      simp only [Except.bind]
      rw [if_pos]
      rw [nonOverlap_sorted_iff]
      · exact h3
      · intro p hp
        obtain ⟨it, hit, rfl⟩ := List.mem_map.mp hp
        exact itemOk_range_len paragraph it (h2 it hit)
  · rw [if_pos (by simpa using hsup)]
    constructor
    · intro h; simp at h
    · rintro ⟨h1, -, -⟩; exact absurd h1 hsup

/-- Witness for C6 at a concrete accepted and a concrete rejected input. -/
theorem c6_validator_witness :
    validate_phrase_alternatives "hello world".toList
      [⟨"hello".toList, "howdy".toList⟩] = .ok () ∧
    validate_phrase_alternatives "hello world".toList
      [⟨"hello".toList, "hello".toList⟩] ≠ .ok () := by
  constructor
  · exact (c6_validator "hello world".toList [⟨"hello".toList, "howdy".toList⟩]).mpr
      (by decide)
  · intro h
    have := (c6_validator "hello world".toList [⟨"hello".toList, "hello".toList⟩]).mp h
    have h5 := (this.2.1 ⟨"hello".toList, "hello".toList⟩ (by decide)).2.2.2.2.1
    exact h5 rfl

/-! ## C7: the supported alphabet at the plan-generation boundary -/

/-- The supported alphabet as the claim states it: ASCII printable, newline,
or one of the four smart quotes. -/
def specSupportedChar (c : Char) : Prop :=
  (32 ≤ c.toNat ∧ c.toNat ≤ 126) ∨ c = '\n' ∨ c = '’' ∨ c = '‘' ∨ c = '”' ∨ c = '“'

instance (c : Char) : Decidable (specSupportedChar c) := by
  unfold specSupportedChar
  infer_instance

theorem char_to_keystroke_printable :
    ∀ n, n < 127 → 32 ≤ n → (char_to_keystroke (Char.ofNat n)).isSome = true := by
  decide

theorem keystroke_isSome_iff (c : Char) :
    (keystroke_for_output_char c).isSome = true ↔ specSupportedChar c := by
  unfold keystroke_for_output_char typed_char_for_output_char specSupportedChar
  by_cases h1 : c = '\n'
  · subst h1; decide
  · rw [if_neg h1]
    by_cases h2 : c = '\t' ∨ c = '\r'
    · rcases h2 with rfl | rfl <;> decide
    · rw [if_neg h2]
      by_cases h3 : c = '’' ∨ c = '‘'
      · rcases h3 with rfl | rfl <;> decide
      · rw [if_neg h3]
        by_cases h4 : c = '”' ∨ c = '“'
        · rcases h4 with rfl | rfl <;> decide
        · rw [if_neg h4]
          by_cases h5 : isAsciiGraphic c ∨ c = ' '
          · rw [if_pos h5]
            have hv : 32 ≤ c.toNat ∧ c.toNat ≤ 126 := by
              rcases h5 with h5 | rfl
              · unfold isAsciiGraphic at h5
                simp at h5
                omega
              · decide
            constructor
            · intro _
              exact Or.inl hv
            · intro _
              have hks : (char_to_keystroke c).isSome = true := by
                have h127 : c.toNat < 127 := by omega
                have hp := char_to_keystroke_printable c.toNat h127 hv.1
                rwa [Char.ofNat_toNat] at hp
              simpa using hks
          · rw [if_neg h5]
            constructor
            · intro h
              simp [Option.isSome] at h
            · intro h
              exfalso
              rcases h with h | h | h | h | h | h
              · by_cases hsp : c.toNat = 32
                · apply h5
                  right
                  have hc : c = Char.ofNat c.toNat := by rw [Char.ofNat_toNat]
                  rw [hc, hsp]
                · exact h5 (Or.inl (by unfold isAsciiGraphic; simp; omega))
              all_goals (subst h; simp_all)

theorem findAux_none_iff : ∀ (l : List Char) (b : Nat),
    findFirstUnsupportedAux b l = none ↔ ∀ c ∈ l, (keystroke_for_output_char c).isSome = true := by
  intro l
  induction l with
  | nil => intro b; simp [findFirstUnsupportedAux]
  | cons x xs ih =>
    intro b
    rw [findFirstUnsupportedAux]
    by_cases hx : (keystroke_for_output_char x).isSome = true
    · rw [if_pos hx, ih]
      simp [hx]
    · rw [if_neg hx]
      simp [hx]

theorem generate_plan_ok_supported (text : List Char) (cfg : PlannerConfig) (r : Rng)
    (p : Plan) (h : generate_plan text cfg r = .ok p) :
    find_first_unsupported_char text = none := by
  cases hf : find_first_unsupported_char text
  · rfl
  · exfalso
    unfold generate_plan at h
    split at h
    · unfold generate_plan_no_revision at h
      cases hv : validate_config cfg with
      | error e => rw [hv] at h; simp [Except.bind] at h
      | ok u => rw [hv] at h; simp only [Except.bind] at h; rw [hf] at h; simp at h
    · unfold generate_plan_impl at h
      cases hv : validate_config cfg with
      | error e => rw [hv] at h; simp [Except.bind] at h
      | ok u => rw [hv] at h; simp only [Except.bind] at h; rw [hf] at h; simp at h

theorem generate_plan_unsupported_err (text : List Char) (cfg : PlannerConfig) (r : Rng)
    (bi : Nat) (c : Char) (hv : validate_config cfg = .ok ())
    (hf : find_first_unsupported_char text = some (bi, c)) :
    generate_plan text cfg r =
      .error (.unsupportedChar (byte_index_to_line_col text bi).1
        (byte_index_to_line_col text bi).2 c) := by
  unfold generate_plan
  split
  · unfold generate_plan_no_revision
    rw [hv]
    simp only [Except.bind]
    rw [hf]
  · unfold generate_plan_impl
    rw [hv]
    simp only [Except.bind]
    rw [hf]

/-- Counterexample to C7 as stated: with an invalid config (here a negative
`wpm_min`) and a tab in the text, `generate_plan` reports the config error,
not the line/column of the unsupported character — config validation runs
first. -/
theorem c7_counterexample :
    generate_plan ['\t'] ⟨-1, 60, 5/100, 35/100, 35/100, .chrome, 4, 88/100, 1200, 2600, false⟩
        ⟨fun _ => 0, 0⟩ =
      .error (.configError "wpm_min and wpm_max must be > 0") ∧
    (PlanErr.configError "wpm_min and wpm_max must be > 0" ≠
      .unsupportedChar 1 1 '\t') := by
  constructor
  · decide
  · decide

/-- C7 (amended).  Plan generation succeeds only for texts whose characters
are all ASCII printable, newline, or smart quotes; the first-unsupported
scan finds nothing exactly on such texts; and — provided the configuration is
valid, since config validation runs first — a text with an unsupported
character makes `generate_plan` fail with the line, column and code point of
its first unsupported character. -/
theorem c7_character_boundary :
    (∀ (text : List Char) (cfg : PlannerConfig) (r : Rng) (p : Plan),
      generate_plan text cfg r = .ok p → find_first_unsupported_char text = none) ∧
    (∀ text : List Char,
      find_first_unsupported_char text = none ↔ ∀ c ∈ text, specSupportedChar c) ∧
    (∀ (text : List Char) (cfg : PlannerConfig) (r : Rng) (bi : Nat) (c : Char),
      validate_config cfg = .ok () → find_first_unsupported_char text = some (bi, c) →
      generate_plan text cfg r =
        .error (.unsupportedChar (byte_index_to_line_col text bi).1
          (byte_index_to_line_col text bi).2 c)) := by
  refine ⟨generate_plan_ok_supported, ?_, generate_plan_unsupported_err⟩
  intro text
  unfold find_first_unsupported_char
  rw [findAux_none_iff]
  constructor
  · intro h c hc
    exact (keystroke_isSome_iff c).mp (h c hc)
  · intro h c hc
    exact (keystroke_isSome_iff c).mpr (h c hc)

/-- Witness for C7: a valid config plus the text `"ab\tc"` fails with line 1,
column 3, code point U+0009. -/
theorem c7_character_boundary_witness :
    generate_plan "ab\tc".toList
        ⟨55, 55, 0, 35/100, 0, .chrome, 4, 88/100, 1200, 2600, false⟩ ⟨fun _ => 0, 0⟩ =
      .error (.unsupportedChar 1 3 '\t') ∧
    (find_first_unsupported_char "ab".toList = none ↔ ∀ c ∈ "ab".toList, specSupportedChar c) := by
  constructor
  · have := c7_character_boundary.2.2 "ab\tc".toList
      ⟨55, 55, 0, 35/100, 0, .chrome, 4, 88/100, 1200, 2600, false⟩ ⟨fun _ => 0, 0⟩
      2 '\t' (by decide) (by decide)
    rw [this]
    decide
  · exact c7_character_boundary.2.1 "ab".toList

/-! ## C8: the per-character delay model -/

/-- The claim's think-pause, stated as drawing from 600–2400 ms in both the
sentence-punctuation and newline cases (spec-side definition, for comparison
with `maybe_think_pause_ms`). -/
def specMaybeThinkPauseMs (prev : Char) (r : Rng) : Nat × Rng :=
  if prev = '.' ∨ prev = '!' ∨ prev = '?' then
    let p := genBool (12/100) r
    if p.1 then genRangeNat 600 2400 p.2 else (0, p.2)
  else if prev = '\n' then
    let p := genBool (10/100) r
    if p.1 then genRangeNat 600 2400 p.2 else (0, p.2)
  else (0, r)

/-- The claim's inter-char delay, with `stddev = 0.35·mean` and no lower
bound on the standard deviation (spec-side definition). -/
def specInterCharDelayMs (wpm : ℚ) (r : Rng) : Nat × Rng :=
  let mean := 12000 / wpm
  let stddev := mean * (35/100)
  let p := normalSample mean stddev r
  ((round (clampQ p.1 25 900)).toNat, p.2)

/-- The per-character delay exactly as the claim states it. -/
def specDelayAfterChar (c : Char) (wpm : ℚ) (r : Rng) : Nat × Rng :=
  let p1 := specInterCharDelayMs wpm r
  let p2 := punctuation_pause_ms c p1.2
  let p3 := specMaybeThinkPauseMs c p2.2
  (p1.1 + p2.1 + p3.1, p3.2)

/-- Counterexample to C8 as stated: after a newline, with the same random
stream, the code draws its think-pause from 600–2000 ms while the claim's
formula draws from 600–2400 ms; at the raw draw 1800 the code yields a total
delay of 1224 ms where the claim's formula yields 2625 ms. -/
theorem c8_counterexample :
    (delayAfterChar '\n' 55 ⟨fun i => if i = 3 then 1800 else 0, 0⟩).1 = 1224 ∧
    (specDelayAfterChar '\n' 55 ⟨fun i => if i = 3 then 1800 else 0, 0⟩).1 = 2625 ∧
    (1224 : Nat) ≠ 2625 := by
  refine ⟨by decide, by decide, by decide⟩

theorem genRangeNat_bounds (lo hi : Nat) (r : Rng) (h : lo ≤ hi) :
    lo ≤ (genRangeNat lo hi r).1 ∧ (genRangeNat lo hi r).1 ≤ hi := by
  unfold genRangeNat Rng.next
  constructor
  · exact Nat.le_add_right _ _
  · have := Nat.mod_lt (r.stream r.idx) (show 0 < hi + 1 - lo by omega)
    simp only
    omega

theorem clampQ_bounds (x lo hi : ℚ) (h : lo ≤ hi) :
    lo ≤ clampQ x lo hi ∧ clampQ x lo hi ≤ hi := by
  unfold clampQ
  split_ifs with h1 h2
  · exact ⟨le_refl _, h⟩
  · exact ⟨h, le_refl _⟩
  · exact ⟨le_of_not_lt h1, le_of_not_lt h2⟩

theorem inter_char_delay_bounds (wpm : ℚ) (r : Rng) :
    25 ≤ (inter_char_delay_ms wpm r).1 ∧ (inter_char_delay_ms wpm r).1 ≤ 900 := by
  unfold inter_char_delay_ms
  have hb := clampQ_bounds (normalSample (12000 / wpm)
    (max (12000 / wpm * (35/100)) 1) r).1 25 900 (by norm_num)
  have hlow : (25 : ℤ) ≤ round (clampQ (normalSample (12000 / wpm)
      (max (12000 / wpm * (35/100)) 1) r).1 25 900) := by
    rw [round_eq]
    rw [Int.le_floor]
    push_cast
    linarith [hb.1]
  have hhigh : round (clampQ (normalSample (12000 / wpm)
      (max (12000 / wpm * (35/100)) 1) r).1 25 900) < 901 := by
    rw [round_eq]
    rw [Int.floor_lt]
    push_cast
    linarith [hb.2]
  constructor
  · simp only
    omega
  · simp only
    omega

/-- C8 (amended).  The wait appended by `type_string` after each character is
the inter-char delay plus the punctuation pause plus the think pause, where
the inter-char delay is a `Normal(mean = 12000/wpm, stddev = max(0.35·mean,
1.0))` sample clamped to [25, 900] ms, the punctuation pause is drawn from
60–220 ms for `,;:`, 120–520 ms for `.!?` and 200–900 ms for newline, and the
Bernoulli(0.12)/Bernoulli(0.10)-gated think pause is drawn from 700–2400 ms
after sentence-ending punctuation and 600–2000 ms after newline. -/
theorem c8_delay_model :
    (∀ (b : ActionBuilder) (e : EditorState) (c : Char) (wpm : ℚ) (r : Rng) (stroke : KeyStroke),
      keystroke_for_output_char c = some stroke →
      type_string b e [c] wpm r =
        .ok ((b.type_char stroke r).1.wait (delayAfterChar c wpm (b.type_char stroke r).2).1,
             e.insert_char c, (delayAfterChar c wpm (b.type_char stroke r).2).2)) ∧
    (∀ (wpm : ℚ) (r : Rng),
      inter_char_delay_ms wpm r =
        ((round (clampQ (normalSample (12000 / wpm) (max (12000 / wpm * (35/100)) 1) r).1
          25 900)).toNat,
         (normalSample (12000 / wpm) (max (12000 / wpm * (35/100)) 1) r).2) ∧
      25 ≤ (inter_char_delay_ms wpm r).1 ∧ (inter_char_delay_ms wpm r).1 ≤ 900) ∧
    (∀ (c : Char) (r : Rng),
      ((c = ',' ∨ c = ';' ∨ c = ':') →
        60 ≤ (punctuation_pause_ms c r).1 ∧ (punctuation_pause_ms c r).1 ≤ 220) ∧
      ((c = '.' ∨ c = '!' ∨ c = '?') →
        120 ≤ (punctuation_pause_ms c r).1 ∧ (punctuation_pause_ms c r).1 ≤ 520) ∧
      (c = '\n' → 200 ≤ (punctuation_pause_ms c r).1 ∧ (punctuation_pause_ms c r).1 ≤ 900) ∧
      (¬ (c = ',' ∨ c = ';' ∨ c = ':' ∨ c = '.' ∨ c = '!' ∨ c = '?' ∨ c = '\n') →
        (punctuation_pause_ms c r).1 = 0)) ∧
    (∀ (c : Char) (r : Rng),
      ((c = '.' ∨ c = '!' ∨ c = '?') → (maybe_think_pause_ms c r).1 = 0 ∨
        (700 ≤ (maybe_think_pause_ms c r).1 ∧ (maybe_think_pause_ms c r).1 ≤ 2400)) ∧
      (c = '\n' → (maybe_think_pause_ms c r).1 = 0 ∨
        (600 ≤ (maybe_think_pause_ms c r).1 ∧ (maybe_think_pause_ms c r).1 ≤ 2000)) ∧
      (¬ (c = '.' ∨ c = '!' ∨ c = '?' ∨ c = '\n') → (maybe_think_pause_ms c r).1 = 0)) ∧
    (∀ (c : Char) (wpm : ℚ) (r : Rng),
      delayAfterChar c wpm r =
        ((inter_char_delay_ms wpm r).1 +
          (punctuation_pause_ms c (inter_char_delay_ms wpm r).2).1 +
          (maybe_think_pause_ms c (punctuation_pause_ms c (inter_char_delay_ms wpm r).2).2).1,
         (maybe_think_pause_ms c (punctuation_pause_ms c (inter_char_delay_ms wpm r).2).2).2)) := by
  refine ⟨?_, ?_, ?_, ?_, fun c wpm r => rfl⟩
  · intro b e c wpm r stroke hs
    rw [type_string, hs]
    rfl
  · intro wpm r
    exact ⟨rfl, inter_char_delay_bounds wpm r⟩
  · intro c r
    refine ⟨?_, ?_, ?_, ?_⟩
    · rintro (rfl | rfl | rfl) <;>
        exact genRangeNat_bounds 60 220 r (by omega)
    · rintro (rfl | rfl | rfl) <;>
        exact genRangeNat_bounds 120 520 r (by omega)
    · rintro rfl
      exact genRangeNat_bounds 200 900 r (by omega)
    · intro h
      unfold punctuation_pause_ms
      rw [if_neg (by tauto), if_neg (by tauto), if_neg (by tauto)]
  · intro c r
    refine ⟨?_, ?_, ?_⟩
    · rintro h
      unfold maybe_think_pause_ms
      rw [if_pos h]
      dsimp only
      split
      · exact Or.inr (genRangeNat_bounds 700 2400 _ (by omega))
      · exact Or.inl rfl
    · rintro rfl
      unfold maybe_think_pause_ms
      rw [if_neg (by decide), if_pos rfl]
      dsimp only
      split
      · exact Or.inr (genRangeNat_bounds 600 2000 _ (by omega))
      · exact Or.inl rfl
    · intro h
      unfold maybe_think_pause_ms
      rw [if_neg (by tauto), if_neg (by tauto)]

/-- Witness for C8's amended theorem at concrete inputs. -/
theorem c8_delay_model_witness :
    type_string (ActionBuilder.new 1 4) ⟨[], 0⟩ ['a'] 55 ⟨fun _ => 0, 0⟩ =
      .ok (((ActionBuilder.new 1 4).type_char ⟨KEY_A, false⟩ ⟨fun _ => 0, 0⟩).1.wait
            (delayAfterChar 'a' 55
              ((ActionBuilder.new 1 4).type_char ⟨KEY_A, false⟩ ⟨fun _ => 0, 0⟩).2).1,
           (⟨[], 0⟩ : EditorState).insert_char 'a',
           (delayAfterChar 'a' 55
             ((ActionBuilder.new 1 4).type_char ⟨KEY_A, false⟩ ⟨fun _ => 0, 0⟩).2).2) ∧
    (60 ≤ (punctuation_pause_ms ',' ⟨fun _ => 0, 0⟩).1 ∧
      (punctuation_pause_ms ',' ⟨fun _ => 0, 0⟩).1 ≤ 220) := by
  constructor
  · exact c8_delay_model.1 (ActionBuilder.new 1 4) ⟨[], 0⟩ 'a' 55 ⟨fun _ => 0, 0⟩
      ⟨KEY_A, false⟩ (by decide)
  · exact (c8_delay_model.2.2.1 ',' ⟨fun _ => 0, 0⟩).1 (Or.inl rfl)

/-! ## C2: error_rate == 0 does not skip the review wait -/

/-- The spec's straight-through scenario text. -/
def c2Text : List Char := "Hello world. This should type cleanly.\n".toList

/-- The spec's straight-through scenario config: `error_rate_per_word = 0`,
`review_pause_ms_min = review_pause_ms_max = 99999`, `no_revision` left at its
default `false`; the other fields are the source defaults except
`wpm_min = wpm_max = 55` and `immediate_fix_rate = 1` as in the scenario. -/
def c2Cfg : PlannerConfig :=
  ⟨55, 55, 0, 35/100, 1, .chrome, 4, 88/100, 99999, 99999, false⟩

/-- A stream of all-max draws: every `gen_bool` with p < 1 comes out false, so
no optional error is injected, and every `gen_range lo..=lo` still returns
`lo`. -/
def c2Rng : Rng := ⟨fun _ => 18446744073709551615, 0⟩

def c2PlanActions : List Action :=
  ((generate_plan c2Text c2Cfg c2Rng).toOption.getD ⟨0, ⟨"", 0, "", 0⟩, []⟩).actions

/-- A revision key event: backspace, left or right. -/
def c2Forbidden (a : Action) : Bool :=
  match a with
  | .key k _ => k == KEY_BACKSPACE || k == KEY_LEFT || k == KEY_RIGHT
  | _ => false

set_option maxRecDepth 10000 in
set_option maxHeartbeats 4000000 in
/-- C2: with `error_rate_per_word = 0`, `review_pause_ms_min =
review_pause_ms_max = 99999` and `no_revision = false`, `generate_plan` on the
spec's scenario text succeeds, injects no backspace / arrow key event — yet the
plan still contains the review-phase `Wait {ms: 99999}`, because
`generate_plan` branches only on `no_revision` and `generate_plan_impl` emits
the review wait unconditionally.  This contradicts the claim (and the
repository's own `error_rate_zero_is_straight_through` test). -/
theorem c2_review_wait_emitted :
    (generate_plan c2Text c2Cfg c2Rng).toOption.isSome = true ∧
    c2PlanActions.all (fun a => !c2Forbidden a) = true ∧
    Action.wait 99999 ∈ c2PlanActions := by
  refine ⟨by decide, by decide, by decide⟩

/-! ## C1: replaying a plan through the simulator -/

/-- The character the simulator's editor receives when the planner types the
output character `c`: the typed image per `typed_char_for_output_char`
(smart quotes decay to their ASCII keystrokes); `getD c` keeps the map total
on characters the planner never types. -/
def typedChar (c : Char) : Char := (typed_char_for_output_char c).getD c

/-- The one character whose typed image changes its word-navigation class
(`'‘'` is punctuation for the planner, but its typed image `'\''` is a word
character for the simulator). -/
@[reducible]
def goodChar (c : Char) : Prop := c ≠ '‘'

@[reducible]
def goodL (l : List Char) : Prop := ∀ c ∈ l, goodChar c

@[reducible]
def goodBuf (e : EditorState) : Prop := goodL e.buf

@[reducible]
def goodErr (err : OutstandingError) : Prop := goodL err.correct

@[reducible]
def goodErrs (l : List OutstandingError) : Prop := ∀ x ∈ l, goodErr x

@[reducible]
def goodSpan (sp : PhraseSpan) : Prop := goodL sp.original ∧ goodL sp.alternative

@[reducible]
def goodSpans (l : List PhraseSpan) : Prop := ∀ sp ∈ l, goodSpan sp

/-- The simulator state matching a planner builder/editor pair. -/
def stOf (b : ActionBuilder) (e : EditorState) : SimSt :=
  ⟨⟨e.buf.map typedChar, e.cursor⟩, b.shift_down, b.ctrl_down⟩

/-- The planner step from `(b, e)` to `(b', e')` refines to the simulator:
the new builder extends the old action stream by a delta that the simulator
replays from the matching state to the matching state. -/
def SimDiff (b : ActionBuilder) (e : EditorState) (b' : ActionBuilder)
    (e' : EditorState) : Prop :=
  ∃ d, b'.actions = b.actions ++ d ∧ simRun d (stOf b e) = .ok (stOf b' e')

theorem simRun_append (xs ys : List Action) (st : SimSt) :
    simRun (xs ++ ys) st = (simRun xs st).bind (simRun ys) :=
  List.foldlM_append _ _ _ _

theorem simDiff_refl (b : ActionBuilder) (e : EditorState) : SimDiff b e b e :=
  ⟨[], by simp, rfl⟩

theorem simDiff_trans {b : ActionBuilder} {e : EditorState} {b' : ActionBuilder}
    {e' : EditorState} {b'' : ActionBuilder} {e'' : EditorState}
    (h1 : SimDiff b e b' e') (h2 : SimDiff b' e' b'' e'') : SimDiff b e b'' e'' := by
  obtain ⟨d1, a1, r1⟩ := h1
  obtain ⟨d2, a2, r2⟩ := h2
  refine ⟨d1 ++ d2, by rw [a2, a1, List.append_assoc], ?_⟩
  rw [simRun_append, r1]
  exact r2

/-- Two builders with the same flags match any editor to the same simulator
state. -/
theorem stOf_congr {b b' : ActionBuilder} (e : EditorState)
    (h1 : b'.shift_down = b.shift_down) (h2 : b'.ctrl_down = b.ctrl_down) :
    stOf b' e = stOf b e := by
  unfold stOf
  rw [h1, h2]

theorem simDiff_wait (b : ActionBuilder) (e : EditorState) (ms : Nat) :
    SimDiff b e (b.wait ms) e := by
  unfold ActionBuilder.wait
  split
  · exact simDiff_refl b e
  · exact ⟨[.wait ms], rfl, rfl⟩

theorem simDiff_set_modifiers (b : ActionBuilder) (e : EditorState) :
    SimDiff b e b.set_modifiers e :=
  ⟨[.modifiers ((if b.shift_down then b.shift_mask else 0) |||
      (if b.ctrl_down then b.ctrl_mask else 0)) 0 0 0], rfl, rfl⟩

theorem waitFlags (b : ActionBuilder) (ms : Nat) :
    (b.wait ms).shift_down = b.shift_down ∧ (b.wait ms).ctrl_down = b.ctrl_down := by
  unfold ActionBuilder.wait
  split <;> exact ⟨rfl, rfl⟩

theorem simStep_shift (st : SimSt) (d : Bool) :
    simStep st (.key KEY_LEFTSHIFT (if d then .pressed else .released)) =
      .ok ⟨st.editor, d, st.ctrl_down⟩ := by
  cases d <;> rfl

theorem simStep_ctrl (st : SimSt) (d : Bool) :
    simStep st (.key KEY_LEFTCTRL (if d then .pressed else .released)) =
      .ok ⟨st.editor, st.shift_down, d⟩ := by
  cases d <;> rfl

/-- The combined key-event-plus-flag-update hop of `set_shift`. -/
theorem simDiff_shiftkey (b : ActionBuilder) (e : EditorState) (d : Bool) (w : Nat) :
    SimDiff b e
      { (b.key KEY_LEFTSHIFT (if d then .pressed else .released)).wait w with
        shift_down := d } e := by
  have hst : stOf { (b.key KEY_LEFTSHIFT (if d then .pressed else .released)).wait w with
      shift_down := d } e = ⟨⟨e.buf.map typedChar, e.cursor⟩, d, b.ctrl_down⟩ := by
    unfold stOf
    refine congrArg (fun z => SimSt.mk _ _ z) ?_
    exact (waitFlags _ w).2
  by_cases hw : w = 0
  · refine ⟨[.key KEY_LEFTSHIFT (if d then .pressed else .released)], ?_, ?_⟩
    · simp [ActionBuilder.wait, ActionBuilder.key, hw]
    · rw [hst]
      cases d <;> rfl
  · refine ⟨[.key KEY_LEFTSHIFT (if d then .pressed else .released), .wait w], ?_, ?_⟩
    · simp [ActionBuilder.wait, ActionBuilder.key, hw]
    · rw [hst]
      cases d <;> rfl

theorem simDiff_ctrlkey (b : ActionBuilder) (e : EditorState) (d : Bool) (w : Nat) :
    SimDiff b e
      { (b.key KEY_LEFTCTRL (if d then .pressed else .released)).wait w with
        ctrl_down := d } e := by
  have hst : stOf { (b.key KEY_LEFTCTRL (if d then .pressed else .released)).wait w with
      ctrl_down := d } e = ⟨⟨e.buf.map typedChar, e.cursor⟩, b.shift_down, d⟩ := by
    unfold stOf
    refine congrArg (fun z => SimSt.mk _ z _) ?_
    exact (waitFlags _ w).1
  by_cases hw : w = 0
  · refine ⟨[.key KEY_LEFTCTRL (if d then .pressed else .released)], ?_, ?_⟩
    · simp [ActionBuilder.wait, ActionBuilder.key, hw]
    · rw [hst]
      cases d <;> rfl
  · refine ⟨[.key KEY_LEFTCTRL (if d then .pressed else .released), .wait w], ?_, ?_⟩
    · simp [ActionBuilder.wait, ActionBuilder.key, hw]
    · rw [hst]
      cases d <;> rfl

theorem simDiff_set_shift (b : ActionBuilder) (e : EditorState) (d : Bool) (r : Rng) :
    SimDiff b e ((b.set_shift d r).1) e := by
  unfold ActionBuilder.set_shift
  split
  · exact simDiff_refl b e
  · exact simDiff_trans (simDiff_trans (simDiff_shiftkey b e d _) (simDiff_set_modifiers _ e))
      (simDiff_wait _ e _)

theorem simDiff_set_ctrl (b : ActionBuilder) (e : EditorState) (d : Bool) (r : Rng) :
    SimDiff b e ((b.set_ctrl d r).1) e := by
  unfold ActionBuilder.set_ctrl
  split
  · exact simDiff_refl b e
  · exact simDiff_trans (simDiff_trans (simDiff_ctrlkey b e d _) (simDiff_set_modifiers _ e))
      (simDiff_wait _ e _)

/-- Any character `typed_char_for_output_char` can produce is one of the
simulator's keystroke-map candidates. -/
theorem typed_some_shape (c tc : Char) (h : typed_char_for_output_char c = some tc) :
    tc = '\n' ∨ tc = ' ' ∨ (33 ≤ tc.toNat ∧ tc.toNat ≤ 126) := by
  unfold typed_char_for_output_char at h
  split_ifs at h with h1 h2 h3 h4 h5
  · exact Or.inl (Option.some_injective _ h).symm
  · have : tc = '\'' := (Option.some_injective _ h).symm
    subst this
    exact Or.inr (Or.inr (by decide))
  · have : tc = '"' := (Option.some_injective _ h).symm
    subst this
    exact Or.inr (Or.inr (by decide))
  · have : tc = c := (Option.some_injective _ h).symm
    subst this
    rcases h5 with hg | hs
    · exact Or.inr (Or.inr (by simpa [isAsciiGraphic] using hg))
    · exact Or.inr (Or.inl hs)

theorem mem_simCandidates (tc : Char)
    (h : tc = '\n' ∨ tc = ' ' ∨ (33 ≤ tc.toNat ∧ tc.toNat ≤ 126)) :
    tc ∈ simCandidates := by
  rcases h with rfl | rfl | ⟨h1, h2⟩
  · exact List.mem_cons_self _ _
  · exact List.mem_cons_of_mem _ (List.mem_cons_self _ _)
  · refine List.mem_cons_of_mem _ (List.mem_cons_of_mem _ ?_)
    refine List.mem_map.mpr ⟨tc.toNat - 33, List.mem_range.mpr (by omega), ?_⟩
    rw [show 33 + (tc.toNat - 33) = tc.toNat from by omega]
    exact Char.ofNat_toNat tc

/-- Finite check: every candidate's keystroke avoids the simulator's special
keycodes and decodes back to the candidate through the keystroke map. -/
theorem decodeAll :
    simCandidates.all (fun tc =>
      match char_to_keystroke tc with
      | some s =>
        (!(s.keycode == 42 || s.keycode == 54 || s.keycode == 29 || s.keycode == 105 ||
           s.keycode == 106 || s.keycode == 14 || s.keycode == 111)) &&
          (mapLookup s.keycode s.shift == some tc)
      | none => false) = true := by decide

/-- Decoding facts for the keystroke of a supported output character: its key
is a plain typing key, and the simulator's keystroke map sends it back to the
typed image of the character. -/
theorem decode_stroke (c : Char) (stroke : KeyStroke)
    (h : keystroke_for_output_char c = some stroke) :
    ¬ (stroke.keycode = KEY_LEFTSHIFT ∨ stroke.keycode = KEY_RIGHTSHIFT ∨
       stroke.keycode = KEY_LEFTCTRL ∨ stroke.keycode = KEY_LEFT ∨
       stroke.keycode = KEY_RIGHT ∨ stroke.keycode = KEY_BACKSPACE ∨
       stroke.keycode = KEY_DELETE) ∧
    mapLookup stroke.keycode stroke.shift = some (typedChar c) := by
  unfold keystroke_for_output_char at h
  rcases hbind : typed_char_for_output_char c with _ | tc
  · rw [hbind] at h
    exact Option.noConfusion h
  · rw [hbind] at h
    replace h : char_to_keystroke tc = some stroke := h
    have htc : typedChar c = tc := by
      unfold typedChar
      rw [hbind]
      rfl
    have hmem := mem_simCandidates tc (typed_some_shape c tc hbind)
    have hall := List.all_eq_true.mp decodeAll tc hmem
    rw [h] at hall
    simp only [Bool.and_eq_true, Bool.not_eq_true', Bool.or_eq_false_iff, beq_eq_false_iff_ne,
      beq_iff_eq] at hall
    rw [htc]
    refine ⟨?_, hall.2⟩
    have h1 := hall.1
    push_neg
    unfold KEY_LEFTSHIFT KEY_RIGHTSHIFT KEY_LEFTCTRL KEY_LEFT KEY_RIGHT KEY_BACKSPACE KEY_DELETE
    tauto

theorem map_insertIdx (l : List Char) (n : Nat) (a : Char) (f : Char → Char) :
    (l.insertIdx n a).map f = (l.map f).insertIdx n (f a) := by
  induction l generalizing n with
  | nil => cases n <;> simp [List.insertIdx]
  | cons x xs ih =>
    cases n with
    | zero => simp [List.insertIdx]
    | succ m => simp [List.insertIdx_succ_cons, ih]

theorem map_eraseIdx (l : List Char) (n : Nat) (f : Char → Char) :
    (l.eraseIdx n).map f = (l.map f).eraseIdx n := by
  induction l generalizing n with
  | nil => simp
  | cons x xs ih =>
    cases n with
    | zero => simp
    | succ m => simp [List.eraseIdx_cons_succ, ih]

theorem simStep_typing_pressed (st : SimSt) (kc : Nat) (hctrl : st.ctrl_down = false)
    (hn : ¬ (kc = KEY_LEFTSHIFT ∨ kc = KEY_RIGHTSHIFT ∨ kc = KEY_LEFTCTRL ∨
      kc = KEY_LEFT ∨ kc = KEY_RIGHT ∨ kc = KEY_BACKSPACE ∨ kc = KEY_DELETE)) :
    simStep st (.key kc .pressed) =
      match mapLookup kc st.shift_down with
      | some c => .ok ⟨st.editor.insert_char c, st.shift_down, st.ctrl_down⟩
      | none => .error "simulate_typed_text does not support keycode" := by
  push_neg at hn
  obtain ⟨n1, n2, n3, n4, n5, n6, n7⟩ := hn
  simp only [simStep]
  split_ifs <;> simp_all

theorem simStep_released (st : SimSt) (kc : Nat)
    (hn : ¬ (kc = KEY_LEFTSHIFT ∨ kc = KEY_RIGHTSHIFT ∨ kc = KEY_LEFTCTRL)) :
    simStep st (.key kc .released) = .ok st := by
  push_neg at hn
  obtain ⟨n1, n2, n3⟩ := hn
  simp only [simStep]
  split_ifs <;> simp_all

theorem simStep_left (st : SimSt) :
    simStep st (.key KEY_LEFT .pressed) =
      .ok ⟨if st.ctrl_down then st.editor.move_word_left else st.editor.move_left,
        st.shift_down, st.ctrl_down⟩ := by
  simp only [simStep]
  split_ifs <;> simp_all [KEY_LEFT, KEY_LEFTSHIFT, KEY_RIGHTSHIFT, KEY_LEFTCTRL]

theorem simStep_right (st : SimSt) :
    simStep st (.key KEY_RIGHT .pressed) =
      .ok ⟨if st.ctrl_down then st.editor.move_word_right else st.editor.move_right,
        st.shift_down, st.ctrl_down⟩ := by
  simp only [simStep]
  split_ifs <;> simp_all [KEY_RIGHT, KEY_LEFT, KEY_LEFTSHIFT, KEY_RIGHTSHIFT, KEY_LEFTCTRL]

theorem simStep_backspace (st : SimSt) :
    simStep st (.key KEY_BACKSPACE .pressed) =
      .ok ⟨st.editor.backspace, st.shift_down, st.ctrl_down⟩ := by
  simp only [simStep]
  split_ifs <;>
    simp_all [KEY_BACKSPACE, KEY_RIGHT, KEY_LEFT, KEY_LEFTSHIFT, KEY_RIGHTSHIFT, KEY_LEFTCTRL]

theorem alnum_graphic (c : Char) (h : isAsciiAlphanumeric c = true) :
    isAsciiGraphic c = true := by
  unfold isAsciiAlphanumeric at h
  unfold isAsciiGraphic
  simp only [Bool.or_eq_true, Bool.and_eq_true, decide_eq_true_eq] at h ⊢
  rcases h with (⟨h1, h2⟩ | ⟨h1, h2⟩) | ⟨h1, h2⟩
  · have g1 : (97 : Nat) ≤ c.toNat := h1
    have g2 : c.toNat ≤ 122 := h2
    omega
  · have g1 : (65 : Nat) ≤ c.toNat := h1
    have g2 : c.toNat ≤ 90 := h2
    omega
  · have g1 : (48 : Nat) ≤ c.toNat := h1
    have g2 : c.toNat ≤ 57 := h2
    omega

theorem typedChar_ws (c : Char) : isAsciiWhitespace (typedChar c) = isAsciiWhitespace c := by
  unfold typedChar typed_char_for_output_char
  split_ifs with h1 h2 h3 h4 h5
  · rw [h1]
    rfl
  · rfl
  · rcases h3 with rfl | rfl <;> decide
  · rcases h4 with rfl | rfl <;> decide
  · rfl
  · rfl

theorem typedChar_word (c : Char) (h : goodChar c) :
    simIsWordChar (typedChar c) = plIsWordChar c := by
  unfold typedChar typed_char_for_output_char
  split_ifs with h1 h2 h3 h4 h5
  · rw [h1]; decide
  · rcases h2 with rfl | rfl <;> decide
  · rcases h3 with rfl | rfl
    · decide
    · exact absurd rfl h
  · rcases h4 with rfl | rfl <;> decide
  · show simIsWordChar c = plIsWordChar c
    have hq : ¬ c = '’' := fun hh => h3 (Or.inl hh)
    simp [simIsWordChar, plIsWordChar, hq]
  · show simIsWordChar c = plIsWordChar c
    push_neg at h5
    have hg : isAsciiGraphic c = false := by
      cases hh : isAsciiGraphic c
      · rfl
      · exact absurd hh h5.1
    have halnum : isAsciiAlphanumeric c = false := by
      cases hh : isAsciiAlphanumeric c
      · rfl
      · exfalso
        have hgr := alnum_graphic c hh
        rw [hgr] at hg
        exact Bool.noConfusion hg
    have hap : ¬ c = '\'' := by
      rintro rfl
      exact absurd hg (by decide)
    have hq : ¬ c = '’' := fun hh => h3 (Or.inl hh)
    simp [simIsWordChar, plIsWordChar, halnum, hap, hq]

theorem classify_typed (c : Char) (h : goodChar c) :
    classify_char simIsWordChar (typedChar c) = classify_char plIsWordChar c := by
  unfold classify_char
  rw [typedChar_ws, typedChar_word c h]

theorem getD_map (l : List Char) (f : Char → Char) (k : Nat) (hk : k < l.length) :
    (l.map f).getD k ' ' = f (l.getD k ' ') := by
  rw [List.getD_eq_getElem?_getD, List.getD_eq_getElem?_getD, List.getElem?_map,
    List.getElem?_eq_getElem hk]
  rfl

theorem getD_mem_of_lt (l : List Char) (k : Nat) (hk : k < l.length) : l.getD k ' ' ∈ l := by
  rw [List.getD_eq_getElem?_getD, List.getElem?_eq_getElem hk]
  exact List.getElem_mem hk

theorem skipLeftWhile_congr (buf : List Char) (p q : Char → Bool) (f : Char → Char)
    (hpq : ∀ k, k < buf.length → q ((buf.map f).getD k ' ') = p (buf.getD k ' ')) :
    ∀ idx, idx ≤ buf.length → skipLeftWhile (buf.map f) q idx = skipLeftWhile buf p idx := by
  intro idx
  induction idx with
  | zero => intro _; rfl
  | succ n ih =>
    intro hle
    rw [skipLeftWhile, skipLeftWhile, hpq n (by omega)]
    split
    · exact ih (by omega)
    · rfl

theorem takeWhile_map_length (l : List Char) (p q : Char → Bool) (f : Char → Char)
    (h : ∀ c ∈ l, q (f c) = p c) :
    ((l.map f).takeWhile q).length = (l.takeWhile p).length := by
  induction l with
  | nil => rfl
  | cons x xs ih =>
    simp only [List.map_cons, List.takeWhile_cons, h x (List.mem_cons_self x xs)]
    split
    · simp only [List.length_cons]
      rw [ih (fun c hc => h c (List.mem_cons_of_mem _ hc))]
    · rfl

theorem skipRightWhile_congr (buf : List Char) (p q : Char → Bool) (f : Char → Char)
    (h : ∀ c ∈ buf, q (f c) = p c) (idx : Nat) :
    skipRightWhile (buf.map f) q idx = skipRightWhile buf p idx := by
  unfold skipRightWhile
  rw [show (buf.map f).drop idx = (buf.drop idx).map f from (List.map_drop f buf idx).symm]
  rw [takeWhile_map_length _ _ _ _ (fun c hc => h c (List.mem_of_mem_drop hc))]

theorem ctrl_left_congr (buf : List Char) (cur : Nat) (hg : goodL buf) :
    ctrl_left (buf.map typedChar) cur simIsWordChar = ctrl_left buf cur plIsWordChar := by
  have hcls : ∀ c ∈ buf, classify_char simIsWordChar (typedChar c) = classify_char plIsWordChar c :=
    fun c hc => classify_typed c (hg c hc)
  have hws : ∀ k, k < buf.length →
      (classify_char simIsWordChar ((buf.map typedChar).getD k ' ') == CharClass.whitespace) =
        (classify_char plIsWordChar (buf.getD k ' ') == CharClass.whitespace) := by
    intro k hk
    rw [getD_map _ _ _ hk, hcls _ (getD_mem_of_lt _ _ hk)]
  unfold ctrl_left
  rw [List.length_map]
  dsimp only
  split
  · rfl
  next hidx =>
  rw [skipLeftWhile_congr buf (fun c => classify_char plIsWordChar c == CharClass.whitespace)
    (fun c => classify_char simIsWordChar c == CharClass.whitespace) typedChar hws
    (min cur buf.length) (Nat.min_le_right _ _)]
  split
  · rfl
  next hidx1 =>
  have hle1 : skipLeftWhile buf (fun c => classify_char plIsWordChar c == CharClass.whitespace)
      (min cur buf.length) ≤ min cur buf.length := skipLeftWhile_le _ _ _
  have hlt : skipLeftWhile buf (fun c => classify_char plIsWordChar c == CharClass.whitespace)
      (min cur buf.length) - 1 < buf.length := by
    have := Nat.min_le_right cur buf.length
    omega
  rw [getD_map _ _ _ hlt, hcls _ (getD_mem_of_lt _ _ hlt)]
  refine skipLeftWhile_congr buf
    (fun c => classify_char plIsWordChar c == classify_char plIsWordChar (buf.getD
      (skipLeftWhile buf (fun c => classify_char plIsWordChar c == CharClass.whitespace)
        (min cur buf.length) - 1) ' '))
    (fun c => classify_char simIsWordChar c == classify_char plIsWordChar (buf.getD
      (skipLeftWhile buf (fun c => classify_char plIsWordChar c == CharClass.whitespace)
        (min cur buf.length) - 1) ' '))
    typedChar ?_ _ (by omega)
  intro k hk
  dsimp only
  rw [getD_map _ _ _ hk, hcls _ (getD_mem_of_lt _ _ hk)]

theorem ctrl_right_congr (buf : List Char) (cur : Nat) (hg : goodL buf) :
    ctrl_right (buf.map typedChar) cur simIsWordChar = ctrl_right buf cur plIsWordChar := by
  have hcls : ∀ c ∈ buf, classify_char simIsWordChar (typedChar c) = classify_char plIsWordChar c :=
    fun c hc => classify_typed c (hg c hc)
  have hwsm : ∀ c ∈ buf,
      (classify_char simIsWordChar (typedChar c) == CharClass.whitespace) =
        (classify_char plIsWordChar c == CharClass.whitespace) := by
    intro c hc
    rw [hcls c hc]
  unfold ctrl_right
  rw [List.length_map]
  dsimp only
  split
  · rfl
  next hidx =>
  have hcur : min cur buf.length < buf.length := by omega
  rw [getD_map _ _ _ hcur, hcls _ (getD_mem_of_lt _ _ hcur)]
  rw [skipRightWhile_congr buf (fun c => classify_char plIsWordChar c == CharClass.whitespace)
    (fun c => classify_char simIsWordChar c == CharClass.whitespace) typedChar hwsm
    (min cur buf.length)]
  split
  · rfl
  split
  · rfl
  next hidx1 _ =>
  have hlt1 : skipRightWhile buf (fun c => classify_char plIsWordChar c == CharClass.whitespace)
      (min cur buf.length) < buf.length := by omega
  rw [getD_map _ _ _ hlt1, hcls _ (getD_mem_of_lt _ _ hlt1)]
  refine skipRightWhile_congr buf
    (fun c => classify_char plIsWordChar c == classify_char plIsWordChar (buf.getD
      (skipRightWhile buf (fun c => classify_char plIsWordChar c == CharClass.whitespace)
        (min cur buf.length)) ' '))
    (fun c => classify_char simIsWordChar c == classify_char plIsWordChar (buf.getD
      (skipRightWhile buf (fun c => classify_char plIsWordChar c == CharClass.whitespace)
        (min cur buf.length)) ' '))
    typedChar ?_ _
  intro c hc
  dsimp only
  rw [hcls c hc]

theorem simRun_cons (a : Action) (rest : List Action) (st : SimSt) :
    simRun (a :: rest) st = (simStep st a).bind (simRun rest) := rfl

theorem simRun_step (a : Action) (rest : List Action) (st st1 : SimSt)
    (h : simStep st a = .ok st1) : simRun (a :: rest) st = simRun rest st1 := by
  rw [simRun_cons, h]
  rfl

theorem set_shift_flags (b : ActionBuilder) (d : Bool) (r : Rng) :
    ((b.set_shift d r).1).shift_down = d ∧ ((b.set_shift d r).1).ctrl_down = b.ctrl_down := by
  unfold ActionBuilder.set_shift
  split
  next h => exact ⟨h, rfl⟩
  · refine ⟨(waitFlags _ _).1.trans rfl, (waitFlags _ _).2.trans ?_⟩
    exact (waitFlags _ _).2

theorem set_ctrl_flags (b : ActionBuilder) (d : Bool) (r : Rng) :
    ((b.set_ctrl d r).1).ctrl_down = d ∧ ((b.set_ctrl d r).1).shift_down = b.shift_down := by
  unfold ActionBuilder.set_ctrl
  split
  next h => exact ⟨h, rfl⟩
  · refine ⟨(waitFlags _ _).2.trans rfl, (waitFlags _ _).1.trans ?_⟩
    exact (waitFlags _ _).1

theorem press_key_flags (b : ActionBuilder) (kc : Nat) (r : Rng) :
    ((b.press_key kc r).1).shift_down = b.shift_down ∧
      ((b.press_key kc r).1).ctrl_down = b.ctrl_down := by
  unfold ActionBuilder.press_key
  exact ⟨(waitFlags _ _).1, (waitFlags _ _).2⟩

theorem press_key_actions (b : ActionBuilder) (kc : Nat) (r : Rng) :
    ((b.press_key kc r).1).actions =
      b.actions ++ ([.key kc .pressed] ++
        (if (genRangeNat 18 70 r).1 = 0 then [] else [.wait (genRangeNat 18 70 r).1]) ++
        [.key kc .released]) := by
  unfold ActionBuilder.press_key ActionBuilder.key ActionBuilder.wait
  by_cases h0 : (genRangeNat 18 70 r).1 = 0 <;> simp [h0]

/-- The editor relation transported through each simulator editor operation. -/
theorem simEd_insert (e : EditorState) (c : Char) :
    SimEditorState.insert_char ⟨e.buf.map typedChar, e.cursor⟩ (typedChar c) =
      ⟨(e.insert_char c).buf.map typedChar, (e.insert_char c).cursor⟩ := by
  unfold SimEditorState.insert_char EditorState.insert_char
  simp only
  rw [map_insertIdx]

theorem simEd_backspace (e : EditorState) :
    SimEditorState.backspace ⟨e.buf.map typedChar, e.cursor⟩ =
      ⟨e.backspace.buf.map typedChar, e.backspace.cursor⟩ := by
  unfold SimEditorState.backspace EditorState.backspace
  simp only
  split_ifs
  · rfl
  · rw [map_eraseIdx]

theorem simEd_move_left (e : EditorState) :
    SimEditorState.move_left ⟨e.buf.map typedChar, e.cursor⟩ =
      ⟨e.move_left.buf.map typedChar, e.move_left.cursor⟩ := by
  unfold SimEditorState.move_left EditorState.move_left
  simp only
  split_ifs <;> rfl

theorem simEd_move_right (e : EditorState) :
    SimEditorState.move_right ⟨e.buf.map typedChar, e.cursor⟩ =
      ⟨e.move_right.buf.map typedChar, e.move_right.cursor⟩ := by
  unfold SimEditorState.move_right EditorState.move_right
  simp only [List.length_map]
  split_ifs <;> rfl

theorem simEd_move_word_left (e : EditorState) (hg : goodBuf e) :
    SimEditorState.move_word_left ⟨e.buf.map typedChar, e.cursor⟩ =
      ⟨e.move_word_left.buf.map typedChar, e.move_word_left.cursor⟩ := by
  unfold SimEditorState.move_word_left EditorState.move_word_left
  simp only
  rw [ctrl_left_congr e.buf e.cursor hg]

theorem simEd_move_word_right (e : EditorState) (hg : goodBuf e) :
    SimEditorState.move_word_right ⟨e.buf.map typedChar, e.cursor⟩ =
      ⟨e.move_word_right.buf.map typedChar, e.move_word_right.cursor⟩ := by
  unfold SimEditorState.move_word_right EditorState.move_word_right
  simp only
  rw [ctrl_right_congr e.buf e.cursor hg]

theorem simRun_wait_opt (w : Nat) (st : SimSt) :
    simRun (if w = 0 then [] else [.wait w]) st = .ok st := by
  split <;> rfl

theorem ok_bind {ε α β : Type} (a : α) (f : α → Except ε β) :
    (Except.ok a : Except ε α).bind f = f a := rfl

/-- Core of replaying one `press_key` of a typing keystroke. -/
theorem simDiff_press_char (b : ActionBuilder) (e : EditorState) (c : Char) (stroke : KeyStroke)
    (r : Rng) (hk : keystroke_for_output_char c = some stroke)
    (hs : b.shift_down = stroke.shift) (hc : b.ctrl_down = false) :
    SimDiff b e ((b.press_key stroke.keycode r).1) (e.insert_char c) := by
  obtain ⟨hn, hmap⟩ := decode_stroke c stroke hk
  refine ⟨_, press_key_actions b stroke.keycode r, ?_⟩
  have hstep1 : simStep (stOf b e) (.key stroke.keycode .pressed) =
      .ok ⟨⟨(e.insert_char c).buf.map typedChar, (e.insert_char c).cursor⟩,
        b.shift_down, b.ctrl_down⟩ := by
    rw [simStep_typing_pressed (stOf b e) stroke.keycode hc hn]
    have hm2 : mapLookup stroke.keycode (stOf b e).shift_down = some (typedChar c) := by
      show mapLookup stroke.keycode b.shift_down = some (typedChar c)
      rw [hs]
      exact hmap
    rw [hm2]
    exact congrArg Except.ok
      (congrArg (fun ed => SimSt.mk ed b.shift_down b.ctrl_down) (simEd_insert e c))
  have h1 : simRun [Action.key stroke.keycode .pressed] (stOf b e) =
      .ok ⟨⟨(e.insert_char c).buf.map typedChar, (e.insert_char c).cursor⟩,
        b.shift_down, b.ctrl_down⟩ := by
    rw [simRun_cons, hstep1]
    rfl
  have htgt : stOf ((b.press_key stroke.keycode r).1) (e.insert_char c) =
      ⟨⟨(e.insert_char c).buf.map typedChar, (e.insert_char c).cursor⟩,
        b.shift_down, b.ctrl_down⟩ := by
    unfold stOf
    rw [(press_key_flags b stroke.keycode r).1, (press_key_flags b stroke.keycode r).2]
  rw [simRun_append, simRun_append, h1, ok_bind, simRun_wait_opt, ok_bind, simRun_cons,
    simStep_released _ _ (fun hh => hn (by tauto)), ok_bind, htgt]
  rfl

theorem simDiff_type_char (b : ActionBuilder) (e : EditorState) (c : Char) (stroke : KeyStroke)
    (r : Rng) (hk : keystroke_for_output_char c = some stroke) :
    SimDiff b e ((b.type_char stroke r).1) (e.insert_char c) := by
  unfold ActionBuilder.type_char
  dsimp only
  exact simDiff_trans
    (simDiff_trans (simDiff_set_ctrl b e false r)
      (simDiff_set_shift (b.set_ctrl false r).1 e stroke.shift (b.set_ctrl false r).2))
    (simDiff_press_char _ e c stroke _ hk (set_shift_flags _ _ _).1
      (by rw [(set_shift_flags _ _ _).2, (set_ctrl_flags _ _ _).1]))

theorem simDiff_press_move (b : ActionBuilder) (e : EditorState) (r : Rng) (kc : Nat)
    (e' : EditorState)
    (hstep : simStep (stOf b e) (.key kc .pressed) =
      .ok ⟨⟨e'.buf.map typedChar, e'.cursor⟩, b.shift_down, b.ctrl_down⟩)
    (hn : ¬ (kc = KEY_LEFTSHIFT ∨ kc = KEY_RIGHTSHIFT ∨ kc = KEY_LEFTCTRL)) :
    SimDiff b e ((b.press_key kc r).1) e' := by
  refine ⟨_, press_key_actions b kc r, ?_⟩
  have h1 : simRun [Action.key kc .pressed] (stOf b e) =
      .ok ⟨⟨e'.buf.map typedChar, e'.cursor⟩, b.shift_down, b.ctrl_down⟩ := by
    rw [simRun_cons, hstep]
    rfl
  have htgt : stOf ((b.press_key kc r).1) e' =
      ⟨⟨e'.buf.map typedChar, e'.cursor⟩, b.shift_down, b.ctrl_down⟩ := by
    unfold stOf
    rw [(press_key_flags b kc r).1, (press_key_flags b kc r).2]
  rw [simRun_append, simRun_append, h1, ok_bind, simRun_wait_opt, ok_bind, simRun_cons,
    simStep_released _ _ hn, ok_bind, htgt]
  rfl

theorem simDiff_nav_left (b : ActionBuilder) (e : EditorState) (r : Rng) :
    SimDiff b e ((b.nav_left r).1) e.move_left := by
  unfold ActionBuilder.nav_left
  dsimp only
  refine simDiff_trans
    (simDiff_trans (simDiff_set_ctrl b e false r)
      (simDiff_set_shift (b.set_ctrl false r).1 e false (b.set_ctrl false r).2)) ?_
  refine simDiff_press_move _ e _ KEY_LEFT e.move_left ?_ (by decide)
  rw [simStep_left]
  have hcf : (stOf ((b.set_ctrl false r).1.set_shift false (b.set_ctrl false r).2).1 e).ctrl_down
      = false := by
    show (((b.set_ctrl false r).1.set_shift false (b.set_ctrl false r).2).1).ctrl_down = false
    rw [(set_shift_flags _ _ _).2, (set_ctrl_flags _ _ _).1]
  refine congrArg Except.ok ?_
  refine congrArg (fun ed => SimSt.mk ed _ _) ?_
  rw [hcf, if_neg (by simp)]
  exact simEd_move_left e

theorem simDiff_nav_right (b : ActionBuilder) (e : EditorState) (r : Rng) :
    SimDiff b e ((b.nav_right r).1) e.move_right := by
  unfold ActionBuilder.nav_right
  dsimp only
  refine simDiff_trans
    (simDiff_trans (simDiff_set_ctrl b e false r)
      (simDiff_set_shift (b.set_ctrl false r).1 e false (b.set_ctrl false r).2)) ?_
  refine simDiff_press_move _ e _ KEY_RIGHT e.move_right ?_ (by decide)
  rw [simStep_right]
  have hcf : (stOf ((b.set_ctrl false r).1.set_shift false (b.set_ctrl false r).2).1 e).ctrl_down
      = false := by
    show (((b.set_ctrl false r).1.set_shift false (b.set_ctrl false r).2).1).ctrl_down = false
    rw [(set_shift_flags _ _ _).2, (set_ctrl_flags _ _ _).1]
  refine congrArg Except.ok ?_
  refine congrArg (fun ed => SimSt.mk ed _ _) ?_
  rw [hcf, if_neg (by simp)]
  exact simEd_move_right e

theorem simDiff_nav_word_left (b : ActionBuilder) (e : EditorState) (r : Rng) (hg : goodBuf e) :
    SimDiff b e ((b.nav_word_left r).1) e.move_word_left := by
  unfold ActionBuilder.nav_word_left
  dsimp only
  refine simDiff_trans
    (simDiff_trans (simDiff_set_ctrl b e true r)
      (simDiff_set_shift (b.set_ctrl true r).1 e false (b.set_ctrl true r).2)) ?_
  refine simDiff_press_move _ e _ KEY_LEFT e.move_word_left ?_ (by decide)
  rw [simStep_left]
  have hcf : (stOf ((b.set_ctrl true r).1.set_shift false (b.set_ctrl true r).2).1 e).ctrl_down
      = true := by
    show (((b.set_ctrl true r).1.set_shift false (b.set_ctrl true r).2).1).ctrl_down = true
    rw [(set_shift_flags _ _ _).2, (set_ctrl_flags _ _ _).1]
  refine congrArg Except.ok ?_
  refine congrArg (fun ed => SimSt.mk ed _ _) ?_
  rw [hcf, if_pos rfl]
  exact simEd_move_word_left e hg

theorem simDiff_nav_word_right (b : ActionBuilder) (e : EditorState) (r : Rng) (hg : goodBuf e) :
    SimDiff b e ((b.nav_word_right r).1) e.move_word_right := by
  unfold ActionBuilder.nav_word_right
  dsimp only
  refine simDiff_trans
    (simDiff_trans (simDiff_set_ctrl b e true r)
      (simDiff_set_shift (b.set_ctrl true r).1 e false (b.set_ctrl true r).2)) ?_
  refine simDiff_press_move _ e _ KEY_RIGHT e.move_word_right ?_ (by decide)
  rw [simStep_right]
  have hcf : (stOf ((b.set_ctrl true r).1.set_shift false (b.set_ctrl true r).2).1 e).ctrl_down
      = true := by
    show (((b.set_ctrl true r).1.set_shift false (b.set_ctrl true r).2).1).ctrl_down = true
    rw [(set_shift_flags _ _ _).2, (set_ctrl_flags _ _ _).1]
  refine congrArg Except.ok ?_
  refine congrArg (fun ed => SimSt.mk ed _ _) ?_
  rw [hcf, if_pos rfl]
  exact simEd_move_word_right e hg

theorem simDiff_backspace_op (b : ActionBuilder) (e : EditorState) (r : Rng) :
    SimDiff b e ((b.backspace r).1) e.backspace := by
  unfold ActionBuilder.backspace
  dsimp only
  refine simDiff_trans
    (simDiff_trans (simDiff_set_ctrl b e false r)
      (simDiff_set_shift (b.set_ctrl false r).1 e false (b.set_ctrl false r).2)) ?_
  refine simDiff_press_move _ e _ KEY_BACKSPACE e.backspace ?_ (by decide)
  rw [simStep_backspace]
  refine congrArg Except.ok ?_
  refine congrArg (fun ed => SimSt.mk ed _ _) ?_
  exact simEd_backspace e

theorem mem_insertIdx_elim {l : List Char} {n : Nat} {a x : Char}
    (h : x ∈ l.insertIdx n a) : x = a ∨ x ∈ l := by
  induction n generalizing l with
  | zero =>
    rw [List.insertIdx] at h
    rcases List.mem_cons.mp h with rfl | h
    · exact Or.inl rfl
    · exact Or.inr h
  | succ m ih =>
    cases l with
    | nil =>
      rw [List.insertIdx] at h
      exact absurd h (List.not_mem_nil x)
    | cons y ys =>
      rw [List.insertIdx] at h
      rcases List.mem_cons.mp h with rfl | h
      · exact Or.inr (List.mem_cons_self _ _)
      · rcases ih h with h1 | h1
        · exact Or.inl h1
        · exact Or.inr (List.mem_cons_of_mem _ h1)

theorem goodL_append {l1 l2 : List Char} (h1 : goodL l1) (h2 : goodL l2) : goodL (l1 ++ l2) := by
  intro c hc
  rcases List.mem_append.mp hc with h | h
  · exact h1 c h
  · exact h2 c h

theorem goodL_cons {c : Char} {l : List Char} (hc : goodChar c) (hl : goodL l) :
    goodL (c :: l) := by
  intro x hx
  rcases List.mem_cons.mp hx with rfl | hx
  · exact hc
  · exact hl x hx

theorem goodL_of_cons {c : Char} {l : List Char} (h : goodL (c :: l)) :
    goodChar c ∧ goodL l :=
  ⟨h c (List.mem_cons_self _ _), fun x hx => h x (List.mem_cons_of_mem _ hx)⟩

theorem goodL_take {l : List Char} (h : goodL l) (n : Nat) : goodL (l.take n) :=
  fun c hc => h c (List.mem_of_mem_take hc)

theorem goodL_drop {l : List Char} (h : goodL l) (n : Nat) : goodL (l.drop n) :=
  fun c hc => h c (List.mem_of_mem_drop hc)

theorem goodL_slice {l : List Char} (h : goodL l) (s e : Nat) : goodL (listSlice l s e) :=
  goodL_drop (goodL_take h e) s

theorem goodChar_getD {l : List Char} (h : goodL l) (k : Nat) : goodChar (l.getD k ' ') := by
  by_cases hk : k < l.length
  · exact h _ (getD_mem_of_lt l k hk)
  · rw [List.getD_eq_getElem?_getD, List.getElem?_eq_none (by omega)]
    exact (by decide : (' ' : Char) ≠ '‘')

theorem goodL_set {l : List Char} (h : goodL l) {c : Char} (hc : goodChar c) (k : Nat) :
    goodL (l.set k c) := by
  intro x hx
  rcases List.mem_or_eq_of_mem_set hx with hx | rfl
  · exact h x hx
  · exact hc

theorem goodBuf_insert {e : EditorState} (hg : goodBuf e) {c : Char} (hc : goodChar c) :
    goodBuf (e.insert_char c) := by
  intro x hx
  rcases mem_insertIdx_elim hx with rfl | hx
  · exact hc
  · exact hg x hx

theorem goodBuf_backspace {e : EditorState} (hg : goodBuf e) : goodBuf e.backspace := by
  unfold EditorState.backspace
  split
  · exact hg
  · exact fun x hx => hg x (List.mem_of_mem_eraseIdx hx)

theorem goodBuf_move_left {e : EditorState} (hg : goodBuf e) : goodBuf e.move_left := by
  unfold EditorState.move_left
  split
  · exact hg
  · exact hg

theorem goodBuf_move_right {e : EditorState} (hg : goodBuf e) : goodBuf e.move_right := by
  unfold EditorState.move_right
  split
  · exact hg
  · exact hg

theorem goodBuf_move_word_left {e : EditorState} (hg : goodBuf e) : goodBuf e.move_word_left := hg

theorem goodBuf_move_word_right {e : EditorState} (hg : goodBuf e) : goodBuf e.move_word_right := hg

theorem goodChar_asciiUpper {c : Char} (h : goodChar c) : goodChar (asciiUpper c) := by
  unfold asciiUpper
  split
  next hc =>
    intro hcon
    have h1 : (97 : Nat) ≤ c.toNat := hc.1
    have h2 : c.toNat ≤ 122 := hc.2
    have : (Char.ofNat (c.toNat - 32)).toNat = c.toNat - 32 := by
      unfold Char.ofNat
      rw [dif_pos (Or.inl (by omega))]
      rfl
    rw [hcon] at this
    have : (8216 : Nat) = c.toNat - 32 := this
    omega
  · exact h

theorem goodChar_asciiLower {c : Char} (h : goodChar c) : goodChar (asciiLower c) := by
  unfold asciiLower
  split
  next hc =>
    intro hcon
    have h1 : (65 : Nat) ≤ c.toNat := hc.1
    have h2 : c.toNat ≤ 90 := hc.2
    have : (Char.ofNat (c.toNat + 32)).toNat = c.toNat + 32 := by
      unfold Char.ofNat
      rw [dif_pos (Or.inl (by omega))]
      rfl
    rw [hcon] at this
    have : (8216 : Nat) = c.toNat + 32 := this
    omega
  · exact h

theorem goodL_map_upper {l : List Char} (h : goodL l) : goodL (l.map asciiUpper) := by
  intro x hx
  obtain ⟨c, hc, rfl⟩ := List.mem_map.mp hx
  exact goodChar_asciiUpper (h c hc)

theorem goodL_map_lower {l : List Char} (h : goodL l) : goodL (l.map asciiLower) := by
  intro x hx
  obtain ⟨c, hc, rfl⟩ := List.mem_map.mp hx
  exact goodChar_asciiLower (h c hc)

theorem goodL_apply_case_style {t l : List Char} (h : goodL l) :
    goodL (apply_case_style t l) := by
  unfold apply_case_style
  split
  · exact goodL_map_upper h
  · dsimp only
    split
    · cases l with
      | nil => exact h
      | cons c cs =>
        obtain ⟨h1, h2⟩ := goodL_of_cons h
        exact goodL_cons (goodChar_asciiUpper h1) h2
    · exact h

theorem getD_mem_of_lt2 {α : Type} (l : List α) (d : α) (k : Nat) (hk : k < l.length) :
    l.getD k d ∈ l := by
  rw [List.getD_eq_getElem?_getD, List.getElem?_eq_getElem hk]
  exact List.getElem_mem hk

set_option maxHeartbeats 2000000 in
theorem goodL_synonymOptions (wl : List Char) : ∀ o ∈ synonymOptions wl, goodL o := by
  unfold synonymOptions
  split_ifs <;> intro o ho <;>
    simp only [List.mem_cons, List.not_mem_nil, or_false] at ho
  all_goals first
    | exact ho.elim
    | (rcases ho with rfl | rfl | rfl <;> decide)

set_option maxHeartbeats 1000000 in
theorem goodL_neighborList (b : Char) : goodL (neighborList b) := by
  unfold neighborList
  split <;> decide

theorem qwerty_core (base : Char) (mk : Bool) (r : Rng) (a : Char)
    (ha : (if (neighborList base).isEmpty then ((none : Option Char), r)
      else (some (if mk then asciiUpper ((neighborList base).getD
          (genRangeLt 0 (neighborList base).length r).1 ' ')
        else ((neighborList base).getD (genRangeLt 0 (neighborList base).length r).1 ' ')),
        (genRangeLt 0 (neighborList base).length r).2)).1 = some a) : goodChar a := by
  by_cases hemp : (neighborList base).isEmpty
  · rw [if_pos hemp] at ha
    exact Option.noConfusion ha
  · rw [if_neg hemp] at ha
    replace ha : some (if mk then asciiUpper ((neighborList base).getD
        (genRangeLt 0 (neighborList base).length r).1 ' ')
      else ((neighborList base).getD (genRangeLt 0 (neighborList base).length r).1 ' ')) =
        some a := ha
    have hch : goodChar ((neighborList base).getD
        (genRangeLt 0 (neighborList base).length r).1 ' ') :=
      goodChar_getD (goodL_neighborList _) _
    rw [← Option.some_injective _ ha]
    split
    · exact goodChar_asciiUpper hch
    · exact hch

theorem qwerty_adjacent_good (c : Char) (r : Rng) :
    ∀ a, (qwerty_adjacent_char c r).1 = some a → goodChar a := by
  intro a ha
  unfold qwerty_adjacent_char at ha
  exact qwerty_core _ _ r a ha

theorem goodL_listSwap {l : List Char} (h : goodL l) (i : Nat) : goodL (listSwap l i) :=
  goodL_set (goodL_set h (goodChar_getD h _) _) (goodChar_getD h _) _

theorem typoSubst_good {word : List Char} (h : goodL word) (r : Rng) :
    ∀ out, (typoSubst word r).1 = some out → goodL out := by
  intro out hout
  unfold typoSubst at hout
  try dsimp only at hout
  split at hout
  next adj hadj =>
    split at hout
    · replace hout : some (word.set (genRangeLt 0 word.length r).1 adj) = some out := hout
      rw [← Option.some_injective _ hout]
      exact goodL_set h (qwerty_adjacent_good _ _ adj hadj) _
    · exact Option.noConfusion hout
  next hadj => exact Option.noConfusion hout

theorem word_typo_good {word : List Char} (h : goodL word) (r : Rng) :
    ∀ out, (word_typo word r).1 = some out → goodL out := by
  intro out hout
  unfold word_typo at hout
  by_cases h1 : word.length < 2
  · rw [if_pos h1] at hout
    exact Option.noConfusion hout
  rw [if_neg h1] at hout
  by_cases h2 : 4 ≤ word.length
  · rw [if_pos h2] at hout
    try dsimp only at hout
    by_cases h3 : (genBool (25/100) r).1 = true
    · rw [if_pos h3] at hout
      try dsimp only at hout
      split at hout
      · replace hout : some (listSwap word (genRangeLt 0 (word.length - 1)
            (genBool (25/100) r).2).1) = some out := hout
        rw [← Option.some_injective _ hout]
        exact goodL_listSwap h _
      · exact typoSubst_good h _ out hout
    · rw [if_neg h3] at hout
      exact typoSubst_good h _ out hout
  · rw [if_neg h2] at hout
    exact typoSubst_good h _ out hout

theorem wordVariantMorph_good {word wl : List Char} (hwl : goodL wl)
    (r : Rng) : ∀ out, (wordVariantMorph word wl r).1 = some out → goodL out := by
  intro out hout
  unfold wordVariantMorph at hout
  split_ifs at hout
  · replace hout : some (apply_case_style word (wl.take (wl.length - 2) ++ ['i', 'n', 'g'])) =
        some out := hout
    rw [← Option.some_injective _ hout]
    exact goodL_apply_case_style (goodL_append (goodL_take hwl _) (by decide))
  · replace hout : some (apply_case_style word (wl.take (wl.length - 3) ++ ['e', 'd'])) =
        some out := hout
    rw [← Option.some_injective _ hout]
    exact goodL_apply_case_style (goodL_append (goodL_take hwl _) (by decide))

theorem word_variant_good {word : List Char} (h : goodL word) (r : Rng) :
    ∀ out, (word_variant word r).1 = some out → goodL out := by
  intro out hout
  unfold word_variant at hout
  try dsimp only at hout
  split_ifs at hout with h1 h2
  · exact wordVariantMorph_good (goodL_map_lower h) _ out hout
  · replace hout : some (apply_case_style word ((synonymOptions (word.map asciiLower)).getD
        (genRangeLt 0 (synonymOptions (word.map asciiLower)).length r).1 [])) = some out := hout
    rw [← Option.some_injective _ hout]
    refine goodL_apply_case_style ?_
    by_cases hlt : (genRangeLt 0 (synonymOptions (word.map asciiLower)).length r).1 <
        (synonymOptions (word.map asciiLower)).length
    · exact goodL_synonymOptions _ _ (getD_mem_of_lt2 _ _ _ hlt)
    · rw [List.getD_eq_getElem?_getD, List.getElem?_eq_none (by omega)]
      decide
  · exact wordVariantMorph_good (goodL_map_lower h) _ out hout

/-- Typing a good string refines to the simulator and keeps the buffer good. -/
theorem type_string_sim :
    ∀ (s : List Char) (b : ActionBuilder) (e : EditorState) (wpm : ℚ) (r : Rng)
      (res : ActionBuilder × EditorState × Rng),
      goodL s → goodBuf e → type_string b e s wpm r = .ok res →
      SimDiff b e res.1 res.2.1 ∧ goodBuf res.2.1 := by
  intro s
  induction s with
  | nil =>
    intro b e wpm r res _ hg h
    cases h
    exact ⟨simDiff_refl b e, hg⟩
  | cons c cs ih =>
    intro b e wpm r res hgs hg h
    rw [type_string] at h
    rcases hk : keystroke_for_output_char c with _ | stroke
    · rw [hk] at h
      exact Except.noConfusion h
    · rw [hk] at h
      try dsimp only at h
      have hstep := simDiff_trans (simDiff_type_char b e c stroke r hk)
        (simDiff_wait ((b.type_char stroke r).1) (e.insert_char c)
          (delayAfterChar c wpm (b.type_char stroke r).2).1)
      have hg1 : goodBuf (e.insert_char c) :=
        goodBuf_insert hg (hgs c (List.mem_cons_self _ _))
      have hrest := ih _ _ wpm _ res (fun x hx => hgs x (List.mem_cons_of_mem _ hx)) hg1 h
      exact ⟨simDiff_trans hstep hrest.1, hrest.2⟩

theorem backspaceLoop_sim :
    ∀ (n : Nat) (b : ActionBuilder) (e : EditorState) (r : Rng),
      goodBuf e →
      SimDiff b e (backspaceLoop b e r n).1 (backspaceLoop b e r n).2.1 ∧
        goodBuf (backspaceLoop b e r n).2.1 := by
  intro n
  induction n with
  | zero =>
    intro b e r hg
    exact ⟨simDiff_refl b e, hg⟩
  | succ m ih =>
    intro b e r hg
    rw [backspaceLoop]
    have hstep := simDiff_trans (simDiff_backspace_op b e r)
      (simDiff_wait ((b.backspace r).1) e.backspace
        (genRangeNat 15 55 (b.backspace r).2).1)
    have hrest := ih ((b.backspace r).1.wait (genRangeNat 15 55 (b.backspace r).2).1)
      e.backspace (genRangeNat 15 55 (b.backspace r).2).2 (goodBuf_backspace hg)
    exact ⟨simDiff_trans hstep hrest.1, hrest.2⟩

theorem simDiff_navPauseWait (b : ActionBuilder) (e : EditorState) (r : Rng) :
    SimDiff b e ((navPauseWait b r).1) e := by
  unfold navPauseWait
  dsimp only
  exact simDiff_wait b e _

theorem navigateLeftLoopF_sim (profile : WordNavProfile) :
    ∀ (f : Nat) (b : ActionBuilder) (e : EditorState) (t : Nat) (r : Rng),
      goodBuf e →
      SimDiff b e (navigateLeftLoopF profile f b e t r).1
          (navigateLeftLoopF profile f b e t r).2.1 ∧
        goodBuf (navigateLeftLoopF profile f b e t r).2.1 := by
  intro f
  induction f with
  | zero =>
    intro b e t r hg
    exact ⟨simDiff_refl b e, hg⟩
  | succ m ih =>
    intro b e t r hg
    rw [navigateLeftLoopF]
    split
    · split
      · have hstep := simDiff_trans (simDiff_nav_word_left b e r hg)
          (simDiff_navPauseWait ((b.nav_word_left r).1) e.move_word_left (b.nav_word_left r).2)
        have hrest := ih ((navPauseWait ((b.nav_word_left r).1) (b.nav_word_left r).2).1)
          e.move_word_left t ((navPauseWait ((b.nav_word_left r).1) (b.nav_word_left r).2).2)
          (goodBuf_move_word_left hg)
        exact ⟨simDiff_trans hstep hrest.1, hrest.2⟩
      · have hstep := simDiff_trans (simDiff_nav_left b e r)
          (simDiff_navPauseWait ((b.nav_left r).1) e.move_left (b.nav_left r).2)
        have hrest := ih ((navPauseWait ((b.nav_left r).1) (b.nav_left r).2).1)
          e.move_left t ((navPauseWait ((b.nav_left r).1) (b.nav_left r).2).2)
          (goodBuf_move_left hg)
        exact ⟨simDiff_trans hstep hrest.1, hrest.2⟩
    · exact ⟨simDiff_refl b e, hg⟩

theorem navigate_left_to_sim (b : ActionBuilder) (e : EditorState) (t : Nat)
    (profile : WordNavProfile) (r : Rng) (hg : goodBuf e) :
    SimDiff b e (navigate_left_to b e t profile r).1 (navigate_left_to b e t profile r).2.1 ∧
      goodBuf (navigate_left_to b e t profile r).2.1 := by
  unfold navigate_left_to
  cases profile
  · exact navigateLeftLoopF_sim .chrome _ b e _ r hg
  · dsimp only
    have hloop := navigateLeftLoopF_sim .compatible (e.cursor + 1) b e (min t e.buf.length) r hg
    exact ⟨simDiff_trans hloop.1 (simDiff_set_ctrl _ _ false _), hloop.2⟩

theorem navigateRightLoopF_sim (profile : WordNavProfile) :
    ∀ (f : Nat) (b : ActionBuilder) (e : EditorState) (t : Nat) (r : Rng),
      goodBuf e →
      SimDiff b e (navigateRightLoopF profile f b e t r).1
          (navigateRightLoopF profile f b e t r).2.1 ∧
        goodBuf (navigateRightLoopF profile f b e t r).2.1 := by
  intro f
  induction f with
  | zero =>
    intro b e t r hg
    exact ⟨simDiff_refl b e, hg⟩
  | succ m ih =>
    intro b e t r hg
    rw [navigateRightLoopF]
    split
    · split
      · have hstep := simDiff_trans (simDiff_nav_word_right b e r hg)
          (simDiff_wait ((b.nav_word_right r).1) e.move_word_right
            (genRangeNat 6 22 (b.nav_word_right r).2).1)
        have hrest := ih (((b.nav_word_right r).1).wait
            (genRangeNat 6 22 (b.nav_word_right r).2).1)
          e.move_word_right t ((genRangeNat 6 22 (b.nav_word_right r).2).2)
          (goodBuf_move_word_right hg)
        exact ⟨simDiff_trans hstep hrest.1, hrest.2⟩
      · have hstep := simDiff_trans (simDiff_nav_right b e r)
          (simDiff_wait ((b.nav_right r).1) e.move_right
            (genRangeNat 6 22 (b.nav_right r).2).1)
        have hrest := ih (((b.nav_right r).1).wait (genRangeNat 6 22 (b.nav_right r).2).1)
          e.move_right t ((genRangeNat 6 22 (b.nav_right r).2).2)
          (goodBuf_move_right hg)
        exact ⟨simDiff_trans hstep hrest.1, hrest.2⟩
    · exact ⟨simDiff_refl b e, hg⟩

theorem navigate_right_to_sim (b : ActionBuilder) (e : EditorState) (t : Nat)
    (profile : WordNavProfile) (r : Rng) (hg : goodBuf e) :
    SimDiff b e (navigate_right_to b e t profile r).1 (navigate_right_to b e t profile r).2.1 ∧
      goodBuf (navigate_right_to b e t profile r).2.1 := by
  unfold navigate_right_to
  dsimp only
  have hloop := navigateRightLoopF_sim profile (min t e.buf.length + 1 - e.cursor) b e
    (min t e.buf.length) r hg
  exact ⟨simDiff_trans hloop.1 (simDiff_set_ctrl _ _ false _), hloop.2⟩

theorem replace_at_end_sim (b : ActionBuilder) (e : EditorState) (wrong correct : List Char)
    (wpm : ℚ) (r : Rng) (res : ActionBuilder × EditorState × Rng)
    (hgc : goodL correct) (hg : goodBuf e)
    (h : replace_at_end b e wrong correct wpm r = .ok res) :
    SimDiff b e res.1 res.2.1 ∧ goodBuf res.2.1 := by
  unfold replace_at_end at h
  try dsimp only at h
  have hbs := backspaceLoop_sim wrong.length (b.wait (genRangeNat 60 260 r).1) e
    (genRangeNat 60 260 r).2 hg
  have hts := type_string_sim correct _ _ wpm _ res hgc hbs.2 h
  exact ⟨simDiff_trans (simDiff_trans (simDiff_wait b e _) hbs.1) hts.1, hts.2⟩

theorem fix_error_at_position_sim (b : ActionBuilder) (e : EditorState)
    (err : OutstandingError) (wpm : ℚ) (profile : WordNavProfile) (r : Rng)
    (res : ActionBuilder × EditorState × Rng)
    (hge : goodErr err) (hg : goodBuf e)
    (h : fix_error_at_position b e err wpm profile r = .ok res) :
    SimDiff b e res.1 res.2.1 ∧ goodBuf res.2.1 := by
  unfold fix_error_at_position at h
  dsimp only at h
  split_ifs at h
  set n := navigate_left_to b e (err.start + err.wrong.length) profile r with hn
  set pw := genRangeNat 50 220 n.2.2 with hpw
  set t := backspaceLoop (n.1.wait pw.1) n.2.1 pw.2 err.wrong.length with ht
  rcases hts : type_string t.1 t.2.1 err.correct wpm t.2.2 with e' | u
  · rw [hts] at h
    exact Except.noConfusion h
  · rw [hts] at h
    replace h : Except.ok (navigate_right_to u.1 u.2.1 u.2.1.buf.length profile u.2.2) =
      Except.ok res := h
    injection h with h2
    subst h2
    have hnav := navigate_left_to_sim b e (err.start + err.wrong.length) profile r hg
    have hbs := backspaceLoop_sim err.wrong.length (n.1.wait pw.1) n.2.1 pw.2 hnav.2
    have hts2 := type_string_sim err.correct t.1 t.2.1 wpm t.2.2 u hge hbs.2 hts
    have hnr := navigate_right_to_sim u.1 u.2.1 u.2.1.buf.length profile u.2.2 hts2.2
    refine ⟨?_, hnr.2⟩
    exact simDiff_trans (simDiff_trans (simDiff_trans
      (simDiff_trans hnav.1 (simDiff_wait n.1 n.2.1 pw.1)) hbs.1) hts2.1) hnr.1

/-- The typed-wrong-word tail of `handle_word` (shared by the variant-first
and typo-first draws). -/
theorem handle_word_core (cfg : PlannerConfig) (b : ActionBuilder) (e : EditorState)
    (outstanding : List OutstandingError) (word wrongWord : List Char) (wpm : ℚ) (r2 : Rng)
    (res : ActionBuilder × EditorState × List OutstandingError × Rng)
    (hgw : goodL word) (hgww : goodL wrongWord) (hg : goodBuf e) (hge : goodErrs outstanding)
    (h : (type_string b e wrongWord wpm r2).bind (fun t =>
        if (genBool cfg.immediate_fix_rate t.2.2).1 = true then
          (replace_at_end t.1 t.2.1 wrongWord word wpm (genBool cfg.immediate_fix_rate
            t.2.2).2).map (fun u => (u.1, u.2.1, outstanding, u.2.2))
        else
          Except.ok (t.1, t.2.1,
            outstanding ++ [⟨e.cursor, wrongWord, word,
              (genRangeNat 25 220 (genBool cfg.immediate_fix_rate t.2.2).2).1,
              .cNone⟩],
            (genRangeNat 25 220 (genBool cfg.immediate_fix_rate t.2.2).2).2)) = .ok res) :
    SimDiff b e res.1 res.2.1 ∧ goodBuf res.2.1 ∧ goodErrs res.2.2.1 := by
  rcases hts : type_string b e wrongWord wpm r2 with e' | t
  · rw [hts] at h
    exact Except.noConfusion h
  · rw [hts] at h
    have hts2 := type_string_sim wrongWord b e wpm r2 t hgww hg hts
    rw [ok_bind] at h
    try dsimp only at h
    split_ifs at h with hfix
    · rcases hre : replace_at_end t.1 t.2.1 wrongWord word wpm
          (genBool cfg.immediate_fix_rate t.2.2).2 with e' | u
      · rw [hre] at h
        exact Except.noConfusion h
      · rw [hre] at h
        replace h : Except.ok (u.1, u.2.1, outstanding, u.2.2) = Except.ok res := h
        injection h with h2
        subst h2
        have hre2 := replace_at_end_sim t.1 t.2.1 wrongWord word wpm _ u hgw hts2.2 hre
        exact ⟨simDiff_trans hts2.1 hre2.1, hre2.2, hge⟩
    · injection h with h2
      subst h2
      refine ⟨hts2.1, hts2.2, ?_⟩
      intro x hx
      rcases List.mem_append.mp hx with hx | hx
      · exact hge x hx
      · rcases List.mem_cons.mp hx with rfl | hx
        · exact hgw
        · exact absurd hx (List.not_mem_nil x)

/-- The plain typed-word tail of `handle_word`. -/
theorem handle_word_plain (b : ActionBuilder) (e : EditorState)
    (outstanding : List OutstandingError) (word : List Char) (wpm : ℚ) (r2 : Rng)
    (res : ActionBuilder × EditorState × List OutstandingError × Rng)
    (hgw : goodL word) (hg : goodBuf e) (hge : goodErrs outstanding)
    (h : Except.map (fun t => (t.1, t.2.1, outstanding, t.2.2))
        (type_string b e word wpm r2) = .ok res) :
    SimDiff b e res.1 res.2.1 ∧ goodBuf res.2.1 ∧ goodErrs res.2.2.1 := by
  rcases hts : type_string b e word wpm r2 with e' | t
  · rw [hts] at h
    exact Except.noConfusion h
  · rw [hts] at h
    replace h : Except.ok (t.1, t.2.1, outstanding, t.2.2) = Except.ok res := h
    injection h with h2
    subst h2
    have hts2 := type_string_sim word b e wpm r2 t hgw hg hts
    exact ⟨hts2.1, hts2.2, hge⟩

theorem handle_word_sim (cfg : PlannerConfig) (b : ActionBuilder) (e : EditorState)
    (outstanding : List OutstandingError) (word : List Char) (wpm : ℚ) (r : Rng)
    (res : ActionBuilder × EditorState × List OutstandingError × Rng)
    (hgw : goodL word) (hg : goodBuf e) (hge : goodErrs outstanding)
    (h : handle_word cfg b e outstanding word wpm r = .ok res) :
    SimDiff b e res.1 res.2.1 ∧ goodBuf res.2.1 ∧ goodErrs res.2.2.1 := by
  unfold handle_word at h
  try dsimp only at h
  split_ifs at h with hinj hpv
  · rcases hv : (word_variant word (genBool cfg.word_variant_share
        (genBool cfg.error_rate_per_word r).2).2).1 with _ | w0
    · rw [hv] at h
      try dsimp only at h
      rcases ht : (word_typo word (word_variant word (genBool cfg.word_variant_share
          (genBool cfg.error_rate_per_word r).2).2).2).1 with _ | w1
      · rw [ht] at h
        try dsimp only at h
        exact handle_word_plain b e outstanding word wpm _ res hgw hg hge h
      · rw [ht] at h
        try dsimp only at h
        exact handle_word_core cfg b e outstanding word w1 wpm _ res hgw
          (word_typo_good hgw _ w1 ht) hg hge h
    · rw [hv] at h
      try dsimp only at h
      exact handle_word_core cfg b e outstanding word w0 wpm _ res hgw
        (word_variant_good hgw _ w0 hv) hg hge h
  · rcases ht : (word_typo word (genBool cfg.word_variant_share
        (genBool cfg.error_rate_per_word r).2).2).1 with _ | w1
    · rw [ht] at h
      try dsimp only at h
      rcases hv : (word_variant word (word_typo word (genBool cfg.word_variant_share
          (genBool cfg.error_rate_per_word r).2).2).2).1 with _ | w0
      · rw [hv] at h
        try dsimp only at h
        exact handle_word_plain b e outstanding word wpm _ res hgw hg hge h
      · rw [hv] at h
        try dsimp only at h
        exact handle_word_core cfg b e outstanding word w0 wpm _ res hgw
          (word_variant_good hgw _ w0 hv) hg hge h
    · rw [ht] at h
      try dsimp only at h
      exact handle_word_core cfg b e outstanding word w1 wpm _ res hgw
        (word_typo_good hgw _ w1 ht) hg hge h
  · exact handle_word_plain b e outstanding word wpm _ res hgw hg hge h

/-- The fix-or-skip tail of `maybe_fix`, with the decision generalized. -/
theorem maybe_fix_core (cfg : PlannerConfig) (b : ActionBuilder) (e : EditorState)
    (outstanding : List OutstandingError) (err : OutstandingError) (wpm : ℚ) (r2 : Rng)
    (sf : Bool) (res : ActionBuilder × EditorState × List OutstandingError × Rng)
    (hg : goodBuf e) (hge : goodErrs outstanding) (hgerr : goodErr err)
    (h : (if sf = true then
        (fix_error_at_position b e err wpm cfg.word_nav_profile r2).bind (fun t =>
          Except.ok (t.1.wait (genRangeNat 80 420 t.2.2).1, t.2.1, outstanding.dropLast,
            (genRangeNat 80 420 t.2.2).2))
      else Except.ok (b, e, outstanding, r2)) = .ok res) :
    SimDiff b e res.1 res.2.1 ∧ goodBuf res.2.1 ∧ goodErrs res.2.2.1 := by
  split_ifs at h with hsf
  · rcases hfx : fix_error_at_position b e err wpm cfg.word_nav_profile r2 with e' | t
    · rw [hfx] at h
      exact Except.noConfusion h
    · rw [hfx] at h
      replace h : Except.ok (t.1.wait (genRangeNat 80 420 t.2.2).1, t.2.1,
          outstanding.dropLast, (genRangeNat 80 420 t.2.2).2) = Except.ok res := h
      injection h with h2
      subst h2
      have hfx2 := fix_error_at_position_sim b e err wpm cfg.word_nav_profile r2 t hgerr hg hfx
      refine ⟨simDiff_trans hfx2.1 (simDiff_wait t.1 t.2.1 _), hfx2.2, ?_⟩
      intro x hx
      exact hge x ((List.dropLast_sublist _).subset hx)
  · injection h with h2
    subst h2
    exact ⟨simDiff_refl b e, hg, hge⟩

theorem maybe_fix_sim (cfg : PlannerConfig) (b : ActionBuilder) (e : EditorState)
    (outstanding : List OutstandingError) (lastChar : Char) (progress wpm : ℚ) (r : Rng)
    (res : ActionBuilder × EditorState × List OutstandingError × Rng)
    (hg : goodBuf e) (hge : goodErrs outstanding)
    (h : maybe_fix cfg b e outstanding lastChar progress wpm r = .ok res) :
    SimDiff b e res.1 res.2.1 ∧ goodBuf res.2.1 ∧ goodErrs res.2.2.1 := by
  unfold maybe_fix at h
  rcases hlast : outstanding.getLast? with _ | err
  · rw [hlast] at h
    try dsimp only at h
    injection h with h2
    subst h2
    exact ⟨simDiff_refl b e, hg, hge⟩
  · rw [hlast] at h
    try dsimp only at h
    exact maybe_fix_core cfg b e outstanding err wpm _ _ res hg hge
      (hge err (List.mem_of_mem_getLast? hlast)) h

theorem word_or_char_step_sim (cfg : PlannerConfig) (chars : List Char) (np : Option Nat)
    (b : ActionBuilder) (e : EditorState) (outstanding : List OutstandingError)
    (i : Nat) (wpm : ℚ) (r : Rng)
    (res : ActionBuilder × EditorState × List OutstandingError × Char × Rng)
    (hgt : goodL chars) (hg : goodBuf e) (hge : goodErrs outstanding)
    (h : word_or_char_step cfg chars np b e outstanding i wpm r = .ok res) :
    SimDiff b e res.1 res.2.1 ∧ goodBuf res.2.1 ∧ goodErrs res.2.2.1 := by
  unfold word_or_char_step at h
  by_cases hw : plIsWordChar (chars.getD i ' ') = true
  · rw [if_pos hw] at h
    cases np with
    | some p =>
      try dsimp only at h
      split_ifs at h with hip
      · rcases hts : type_string b e (listSlice chars i p) wpm r with e' | t
        · rw [hts] at h
          exact Except.noConfusion h
        · rw [hts] at h
          replace h : Except.ok (t.1, t.2.1, outstanding, chars.getD (p - 1) ' ', t.2.2) =
            Except.ok res := h
          injection h with h2
          subst h2
          have hts2 := type_string_sim (listSlice chars i p) b e wpm r t
            (goodL_slice hgt i p) hg hts
          exact ⟨hts2.1, hts2.2, hge⟩
      · rcases hhw : handle_word cfg b e outstanding
            (listSlice chars i (word_run_end chars i)) wpm r with e' | t
        · rw [hhw] at h
          exact Except.noConfusion h
        · rw [hhw] at h
          replace h : Except.ok (t.1, t.2.1, t.2.2.1,
            chars.getD (word_run_end chars i - 1) ' ', t.2.2.2) = Except.ok res := h
          injection h with h2
          subst h2
          have hhw2 := handle_word_sim cfg b e outstanding _ wpm r t
            (goodL_slice hgt i _) hg hge hhw
          exact ⟨hhw2.1, hhw2.2.1, hhw2.2.2⟩
    | none =>
      try dsimp only at h
      rcases hhw : handle_word cfg b e outstanding
          (listSlice chars i (word_run_end chars i)) wpm r with e' | t
      · rw [hhw] at h
        exact Except.noConfusion h
      · rw [hhw] at h
        replace h : Except.ok (t.1, t.2.1, t.2.2.1,
          chars.getD (word_run_end chars i - 1) ' ', t.2.2.2) = Except.ok res := h
        injection h with h2
        subst h2
        have hhw2 := handle_word_sim cfg b e outstanding _ wpm r t
          (goodL_slice hgt i _) hg hge hhw
        exact ⟨hhw2.1, hhw2.2.1, hhw2.2.2⟩
  · rw [if_neg hw] at h
    try dsimp only at h
    by_cases hsp : chars.getD i ' ' = ' '
    · rw [if_pos hsp] at h
      split_ifs at h with hbb
      · rcases hts : type_string b e [' ', ' '] wpm (genBool (15/1000) r).2 with e' | t
        · rw [hts] at h
          exact Except.noConfusion h
        · rw [hts] at h
          rw [ok_bind] at h
          try dsimp only at h
          injection h with h2
          subst h2
          have hts2 := type_string_sim [' ', ' '] b e wpm _ t (by decide) hg hts
          refine ⟨hts2.1, hts2.2, ?_⟩
          intro x hx
          rcases List.mem_append.mp hx with hx | hx
          · exact hge x hx
          · rcases List.mem_cons.mp hx with rfl | hx
            · exact (show goodL ([' '] : List Char) by decide)
            · exact absurd hx (List.not_mem_nil x)
      · rcases hts : type_string b e [chars.getD i ' '] wpm (genBool (15/1000) r).2
            with e' | t
        · rw [hts] at h
          exact Except.noConfusion h
        · rw [hts] at h
          replace h : Except.ok (t.1, t.2.1, outstanding, chars.getD i ' ', t.2.2) =
            Except.ok res := h
          injection h with h2
          subst h2
          have hts2 := type_string_sim [chars.getD i ' '] b e wpm _ t
            (goodL_cons (goodChar_getD hgt i) (fun x hx => absurd hx (List.not_mem_nil x)))
            hg hts
          exact ⟨hts2.1, hts2.2, hge⟩
    · rw [if_neg hsp] at h
      rcases hts : type_string b e [chars.getD i ' '] wpm r with e' | t
      · rw [hts] at h
        exact Except.noConfusion h
      · rw [hts] at h
        replace h : Except.ok (t.1, t.2.1, outstanding, chars.getD i ' ', t.2.2) =
          Except.ok res := h
        injection h with h2
        subst h2
        have hts2 := type_string_sim [chars.getD i ' '] b e wpm r t
          (goodL_cons (goodChar_getD hgt i) (fun x hx => absurd hx (List.not_mem_nil x)))
          hg hts
        exact ⟨hts2.1, hts2.2, hge⟩

/-- The main pass refines to the simulator, keeping buffer and outstanding
errors good. -/
theorem main_loopF_sim (cfg : PlannerConfig) (spans : List PhraseSpan) (chars : List Char)
    (wpm : ℚ) (hgt : goodL chars) (hgs : goodSpans spans) :
    ∀ (f : Nat) (b : ActionBuilder) (e : EditorState) (outs : List OutstandingError)
      (i pI : Nat) (r : Rng) (res : ActionBuilder × EditorState × List OutstandingError × Rng),
      goodBuf e → goodErrs outs →
      main_loopF cfg spans chars wpm f b e outs i pI r = .ok res →
      SimDiff b e res.1 res.2.1 ∧ goodBuf res.2.1 ∧ goodErrs res.2.2.1 := by
  intro f
  induction f with
  | zero =>
    intro b e outs i pI r res hg hge h
    rw [main_loopF] at h
    injection h with h2
    subst h2
    exact ⟨simDiff_refl b e, hg, hge⟩
  | succ m ih =>
    intro b e outs i pI r res hg hge h
    rw [main_loopF] at h
    by_cases hi : i < chars.length
    · rw [if_pos hi] at h
      try dsimp only at h
      rcases hsp : spans[pI]? with _ | span
      · rw [hsp] at h
        try dsimp only at h
        rcases hws : word_or_char_step cfg chars none b e outs i wpm r with e' | t
        · rw [hws] at h
          exact Except.noConfusion h
        · rw [hws] at h
          rw [ok_bind] at h
          try dsimp only at h
          rcases hmf : maybe_fix cfg t.1 t.2.1 t.2.2.1 t.2.2.2.1 ((i : ℚ) / (chars.length : ℚ))
              wpm t.2.2.2.2 with e' | mm
          · rw [hmf] at h
            exact Except.noConfusion h
          · rw [hmf] at h
            rw [ok_bind] at h
            have hws2 := word_or_char_step_sim cfg chars none b e outs i wpm r t
              hgt hg hge hws
            have hmf2 := maybe_fix_sim cfg t.1 t.2.1 t.2.2.1 t.2.2.2.1 _ wpm t.2.2.2.2 mm
              hws2.2.1 hws2.2.2 hmf
            have hrec := ih mm.1 mm.2.1 mm.2.2.1 _ _ _ res hmf2.2.1 hmf2.2.2 h
            exact ⟨simDiff_trans (simDiff_trans hws2.1 hmf2.1) hrec.1, hrec.2⟩
      · rw [hsp] at h
        try dsimp only at h
        have hgsp := hgs span (List.getElem?_mem hsp)
        by_cases hstart : span.start = i
        · rw [if_pos hstart] at h
          try dsimp only at h
          by_cases hlen : outs.length < cfg.max_outstanding_errors
          · rw [if_pos hlen] at h
            rcases hts : type_string b e span.alternative wpm r with e' | t
            · rw [hts] at h
              exact Except.noConfusion h
            · rw [hts] at h
              rw [ok_bind] at h
              try dsimp only at h
              rcases hlastc : span.alternative.getLast? with _ | lc
              · rw [hlastc] at h
                try dsimp only at h
                exact Except.noConfusion h
              · rw [hlastc] at h
                try dsimp only at h
                rw [ok_bind] at h
                try dsimp only at h
                rcases hmf : maybe_fix cfg t.1 t.2.1
                    (outs ++ [⟨e.cursor, span.alternative, span.original,
                      (genRangeNat 90 420 t.2.2).1, .sentenceOrParagraphBoundary⟩]) lc
                    ((i : ℚ) / (chars.length : ℚ)) wpm (genRangeNat 90 420 t.2.2).2
                    with e' | mm
                · rw [hmf] at h
                  exact Except.noConfusion h
                · rw [hmf] at h
                  rw [ok_bind] at h
                  have hts2 := type_string_sim span.alternative b e wpm r t hgsp.2 hg hts
                  have hout2 : goodErrs (outs ++ [⟨e.cursor, span.alternative, span.original,
                      (genRangeNat 90 420 t.2.2).1, .sentenceOrParagraphBoundary⟩]) := by
                    intro x hx
                    rcases List.mem_append.mp hx with hx | hx
                    · exact hge x hx
                    · rcases List.mem_cons.mp hx with rfl | hx
                      · exact hgsp.1
                      · exact absurd hx (List.not_mem_nil x)
                  have hmf2 := maybe_fix_sim cfg t.1 t.2.1 _ lc _ wpm _ mm hts2.2 hout2 hmf
                  have hrec := ih mm.1 mm.2.1 mm.2.2.1 _ _ _ res hmf2.2.1 hmf2.2.2 h
                  exact ⟨simDiff_trans (simDiff_trans hts2.1 hmf2.1) hrec.1, hrec.2⟩
          · rw [if_neg hlen] at h
            rcases hts : type_string b e span.original wpm r with e' | t
            · rw [hts] at h
              exact Except.noConfusion h
            · rw [hts] at h
              rw [ok_bind] at h
              try dsimp only at h
              rcases hlastc : span.original.getLast? with _ | lc
              · rw [hlastc] at h
                try dsimp only at h
                exact Except.noConfusion h
              · rw [hlastc] at h
                try dsimp only at h
                rw [ok_bind] at h
                try dsimp only at h
                rcases hmf : maybe_fix cfg t.1 t.2.1 outs lc ((i : ℚ) / (chars.length : ℚ))
                    wpm t.2.2 with e' | mm
                · rw [hmf] at h
                  exact Except.noConfusion h
                · rw [hmf] at h
                  rw [ok_bind] at h
                  have hts2 := type_string_sim span.original b e wpm r t hgsp.1 hg hts
                  have hmf2 := maybe_fix_sim cfg t.1 t.2.1 outs lc _ wpm t.2.2 mm
                    hts2.2 hge hmf
                  have hrec := ih mm.1 mm.2.1 mm.2.2.1 _ _ _ res hmf2.2.1 hmf2.2.2 h
                  exact ⟨simDiff_trans (simDiff_trans hts2.1 hmf2.1) hrec.1, hrec.2⟩
        · rw [if_neg hstart] at h
          rcases hws : word_or_char_step cfg chars (some span.start) b e outs i wpm r
              with e' | t
          · rw [hws] at h
            exact Except.noConfusion h
          · rw [hws] at h
            rw [ok_bind] at h
            try dsimp only at h
            rcases hmf : maybe_fix cfg t.1 t.2.1 t.2.2.1 t.2.2.2.1
                ((i : ℚ) / (chars.length : ℚ)) wpm t.2.2.2.2 with e' | mm
            · rw [hmf] at h
              exact Except.noConfusion h
            · rw [hmf] at h
              rw [ok_bind] at h
              have hws2 := word_or_char_step_sim cfg chars (some span.start) b e outs i wpm r t
                hgt hg hge hws
              have hmf2 := maybe_fix_sim cfg t.1 t.2.1 t.2.2.1 t.2.2.2.1 _ wpm t.2.2.2.2 mm
                hws2.2.1 hws2.2.2 hmf
              have hrec := ih mm.1 mm.2.1 mm.2.2.1 _ _ _ res hmf2.2.1 hmf2.2.2 h
              exact ⟨simDiff_trans (simDiff_trans hws2.1 hmf2.1) hrec.1, hrec.2⟩
    · rw [if_neg hi] at h
      injection h with h2
      subst h2
      exact ⟨simDiff_refl b e, hg, hge⟩

theorem review_drain_sim :
    ∀ (errs : List OutstandingError) (b : ActionBuilder) (e : EditorState) (wpm : ℚ)
      (profile : WordNavProfile) (r : Rng) (res : ActionBuilder × EditorState × Rng),
      goodBuf e → (∀ x ∈ errs, goodErr x) →
      review_drain b e errs wpm profile r = .ok res →
      SimDiff b e res.1 res.2.1 ∧ goodBuf res.2.1 := by
  intro errs
  induction errs with
  | nil =>
    intro b e wpm profile r res hg _ h
    rw [review_drain] at h
    injection h with h2
    subst h2
    exact ⟨simDiff_refl b e, hg⟩
  | cons err rest ih =>
    intro b e wpm profile r res hg hge h
    rw [review_drain] at h
    rcases hfx : fix_error_at_position b e err wpm profile r with e' | t
    · rw [hfx] at h
      exact Except.noConfusion h
    · rw [hfx] at h
      rw [ok_bind] at h
      try dsimp only at h
      have hfx2 := fix_error_at_position_sim b e err wpm profile r t
        (hge err (List.mem_cons_self _ _)) hg hfx
      have hrec := ih (t.1.wait (genRangeNat 120 520 t.2.2).1) t.2.1 wpm profile
        (genRangeNat 120 520 t.2.2).2 res hfx2.2
        (fun x hx => hge x (List.mem_cons_of_mem _ hx)) h
      exact ⟨simDiff_trans (simDiff_trans hfx2.1 (simDiff_wait t.1 t.2.1 _)) hrec.1, hrec.2⟩

theorem generate_plan_impl_sim (text : List Char) (cfg : PlannerConfig)
    (spans : List PhraseSpan) (r : Rng) (plan : Plan)
    (hgt : goodL text) (hgs : goodSpans spans)
    (h : generate_plan_impl text cfg spans r = .ok plan) :
    simulate_typed_text plan = .ok (text.map typedChar) := by
  unfold generate_plan_impl at h
  rcases hvc : validate_config cfg with e' | u
  · rw [hvc] at h
    exact Except.noConfusion h
  · rw [hvc] at h
    rw [ok_bind] at h
    try dsimp only at h
    rcases hfu : find_first_unsupported_char text with _ | bc
    · rw [hfu] at h
      try dsimp only at h
      set q1 := genRangeQ cfg.wpm_min cfg.wpm_max r with hq1
      set pw := genRangeNat 250 600 q1.2 with hpw
      set b2 := ((ActionBuilder.new us_qwerty_keymap.shift_mask
        us_qwerty_keymap.ctrl_mask).set_modifiers).wait pw.1 with hb2
      rcases hml : main_loop cfg spans text q1.1 b2 ⟨[], 0⟩ [] 0 0 pw.2 with e' | m
      · rw [hml] at h
        exact Except.noConfusion h
      · rw [hml] at h
        rw [ok_bind] at h
        try dsimp only at h
        set prev := genRangeNat cfg.review_pause_ms_min cfg.review_pause_ms_max m.2.2.2
          with hprev
        set b3 := m.1.wait prev.1 with hb3
        rcases hrd : review_drain b3 m.2.1 m.2.2.1.reverse q1.1 cfg.word_nav_profile prev.2
            with e' | d
        · rw [hrd] at h
          exact Except.noConfusion h
        · rw [hrd] at h
          rw [ok_bind] at h
          try dsimp only at h
          split_ifs at h with hbuf
          injection h with h2
          subst h2
          unfold main_loop at hml
          have hm := main_loopF_sim cfg spans text q1.1 hgt hgs _ b2 ⟨[], 0⟩ [] 0 0 pw.2 m
            (fun c hc => absurd hc (List.not_mem_nil c))
            (fun x hx => absurd hx (List.not_mem_nil x)) hml
          have hd := review_drain_sim m.2.2.1.reverse b3 m.2.1 q1.1 cfg.word_nav_profile
            prev.2 d hm.2.1 (fun x hx => hm.2.2 x (List.mem_reverse.mp hx)) hrd
          have hfinal : SimDiff d.1 d.2.1
              (((d.1.set_shift false d.2.2).1.set_ctrl false
                (d.1.set_shift false d.2.2).2).1.set_modifiers) d.2.1 :=
            simDiff_trans (simDiff_trans (simDiff_set_shift d.1 d.2.1 false d.2.2)
              (simDiff_set_ctrl _ d.2.1 false _)) (simDiff_set_modifiers _ d.2.1)
          have hchain : SimDiff (ActionBuilder.new us_qwerty_keymap.shift_mask
              us_qwerty_keymap.ctrl_mask) ⟨[], 0⟩
              (((d.1.set_shift false d.2.2).1.set_ctrl false
                (d.1.set_shift false d.2.2).2).1.set_modifiers) d.2.1 :=
            simDiff_trans (simDiff_trans (simDiff_trans (simDiff_trans
              (simDiff_trans (simDiff_set_modifiers _ ⟨[], 0⟩)
                (simDiff_wait _ ⟨[], 0⟩ pw.1)) hm.1)
              (simDiff_wait m.1 m.2.1 prev.1)) hd.1) hfinal
          obtain ⟨dl, hdl, hrun⟩ := hchain
          unfold simulate_typed_text
          try dsimp only
          have hacts : (((d.1.set_shift false d.2.2).1.set_ctrl false
              (d.1.set_shift false d.2.2).2).1.set_modifiers).actions = dl := by
            rw [hdl]
            exact List.nil_append dl
          rw [hacts]
          have hinit : stOf (ActionBuilder.new us_qwerty_keymap.shift_mask
              us_qwerty_keymap.ctrl_mask) ⟨[], 0⟩ = ⟨⟨[], 0⟩, false, false⟩ := rfl
          rw [hinit] at hrun
          rw [hrun]
          show Except.ok (d.2.1.buf.map typedChar) = _
          rw [hbuf]
    · rw [hfu] at h
      exact Except.noConfusion h

theorem generate_plan_no_revision_sim (text : List Char) (cfg : PlannerConfig)
    (r : Rng) (plan : Plan) (hgt : goodL text)
    (h : generate_plan_no_revision text cfg r = .ok plan) :
    simulate_typed_text plan = .ok (text.map typedChar) := by
  unfold generate_plan_no_revision at h
  rcases hvc : validate_config cfg with e' | u
  · rw [hvc] at h
    exact Except.noConfusion h
  · rw [hvc] at h
    rw [ok_bind] at h
    try dsimp only at h
    rcases hfu : find_first_unsupported_char text with _ | bc
    · rw [hfu] at h
      try dsimp only at h
      set q1 := genRangeQ cfg.wpm_min cfg.wpm_max r with hq1
      set pw := genRangeNat 250 600 q1.2 with hpw
      set b2 := ((ActionBuilder.new us_qwerty_keymap.shift_mask
        us_qwerty_keymap.ctrl_mask).set_modifiers).wait pw.1 with hb2
      rcases hts : type_string b2 ⟨[], 0⟩ text q1.1 pw.2 with e' | t
      · rw [hts] at h
        exact Except.noConfusion h
      · rw [hts] at h
        rw [ok_bind] at h
        try dsimp only at h
        split_ifs at h with hbuf
        injection h with h2
        subst h2
        have ht2 := type_string_sim text b2 ⟨[], 0⟩ q1.1 pw.2 t hgt
          (fun c hc => absurd hc (List.not_mem_nil c)) hts
        have hfinal : SimDiff t.1 t.2.1
            (((t.1.set_shift false t.2.2).1.set_ctrl false
              (t.1.set_shift false t.2.2).2).1.set_modifiers) t.2.1 :=
          simDiff_trans (simDiff_trans (simDiff_set_shift t.1 t.2.1 false t.2.2)
            (simDiff_set_ctrl _ t.2.1 false _)) (simDiff_set_modifiers _ t.2.1)
        have hchain : SimDiff (ActionBuilder.new us_qwerty_keymap.shift_mask
            us_qwerty_keymap.ctrl_mask) ⟨[], 0⟩
            (((t.1.set_shift false t.2.2).1.set_ctrl false
              (t.1.set_shift false t.2.2).2).1.set_modifiers) t.2.1 :=
          simDiff_trans (simDiff_trans (simDiff_trans
            (simDiff_set_modifiers _ ⟨[], 0⟩) (simDiff_wait _ ⟨[], 0⟩ pw.1)) ht2.1) hfinal
        obtain ⟨dl, hdl, hrun⟩ := hchain
        unfold simulate_typed_text
        try dsimp only
        have hacts : (((t.1.set_shift false t.2.2).1.set_ctrl false
            (t.1.set_shift false t.2.2).2).1.set_modifiers).actions = dl := by
          rw [hdl]
          exact List.nil_append dl
        rw [hacts]
        have hinit : stOf (ActionBuilder.new us_qwerty_keymap.shift_mask
            us_qwerty_keymap.ctrl_mask) ⟨[], 0⟩ = ⟨⟨[], 0⟩, false, false⟩ := rfl
        rw [hinit] at hrun
        rw [hrun]
        show Except.ok (t.2.1.buf.map typedChar) = _
        rw [hbuf]
    · rw [hfu] at h
      exact Except.noConfusion h

theorem itemsToSpans_good :
    ∀ (items : List PhraseAlternative) (L : Nat) (para : List Char) (ps : Nat)
      (ss : List PhraseSpan),
      (∀ item ∈ items, goodL item.original ∧ goodL item.alternative) →
      itemsToSpans L para ps items = .ok ss → goodSpans ss := by
  intro items
  induction items with
  | nil =>
    intro L para ps ss _ h
    injection h with h2
    subst h2
    exact fun sp hsp => absurd hsp (List.not_mem_nil sp)
  | cons item rest ih =>
    intro L para ps ss hgi h
    rw [itemsToSpans] at h
    rcases hocc : firstOccAt item.original para with _ | ls
    · rw [hocc] at h
      exact Except.noConfusion h
    · rw [hocc] at h
      try dsimp only at h
      split_ifs at h with hb
      rcases hrest : itemsToSpans L para ps rest with e' | more
      · rw [hrest] at h
        exact Except.noConfusion h
      · rw [hrest] at h
        replace h : Except.ok ((⟨ps + ls, item.original, item.alternative,
            item.original.length⟩ : PhraseSpan) :: more) = Except.ok ss := h
        injection h with h2
        subst h2
        intro sp hsp
        rcases List.mem_cons.mp hsp with rfl | hsp
        · exact ⟨(hgi item (List.mem_cons_self _ _)).1, (hgi item (List.mem_cons_self _ _)).2⟩
        · exact ih L para ps more (fun it hit => hgi it (List.mem_cons_of_mem _ hit)) hrest
            sp hsp

theorem spansForParagraphs_good :
    ∀ (prs : List ((Nat × Nat) × List PhraseAlternative)) (text : List Char)
      (ss : List PhraseSpan),
      (∀ pr ∈ prs, ∀ item ∈ pr.2, goodL item.original ∧ goodL item.alternative) →
      spansForParagraphs text prs = .ok ss → goodSpans ss := by
  intro prs
  induction prs with
  | nil =>
    intro text ss _ h
    injection h with h2
    subst h2
    exact fun sp hsp => absurd hsp (List.not_mem_nil sp)
  | cons pr rest ih =>
    intro text ss hgi h
    obtain ⟨ps, items⟩ := pr
    rw [spansForParagraphs] at h
    rcases hv : validate_phrase_alternatives (listSlice text ps.1 ps.2) items with e' | u
    · rw [hv] at h
      exact Except.noConfusion h
    · rw [hv] at h
      try dsimp only at h
      rcases hits : itemsToSpans text.length (listSlice text ps.1 ps.2) ps.1 items
          with e' | ss1
      · rw [hits] at h
        exact Except.noConfusion h
      · rw [hits] at h
        rw [ok_bind] at h
        try dsimp only at h
        rcases hrest : spansForParagraphs text rest with e' | more
        · rw [hrest] at h
          exact Except.noConfusion h
        · rw [hrest] at h
          replace h : Except.ok (ss1 ++ more) = Except.ok ss := h
          injection h with h2
          subst h2
          have h1 := itemsToSpans_good items text.length (listSlice text ps.1 ps.2) ps.1 ss1
            (fun it hit => hgi (ps, items) (List.mem_cons_self _ _) it hit) hits
          have h2 := ih text more (fun q hq it hit =>
            hgi q (List.mem_cons_of_mem _ hq) it hit) hrest
          intro sp hsp
          rcases List.mem_append.mp hsp with hsp | hsp
          · exact h1 sp hsp
          · exact h2 sp hsp

theorem phrase_spans_good (text : List Char) (alts : List (List PhraseAlternative))
    (spans : List PhraseSpan)
    (halts : ∀ l ∈ alts, ∀ item ∈ l, goodL item.original ∧ goodL item.alternative)
    (h : phrase_spans_from_paragraph_alternatives text alts = .ok spans) :
    goodSpans spans := by
  unfold phrase_spans_from_paragraph_alternatives at h
  dsimp only at h
  split_ifs at h with hlen
  rcases hsp : spansForParagraphs text ((paragraph_spans text).zip alts) with e' | ss
  · rw [hsp] at h
    exact Except.noConfusion h
  · rw [hsp] at h
    rw [ok_bind] at h
    try dsimp only at h
    split_ifs at h with hno
    injection h with h2
    subst h2
    have hss := spansForParagraphs_good _ text ss ?_ hsp
    · intro sp hsp2
      exact hss sp ((List.perm_insertionSort leStart ss).mem_iff.mp hsp2)
    · rintro ⟨p1, p2⟩ hpr item hitem
      exact halts p2 (List.of_mem_zip hpr).2 item hitem

theorem typedChar_id (c : Char) (h : ¬ (c = '’' ∨ c = '‘' ∨ c = '”' ∨ c = '“')) :
    typedChar c = c := by
  unfold typedChar typed_char_for_output_char
  split_ifs with h1 h2 h3 h4 h5
  · rw [h1]
    rfl
  · rfl
  · exact absurd h3 (by tauto)
  · exact absurd h4 (by tauto)
  · rfl
  · rfl

theorem map_typedChar_id (l : List Char)
    (h : ∀ c ∈ l, ¬ (c = '’' ∨ c = '‘' ∨ c = '”' ∨ c = '“')) : l.map typedChar = l := by
  induction l with
  | nil => rfl
  | cons x xs ih =>
    rw [List.map_cons, typedChar_id x (h x (List.mem_cons_self _ _)),
      ih (fun c hc => h c (List.mem_cons_of_mem _ hc))]

/-- Counterexample to C1 as stated: for the one-character text `’` (a smart
quote) the planner emits the apostrophe keystroke, so replaying the plan
yields `'`, not the target text `’`. -/
theorem c1_counterexample :
    (generate_plan ['’'] defaultPlannerConfig
      ⟨fun _ => 18446744073709551615, 0⟩).toOption.isSome = true ∧
    simulate_typed_text ((generate_plan ['’'] defaultPlannerConfig
      ⟨fun _ => 18446744073709551615, 0⟩).toOption.getD ⟨0, ⟨"", 0, "", 0⟩, []⟩) =
      .ok ['\''] ∧
    (['\''] : List Char) ≠ ['’'] := by
  refine ⟨by decide, by decide, by decide⟩

/-- C1 (amended).  For every target text whose characters avoid `‘` (the one
character whose planner word-class differs from its typed image's simulator
word-class), every config and RNG: a plan returned by `generate_plan`
replays through `simulate_typed_text` to exactly the typed image of the
target text — the text with each smart quote replaced by its ASCII
keystroke; likewise for `generate_plan_with_phrase_alternatives` when the
alternatives also avoid `‘`.  On texts with no smart quotes at all the typed
image is the text itself, giving the claim's statement. -/
theorem c1_fidelity :
    (∀ (text : List Char) (cfg : PlannerConfig) (r : Rng) (plan : Plan),
      goodL text → generate_plan text cfg r = .ok plan →
      simulate_typed_text plan = .ok (text.map typedChar)) ∧
    (∀ (text : List Char) (cfg : PlannerConfig) (alts : List (List PhraseAlternative))
      (r : Rng) (plan : Plan),
      goodL text →
      (∀ l ∈ alts, ∀ item ∈ l, goodL item.original ∧ goodL item.alternative) →
      generate_plan_with_phrase_alternatives text cfg alts r = .ok plan →
      simulate_typed_text plan = .ok (text.map typedChar)) ∧
    (∀ text : List Char, (∀ c ∈ text, ¬ (c = '’' ∨ c = '‘' ∨ c = '”' ∨ c = '“')) →
      text.map typedChar = text) := by
  refine ⟨?_, ?_, ?_⟩
  · intro text cfg r plan hgt h
    unfold generate_plan at h
    split_ifs at h
    · exact generate_plan_no_revision_sim text cfg r plan hgt h
    · exact generate_plan_impl_sim text cfg [] r plan hgt
        (fun sp hsp => absurd hsp (List.not_mem_nil sp)) h
  · intro text cfg alts r plan hgt halts h
    unfold generate_plan_with_phrase_alternatives at h
    rcases hfu : find_first_unsupported_char text with _ | bc
    · rw [hfu] at h
      try dsimp only at h
      rcases hps : phrase_spans_from_paragraph_alternatives text alts with e' | spans
      · rw [hps] at h
        exact Except.noConfusion h
      · rw [hps] at h
        rw [ok_bind] at h
        exact generate_plan_impl_sim text cfg spans r plan hgt
          (phrase_spans_good text alts spans halts hps) h
    · rw [hfu] at h
      exact Except.noConfusion h
  · exact map_typedChar_id

/-- Witness for C1's amended theorem at a concrete input. -/
theorem c1_fidelity_witness :
    simulate_typed_text ((generate_plan "hi".toList defaultPlannerConfig
      ⟨fun _ => 18446744073709551615, 0⟩).toOption.getD ⟨0, ⟨"", 0, "", 0⟩, []⟩) =
      .ok ("hi".toList.map typedChar) := by
  have h : generate_plan "hi".toList defaultPlannerConfig
      ⟨fun _ => 18446744073709551615, 0⟩ =
      .ok ((generate_plan "hi".toList defaultPlannerConfig
        ⟨fun _ => 18446744073709551615, 0⟩).toOption.getD ⟨0, ⟨"", 0, "", 0⟩, []⟩) := by
    decide
  exact c1_fidelity.1 "hi".toList defaultPlannerConfig _ _ (by decide) h

end Drafter
